import Mathlib

/-!
# Report aggregation and printing (`requester/print.go`)

A shallow embedding of the `Report` type of `requester/print.go` and of its
methods `finalize`, `printCSV`, `print`, `printSection`, `printLatencies`,
`printHistogram`, `printStatusCodes`, `printErrors` and `printf`.

Conventions of the embedding.

* `time.Duration` is an integer number of nanoseconds (`Int`); `Seconds()` is the
  exact rational `d / 10^9`.
* A `float64` that is read from a latency slice (`Seconds()` of a duration, always
  finite) is an exact rational `ℚ`.  A `float64` field that receives the result of a
  floating-point division is an `F64`: an exact rational or one of the IEEE specials
  `±Inf`, `NaN`, so that `x / 0` is what Go computes and not a convention of the
  rationals.
* The bucket edges of `printHistogram` come in two forms.  `histBuckets` evaluates
  `Fastest + bs * i` in exact arithmetic; it serves the statements that hold for any
  non-decreasing edges ending in `Slowest` (sum of the counts, termination, largest
  count, bars).  `histEdges rnd` evaluates the same expressions with every `float64`
  operation rounded by `rnd`, and `round64` is the rounding of binary64 (to nearest,
  ties to even); the statements about the value of an edge and about the bucket a
  sample falls in are made on `histEdges`, for every non-decreasing `rnd` with
  `rnd 0 = 0`, and evaluated with `round64` on the `float64` seconds of 10, 20 and
  60 ms.
* The channel `Results` is the list of the items its producer sends before closing it.
* A Go map is an association list with distinct keys; `m[k]++` is `incr k m`.  Go
  iterates a map in an unspecified order; the embedding iterates in list order.
* The writer `w` is the list of the `Fprintf` calls made on it, each recorded with its
  format string and its arguments.
* A run-time index fault is `Except.error Err.indexOutOfRange`, an integer division by
  zero `Except.error Err.divideByZero`; loops whose
  termination is not syntactically evident take fuel and return
  `Except.error Err.outOfFuel` when it is used up.
* Slice lengths and `int` counters are natural numbers: they are bounded by the number
  of results held in memory and cannot reach `2^63`.  The `int64` byte total wraps.
-/

namespace requester

/-- The ways an embedded operation can fail to produce a value. -/
inductive Err where
  | indexOutOfRange
  | outOfFuel
  | divideByZero
  deriving DecidableEq, Repr

/-- A `float64` as an exact rational or an IEEE special value. -/
inductive F64 where
  | fin (q : ℚ)
  | inf (neg : Bool)
  | nan
  deriving DecidableEq

namespace F64

/-- Floating-point addition, exact on finite values. -/
def add : F64 → F64 → F64
  | fin a, fin b => fin (a + b)
  | fin _, inf s => inf s
  | inf s, fin _ => inf s
  | inf s, inf t => if s = t then inf s else nan
  | nan, _ => nan
  | _, nan => nan

/-- Floating-point division, exact on finite values with a non-zero divisor;
`x / 0` is `±Inf` for `x ≠ 0` and `NaN` for `x = 0`. -/
def div : F64 → F64 → F64
  | fin a, fin b =>
    if b = 0 then (if a = 0 then nan else inf (decide (a < 0))) else fin (a / b)
  | fin _, inf _ => fin 0
  | inf s, fin b => inf (s != decide (b < 0))
  | inf _, inf _ => nan
  | nan, _ => nan
  | _, nan => nan

end F64

/-- `time.Duration.Seconds`: nanoseconds to seconds. -/
def seconds (d : Int) : ℚ := (d : ℚ) / 1000000000

/-- Wrap-around of a mathematical integer into the `int64` range. -/
def wrapInt64 (x : Int) : Int := (x + 9223372036854775808) % 18446744073709551616 - 9223372036854775808

/-- Modelled from the spec: the type `result` is declared outside `print.go`; its
fields are the ones `finalize` reads.  A success has `err = none` and carries a total
duration, the phase durations, a status code and a content length; a failure carries
the display string of its error. -/
structure result where
  err : Option String
  statusCode : Int
  duration : Int
  connDuration : Int
  dnsDuration : Int
  reqDuration : Int
  resDuration : Int
  delayDuration : Int
  contentLength : Int

/-- An argument of a `Fprintf` call. -/
inductive Arg where
  | float (x : F64)
  | int (n : Int)
  | str (s : String)
  deriving DecidableEq

/-- One `Fprintf` call: format string and arguments. -/
structure Printf where
  fmt : String
  args : List Arg
  deriving DecidableEq

def barChar : String := "âˆŽ"

structure Report where
  AvgTotal : F64
  Fastest : ℚ
  Slowest : ℚ
  Average : F64
  RPS : F64
  AvgConn : F64
  AvgDNS : F64
  AvgReq : F64
  AvgRes : F64
  AvgDelay : F64
  ConnLats : List ℚ
  DNSLats : List ℚ
  ReqLats : List ℚ
  ResLats : List ℚ
  DelayLats : List ℚ
  Results : List result
  Total : Int
  errorDist : List (String × Nat)
  statusCodeDist : List (Int × Nat)
  lats : List ℚ
  sizeTotal : Int
  output : String
  w : List Printf

/-- The map update `m[k]++`: a missing key reads as `0`. -/
def incr {κ : Type} [DecidableEq κ] (k : κ) : List (κ × Nat) → List (κ × Nat)
  | [] => [(k, 1)]
  | (k', n) :: m => if k' = k then (k', n + 1) :: m else (k', n) :: incr k m

/-- Sum of the counts held in a distribution map. -/
def distTotal {κ : Type} (m : List (κ × Nat)) : Nat := (m.map Prod.snd).sum

def newReport (w : List Printf) (_size : Int) (results : List result) (output : String)
    (total : Int) : Report where
  AvgTotal := F64.fin 0
  Fastest := 0
  Slowest := 0
  Average := F64.fin 0
  RPS := F64.fin 0
  AvgConn := F64.fin 0
  AvgDNS := F64.fin 0
  AvgReq := F64.fin 0
  AvgRes := F64.fin 0
  AvgDelay := F64.fin 0
  ConnLats := []
  DNSLats := []
  ReqLats := []
  ResLats := []
  DelayLats := []
  Results := results
  Total := total
  errorDist := []
  statusCodeDist := []
  lats := []
  sizeTotal := 0
  output := output
  w := w

/-- The body of the `for res := range r.Results` loop of `finalize`. -/
def accumulate (r : Report) (res : result) : Report :=
  match res.err with
  | some e => { r with errorDist := incr e r.errorDist }
  | none =>
    { r with
      lats := r.lats ++ [seconds res.duration]
      AvgTotal := r.AvgTotal.add (F64.fin (seconds res.duration))
      AvgConn := r.AvgConn.add (F64.fin (seconds res.connDuration))
      AvgDelay := r.AvgDelay.add (F64.fin (seconds res.delayDuration))
      AvgDNS := r.AvgDNS.add (F64.fin (seconds res.dnsDuration))
      AvgReq := r.AvgReq.add (F64.fin (seconds res.reqDuration))
      AvgRes := r.AvgRes.add (F64.fin (seconds res.resDuration))
      ConnLats := r.ConnLats ++ [seconds res.connDuration]
      DNSLats := r.DNSLats ++ [seconds res.dnsDuration]
      ReqLats := r.ReqLats ++ [seconds res.reqDuration]
      DelayLats := r.DelayLats ++ [seconds res.delayDuration]
      ResLats := r.ResLats ++ [seconds res.resDuration]
      statusCodeDist := incr res.statusCode r.statusCodeDist
      sizeTotal := if res.contentLength > 0 then wrapInt64 (r.sizeTotal + res.contentLength)
                   else r.sizeTotal }

/-- The state of the report once the channel is drained, before the divisions. -/
def drain (r : Report) : Report :=
  { r.Results.foldl accumulate r with Results := [] }

def Report.finalize (r : Report) : Report :=
  let r := drain r
  let n : F64 := F64.fin (r.lats.length : ℚ)
  let r := { r with RPS := F64.div n (F64.fin (seconds r.Total)) }
  let r := { r with Average := F64.div r.AvgTotal n }
  let r := { r with AvgConn := F64.div r.AvgConn n }
  let r := { r with AvgDelay := F64.div r.AvgDelay n }
  let r := { r with AvgDNS := F64.div r.AvgDNS n }
  let r := { r with AvgReq := F64.div r.AvgReq n }
  { r with AvgRes := F64.div r.AvgRes n }

def Report.printf (r : Report) (s : String) (v : List Arg) : Report :=
  { r with w := r.w ++ [⟨s, v⟩] }

/-- The `for i, val := range r.lats` loop of `printCSV`, at index `i` with the
elements from `i` on still to visit. -/
def printCSVRows : Report → Nat → List ℚ → Except Err Report
  | r, _, [] => .ok r
  | r, i, val :: rest =>
    match r.ConnLats[i]?, r.DNSLats[i]?, r.ReqLats[i]?, r.DelayLats[i]?, r.ResLats[i]? with
    | some c, some d, some q, some dl, some rs =>
      printCSVRows
        (r.printf "%4.4f,%4.4f,%4.4f,%4.4f,%4.4f,%4.4f\n"
          [.float (.fin val), .float (.fin c), .float (.fin d), .float (.fin q),
            .float (.fin dl), .float (.fin rs)])
        (i + 1) rest
    | _, _, _, _, _ => .error .indexOutOfRange

def Report.printCSV (r : Report) : Except Err Report :=
  let r := r.printf "response-time,DNS+dialup,DNS,Request-write,Response-delay,Response-read\n" []
  printCSVRows r 0 r.lats

/-- `sort.Float64s` of the Go standard library: ascending sort (in place in Go; the
sorted slice is returned here). -/
def sortFloat64s (l : List ℚ) : List ℚ := l.insertionSort (· ≤ ·)

/-- `printSection` sorts the slice it is given in place, so the caller's slice, which
shares its backing array, is sorted too: the sorted slice is returned with the report. -/
def Report.printSection (r : Report) (tag : String) (avg : F64) (lats : List ℚ) :
    Except Err (Report × List ℚ) :=
  let lats := sortFloat64s lats
  match lats[0]?, lats[lats.length - 1]? with
  | some fastest, some slowest =>
    let r := r.printf "\n  %s:\t" [.str tag]
    let r := r.printf " %4.4f secs, %4.4f secs, %4.4f secs"
      [.float avg, .float (.fin fastest), .float (.fin slowest)]
    .ok (r, lats)
  | _, _ => .error .indexOutOfRange

/-- The five phase slices of a report, as arguments of `printSection`. -/
inductive Phase where
  | conn
  | dns
  | req
  | delay
  | res
  deriving DecidableEq, Repr

/-- The phase slice of a report. -/
def Phase.get : Phase → Report → List ℚ
  | .conn, r => r.ConnLats
  | .dns, r => r.DNSLats
  | .req, r => r.ReqLats
  | .delay, r => r.DelayLats
  | .res, r => r.ResLats

/-- The report with one phase slice replaced. -/
def Phase.set : Phase → Report → List ℚ → Report
  | .conn, r, l => { r with ConnLats := l }
  | .dns, r, l => { r with DNSLats := l }
  | .req, r, l => { r with ReqLats := l }
  | .delay, r, l => { r with DelayLats := l }
  | .res, r, l => { r with ResLats := l }

/-- The call `r.printSection(tag, avg, s)` of `print`, where `s` is the phase slice `p`
of `r` itself: the slice header is copied, the backing array is shared, so the in-place
sort shows in `r`'s own slice.  The five slices are grown by separate `append` chains
in `finalize` and share no backing array. -/
def Report.printSectionOf (r : Report) (tag : String) (avg : F64) (p : Phase) :
    Except Err Report :=
  match r.printSection tag avg (p.get r) with
  | .ok (r', l) => .ok (p.set r' l)
  | .error e => .error e

def pctls : List Nat := [10, 25, 50, 75, 90, 95, 99]

/-- The first loop of `printLatencies`,
`for i := 0; i < len(r.lats) && j < len(pctls); i++`, from the state `(i, j, data)`. -/
def latLoop (lats : List ℚ) : Nat → Nat → Nat → List ℚ → Except Err (List ℚ)
  | fuel, i, j, data =>
    if i < lats.length ∧ j < pctls.length then
      match fuel with
      | 0 => .error .outOfFuel
      | fuel + 1 =>
        let current := i * 100 / lats.length
        match pctls[j]? with
        | none => .error .indexOutOfRange
        | some p =>
          if current ≥ p then
            match lats[i]? with
            | none => .error .indexOutOfRange
            | some v =>
              if j < data.length then latLoop lats fuel (i + 1) (j + 1) (data.set j v)
              else .error .indexOutOfRange
          else latLoop lats fuel (i + 1) j data
    else .ok data

/-- The values `data` that `printLatencies` has computed when its first loop ends. -/
def latData (lats : List ℚ) (fuel : Nat) : Except Err (List ℚ) :=
  latLoop lats fuel 0 0 (List.replicate pctls.length 0)

/-- The second loop of `printLatencies`: one line per target whose value is `> 0`. -/
def latLines (data : List ℚ) : List Printf :=
  ((pctls.zip data).filter (fun pd => decide (pd.2 > 0))).map
    (fun pd => ⟨"  %v%% in %4.4f secs\n", [.int pd.1, .float (.fin pd.2)]⟩)

def Report.printLatencies (r : Report) (fuel : Nat) : Except Err Report :=
  match latData r.lats fuel with
  | .error e => .error e
  | .ok data =>
    let r := r.printf "\nLatency distribution:\n" []
    .ok { r with w := r.w ++ latLines data }

/-- The bucket edges built by `printHistogram`, in exact arithmetic: `bc` equally spaced
edges from `Fastest`, then `Slowest`.  The edges with every `float64` operation rounded
are `histEdges`. -/
def histBuckets (fastest slowest : ℚ) : List ℚ :=
  let bc : Nat := 10
  let bs := (slowest - fastest) / (bc : ℚ)
  (List.range bc).map (fun (i : Nat) => fastest + bs * (i : ℚ)) ++ [slowest]

/-- The variables of the bucketing loop of `printHistogram`. -/
structure HistState where
  i : Nat
  bi : Nat
  counts : List Nat
  max : Nat
  deriving DecidableEq

/-- The bucketing loop of `printHistogram`, `for i := 0; i < len(r.lats); \x7b ... \x7d`. -/
def histLoop (lats buckets : List ℚ) : Nat → HistState → Except Err HistState
  | fuel, s =>
    if s.i < lats.length then
      match fuel with
      | 0 => .error .outOfFuel
      | fuel + 1 =>
        match lats[s.i]?, buckets[s.bi]? with
        | some v, some b =>
          if v ≤ b then
            match s.counts[s.bi]? with
            | none => .error .indexOutOfRange
            | some c =>
              histLoop lats buckets fuel
                { i := s.i + 1, bi := s.bi, counts := s.counts.set s.bi (c + 1),
                  max := if s.max < c + 1 then c + 1 else s.max }
          else if s.bi < buckets.length - 1 then
            histLoop lats buckets fuel { s with bi := s.bi + 1 }
          else histLoop lats buckets fuel s
        | _, _ => .error .indexOutOfRange
    else .ok s

/-- The state in which the bucketing loop starts. -/
def histInit : HistState := { i := 0, bi := 0, counts := List.replicate 11 0, max := 0 }

/-- The state of the bucketing loop of `printHistogram` when it ends. -/
def histState (lats : List ℚ) (fastest slowest : ℚ) (fuel : Nat) : Except Err HistState :=
  histLoop lats (histBuckets fastest slowest) fuel histInit

/-- The normalised bar length of a bucket. -/
def barLen (count max : Nat) : Nat :=
  if max > 0 then (count * 40 + max / 2) / max else 0

/-- The printing loop of `printHistogram`: one line per bucket. -/
def histLines (buckets : List ℚ) (counts : List Nat) (max : Nat) : List Printf :=
  (buckets.zip counts).map (fun bc =>
    ⟨"  %4.3f [%v]\t|%v\n",
      [.float (.fin bc.1), .int bc.2, .str (String.join (List.replicate (barLen bc.2 max) barChar))]⟩)

def Report.printHistogram (r : Report) (fuel : Nat) : Except Err Report :=
  match histState r.lats r.Fastest r.Slowest fuel with
  | .error e => .error e
  | .ok s =>
    let r := r.printf "\nResponse time histogram:\n" []
    .ok { r with w := r.w ++ histLines (histBuckets r.Fastest r.Slowest) s.counts s.max }

def Report.printStatusCodes (r : Report) : Report :=
  let r := r.printf "\n\nStatus code distribution:\n" []
  let lines : List Printf :=
    r.statusCodeDist.map (fun cn => ⟨"  [%d]\t%d responses\n", [.int cn.1, .int cn.2]⟩)
  { r with w := r.w ++ lines }

def Report.printErrors (r : Report) : Report :=
  let r := r.printf "\nError distribution:\n" []
  let lines : List Printf :=
    r.errorDist.map (fun en => ⟨"  [%d]\t%s\n", [.int en.2, .str en.1]⟩)
  { r with w := r.w ++ lines }

/-- The first three statements of the block of `print` guarded by `len(r.lats) > 0`:
sort `r.lats`, then set `Fastest` and `Slowest` to its first and last element. -/
def Report.setExtremes (r : Report) : Except Err Report :=
  let r := { r with lats := sortFloat64s r.lats }
  match r.lats[0]?, r.lats[r.lats.length - 1]? with
  | some fastest, some slowest => .ok { r with Fastest := fastest, Slowest := slowest }
  | _, _ => .error .indexOutOfRange

/-- The block of `print` guarded by `len(r.lats) > 0`. -/
def Report.printSummary (r : Report) (fuel : Nat) : Except Err Report := do
  let r ← r.setExtremes
  let r := r.printf "Summary:\n" []
  let r := r.printf "  Total:\t%4.4f secs\n" [.float (.fin (seconds r.Total))]
  let r := r.printf "  Slowest:\t%4.4f secs\n" [.float (.fin r.Slowest)]
  let r := r.printf "  Fastest:\t%4.4f secs\n" [.float (.fin r.Fastest)]
  let r := r.printf "  Average:\t%4.4f secs\n" [.float r.Average]
  let r := r.printf "  Requests/sec:\t%4.4f\n" [.float r.RPS]
  let r ←
    if r.sizeTotal > 0 then
      let r := r.printf "  Total data:\t%d bytes\n" [.int r.sizeTotal]
      if r.lats.length = 0 then (.error .divideByZero : Except Err Report)
      else
        pure (r.printf "  Size/request:\t%d bytes\n"
          [.int (Int.tdiv r.sizeTotal (r.lats.length : Int))])
    else pure r
  let r ← r.printHistogram fuel
  let r ← r.printLatencies fuel
  let r := r.printf "\nDetails (Average, Fastest, Slowest):" []
  let r ← r.printSectionOf "DNS+dialup" r.AvgConn .conn
  let r ← r.printSectionOf "DNS-lookup" r.AvgDNS .dns
  let r ← r.printSectionOf "req write" r.AvgReq .req
  let r ← r.printSectionOf "resp wait" r.AvgDelay .delay
  let r ← r.printSectionOf "resp read" r.AvgRes .res
  pure r.printStatusCodes

def Report.print (r : Report) (fuel : Nat) : Except Err Report :=
  if r.output = "csv" then r.printCSV
  else do
    let r ← if r.lats.length > 0 then r.printSummary fuel else pure r
    let r := if r.errorDist.length > 0 then r.printErrors else r
    pure (r.printf "\n" [])

/-! ## Vocabulary of the statements -/

/-- A result is a success when it carries no error. -/
def isSuccess (res : result) : Bool := res.err.isNone

/-- The successes of a result stream, in arrival order. -/
def successes (rs : List result) : List result := rs.filter isSuccess

/-- The failures of a result stream, in arrival order. -/
def failures (rs : List result) : List result := rs.filter (fun res => !isSuccess res)

/-- The report with its error distribution emptied. -/
def forgetErrors (r : Report) : Report := { r with errorDist := [] }

/-- Membership of a value in bucket `k`: at most edge `k`, above edge `k - 1`. -/
def inBucket (B : List ℚ) (k : Nat) (v : ℚ) : Bool :=
  decide (v ≤ B.getD k 0) && (k == 0 || decide (B.getD (k - 1) 0 < v))

/-- The smallest sample index `i` with `start ≤ i < N` whose rank `i * 100 / N` reaches
the target `p`, if there is one. -/
def firstIdxFrom (N p start : Nat) : Option Nat :=
  (List.range' start (N - start)).find? (fun i => decide (p ≤ i * 100 / N))

/-- The sample index that fills target number `k` when targets are filled one per
sample index: target `0` takes the first index whose rank reaches it, and each later
target the first index after the one that filled its predecessor. -/
def latIdx (N : Nat) : Nat → Option Nat
  | 0 => firstIdxFrom N (pctls.getD 0 0) 0
  | k + 1 => (latIdx N k).bind (fun t => firstIdxFrom N (pctls.getD (k + 1) 0) (t + 1))

/-- The indices filled from the loop state `(start, j)`: the index of target `j + d`. -/
def chainIdx (N : Nat) : Nat → Nat → Nat → Option Nat
  | start, j, 0 => firstIdxFrom N (pctls.getD j 0) start
  | start, j, d + 1 =>
    (firstIdxFrom N (pctls.getD j 0) start).bind (fun t => chainIdx N (t + 1) (j + 1) d)

/-- The reference nearest-rank percentile: the sample of 1-based rank `⌈p * N / 100⌉`. -/
def nearestRank (lats : List ℚ) (p : Nat) : ℚ :=
  lats.getD ((p * lats.length + 99) / 100 - 1) 0

/-- The header row written by `printCSV`. -/
def csvHeader : Printf :=
  ⟨"response-time,DNS+dialup,DNS,Request-write,Response-delay,Response-read\n", []⟩

/-- The data row `printCSV` writes for a success. -/
def csvRow (x : result) : Printf :=
  ⟨"%4.4f,%4.4f,%4.4f,%4.4f,%4.4f,%4.4f\n",
    [.float (.fin (seconds x.duration)), .float (.fin (seconds x.connDuration)),
      .float (.fin (seconds x.dnsDuration)), .float (.fin (seconds x.reqDuration)),
      .float (.fin (seconds x.delayDuration)), .float (.fin (seconds x.resDuration))]⟩

/-- The report with its (drained or replaced) channel contents set to `X`. -/
def setResults (r : Report) (X : List result) : Report := { r with Results := X }

/-- The divisions of `finalize` as a function of the drained report. -/
def divisions (d : Report) : Report :=
  { d with
    RPS := F64.div (F64.fin (d.lats.length : ℚ)) (F64.fin (seconds d.Total))
    Average := F64.div d.AvgTotal (F64.fin (d.lats.length : ℚ))
    AvgConn := F64.div d.AvgConn (F64.fin (d.lats.length : ℚ))
    AvgDelay := F64.div d.AvgDelay (F64.fin (d.lats.length : ℚ))
    AvgDNS := F64.div d.AvgDNS (F64.fin (d.lats.length : ℚ))
    AvgReq := F64.div d.AvgReq (F64.fin (d.lats.length : ℚ))
    AvgRes := F64.div d.AvgRes (F64.fin (d.lats.length : ℚ)) }

/-- The report after the calls `ls` have been made on its writer. -/
def addLines (r : Report) (ls : List Printf) : Report := { r with w := r.w ++ ls }

/-- One iteration of the bucketing loop of `printHistogram` (its body, entered with
`i < len(r.lats)`). -/
def histStep (lats buckets : List ℚ) (s : HistState) : Except Err HistState :=
  match lats[s.i]?, buckets[s.bi]? with
  | some v, some b =>
    if v ≤ b then
      match s.counts[s.bi]? with
      | none => .error .indexOutOfRange
      | some c =>
        .ok { i := s.i + 1, bi := s.bi, counts := s.counts.set s.bi (c + 1),
              max := if s.max < c + 1 then c + 1 else s.max }
    else if s.bi < buckets.length - 1 then .ok { s with bi := s.bi + 1 }
    else .ok s
  | _, _ => .error .indexOutOfRange

/-- The states the bucketing loop passes through, from its initial state. -/
inductive HistReach (lats buckets : List ℚ) : HistState → Prop where
  | init : HistReach lats buckets histInit
  | step {s s' : HistState} : HistReach lats buckets s → s.i < lats.length →
      histStep lats buckets s = .ok s' → HistReach lats buckets s'

/-- A report whose three latencies are all `2`, as `print` leaves it before the
histogram. -/
def equalLatsReport : Report :=
  { newReport [] 0 [] "" 1 with lats := [2, 2, 2], Fastest := 2, Slowest := 2 }

/-- The report with its output-mode selector replaced. -/
def setOutput (r : Report) (o : String) : Report := { r with output := o }

/-- The text-summary branch of `print` (what follows the early return of CSV mode). -/
def Report.printText (r : Report) (fuel : Nat) : Except Err Report := do
  let r ← if r.lats.length > 0 then r.printSummary fuel else pure r
  let r := if r.errorDist.length > 0 then r.printErrors else r
  pure (r.printf "\n" [])

/-- The first six lines of the summary block of `print`. -/
def summaryHead (r : Report) : Report :=
  let r := r.printf "Summary:\n" []
  let r := r.printf "  Total:\t%4.4f secs\n" [.float (.fin (seconds r.Total))]
  let r := r.printf "  Slowest:\t%4.4f secs\n" [.float (.fin r.Slowest)]
  let r := r.printf "  Fastest:\t%4.4f secs\n" [.float (.fin r.Fastest)]
  let r := r.printf "  Average:\t%4.4f secs\n" [.float r.Average]
  r.printf "  Requests/sec:\t%4.4f\n" [.float r.RPS]

/-- The two size lines of the summary block of `print`, written when a byte count was
observed. -/
def sizeLines (r : Report) : Except Err Report :=
  if r.sizeTotal > 0 then
    let r := r.printf "  Total data:\t%d bytes\n" [.int r.sizeTotal]
    if r.lats.length = 0 then (.error .divideByZero : Except Err Report)
    else
      pure (r.printf "  Size/request:\t%d bytes\n"
        [.int (Int.tdiv r.sizeTotal (r.lats.length : Int))])
  else pure r

/-- The details block of `print`: its heading, the five `printSection` calls and the
status-code distribution. -/
def detailLines (r : Report) : Except Err Report := do
  let r := r.printf "\nDetails (Average, Fastest, Slowest):" []
  let r ← r.printSectionOf "DNS+dialup" r.AvgConn .conn
  let r ← r.printSectionOf "DNS-lookup" r.AvgDNS .dns
  let r ← r.printSectionOf "req write" r.AvgReq .req
  let r ← r.printSectionOf "resp wait" r.AvgDelay .delay
  let r ← r.printSectionOf "resp read" r.AvgRes .res
  pure r.printStatusCodes

/-- The closing line `print` writes in text mode. -/
def closingLine : Printf := ⟨"\n", []⟩

/-- The heading of the error-distribution block. -/
def errHeading : Printf := ⟨"\nError distribution:\n", []⟩

/-- The line `printErrors` writes for one entry of the error distribution. -/
def errLine (en : String × Nat) : Printf := ⟨"  [%d]\t%s\n", [.int en.2, .str en.1]⟩

/-- The number of results of the stream that failed with the message `e`. -/
def errCount (rs : List result) (e : String) : Nat :=
  (rs.filter (fun res => decide (res.err = some e))).length

/-- The count a distribution map holds for the key `k` (`0` for a missing key). -/
def distCount {κ : Type} [DecidableEq κ] (m : List (κ × Nat)) (k : κ) : Nat :=
  ((m.filter (fun p => decide (p.1 = k))).map Prod.snd).sum

/-- The two lines `printSection` writes. -/
def sectionLines (tag : String) (avg : F64) (fastest slowest : ℚ) : List Printf :=
  [⟨"\n  %s:\t", [.str tag]⟩,
    ⟨" %4.4f secs, %4.4f secs, %4.4f secs",
      [.float avg, .float (.fin fastest), .float (.fin slowest)]⟩]

/-- A report with unsorted connect and DNS sequences. -/
def phaseReport : Report :=
  { newReport [] 0 [] "" 1 with ConnLats := [3, 1, 2], DNSLats := [5, 4], lats := [9, 8] }

/-! ## The histogram edges in `float64` -/

/-- Rounding of a rational to the nearest integer, a tie going to the even one. -/
def roundHalfEven (t : ℚ) : ℤ :=
  let f := ⌊t⌋
  if t - f < 1 / 2 then f
  else if 1 / 2 < t - f then f + 1
  else if f % 2 = 0 then f else f + 1

/-- The binary exponent `e` of the last place of a non-zero `x` in binary64:
`2^52 ≤ |x| / 2^e < 2^53`. -/
def ulpExp (x : ℚ) : ℤ := Int.log 2 |x| - 52

/-- Rounding of an exact result to binary64, to nearest with ties to even: the value a
`float64` operation of Go returns for the exact result `x`.  The exponent range is not
bounded (no overflow to `Inf`, no subnormal numbers). -/
def round64 (x : ℚ) : ℚ :=
  if x = 0 then 0
  else (if x < 0 then -1 else 1) *
    ((roundHalfEven (|x| / (2 : ℚ) ^ ulpExp x) : ℤ) : ℚ) * (2 : ℚ) ^ ulpExp x

/-- The bucket edges as `printHistogram` computes them in `float64` (print.go:180-184):
each arithmetic operation returns the rounding `rnd` of its exact result, while
`float64(bc)` and `float64(i)` are exact and the last edge is `Slowest` itself.  With
`rnd = round64` these are the edges of the program; with `rnd = id` they are the exact
edges `histBuckets`. -/
def histEdges (rnd : ℚ → ℚ) (fastest slowest : ℚ) : List ℚ :=
  let bc : Nat := 10
  let bs := rnd (rnd (slowest - fastest) / (bc : ℚ))
  (List.range bc).map (fun (i : Nat) => rnd (fastest + rnd (bs * (i : ℚ)))) ++ [slowest]

/-- The state of the bucketing loop of `printHistogram` when it ends, the edges being
computed with the rounding `rnd`. -/
def histStateWith (rnd : ℚ → ℚ) (lats : List ℚ) (fastest slowest : ℚ) (fuel : Nat) :
    Except Err HistState :=
  histLoop lats (histEdges rnd fastest slowest) fuel histInit

/-- The binary64 number `m * 2^e`. -/
def fl (m e : ℤ) : ℚ := (m : ℚ) * (2 : ℚ) ^ e

/-- The `float64` seconds of 10 ms, the `Fastest` of the example. -/
def exFastest : ℚ := fl 5764607523034235 (-59)

/-- The `float64` seconds of 20 ms. -/
def exMiddle : ℚ := fl 5764607523034235 (-58)

/-- The `float64` seconds of 60 ms, the `Slowest` of the example. -/
def exSlowest : ℚ := fl 8646911284551352 (-57)

/-- The `float64` seconds of three successes of 10, 20 and 60 ms. -/
def exLats : List ℚ := [exFastest, exMiddle, exSlowest]

/-- The edges the program computes for `Fastest` = 10 ms and `Slowest` = 60 ms. -/
def exEdges : List ℚ :=
  [fl 5764607523034235 (-59),
      fl 8646911284551352 (-59),
      fl 5764607523034234 (-58),
      fl 7205759403792793 (-58),
      fl 8646911284551352 (-58),
      fl 5044031582654955 (-57),
      fl 5764607523034234 (-57),
      fl 6485183463413514 (-57),
      fl 7205759403792793 (-57),
      fl 7926335344172072 (-57),
      exSlowest]

theorem distTotal_incr {κ : Type} [DecidableEq κ] (k : κ) (m : List (κ × Nat)) :
    distTotal (incr k m) = distTotal m + 1 := by
  induction m with
  | nil => simp [incr, distTotal]
  | cons a t ih =>
    obtain ⟨k', n⟩ := a
    unfold incr
    by_cases h : k' = k
    · simp [h, distTotal]; omega
    · simp only [h, if_false]
      simp only [distTotal, List.map_cons, List.sum_cons] at ih ⊢
      omega

theorem accumulate_failure (r : Report) (res : result) (h : isSuccess res = false) :
    accumulate r res = { r with errorDist := incr (res.err.getD "") r.errorDist } := by
  unfold accumulate
  cases he : res.err with
  | none => simp [isSuccess, he] at h
  | some e => simp

theorem accumulate_success (r : Report) (res : result) (h : isSuccess res = true) :
    accumulate r res =
    { r with
      lats := r.lats ++ [seconds res.duration]
      AvgTotal := r.AvgTotal.add (F64.fin (seconds res.duration))
      AvgConn := r.AvgConn.add (F64.fin (seconds res.connDuration))
      AvgDelay := r.AvgDelay.add (F64.fin (seconds res.delayDuration))
      AvgDNS := r.AvgDNS.add (F64.fin (seconds res.dnsDuration))
      AvgReq := r.AvgReq.add (F64.fin (seconds res.reqDuration))
      AvgRes := r.AvgRes.add (F64.fin (seconds res.resDuration))
      ConnLats := r.ConnLats ++ [seconds res.connDuration]
      DNSLats := r.DNSLats ++ [seconds res.dnsDuration]
      ReqLats := r.ReqLats ++ [seconds res.reqDuration]
      DelayLats := r.DelayLats ++ [seconds res.delayDuration]
      ResLats := r.ResLats ++ [seconds res.resDuration]
      statusCodeDist := incr res.statusCode r.statusCodeDist
      sizeTotal := if res.contentLength > 0 then wrapInt64 (r.sizeTotal + res.contentLength)
                   else r.sizeTotal } := by
  unfold accumulate
  cases he : res.err with
  | none => simp
  | some e => simp [isSuccess, he] at h

theorem foldl_accumulate_forget (rs : List result) (r : Report) :
    forgetErrors (rs.foldl accumulate r) = (successes rs).foldl accumulate (forgetErrors r) := by
  induction rs generalizing r with
  | nil => rfl
  | cons a t ih =>
    rw [List.foldl_cons, ih]
    cases h : isSuccess a with
    | false =>
      have : successes (a :: t) = successes t := by simp [successes, h]
      rw [this, accumulate_failure r a h]; rfl
    | true =>
      have : successes (a :: t) = a :: successes t := by simp [successes, h]
      rw [this, List.foldl_cons, accumulate_success r a h, accumulate_success _ a h]; rfl

theorem foldl_accumulate_errorDist (rs : List result) (r : Report) :
    distTotal (rs.foldl accumulate r).errorDist = distTotal r.errorDist + (failures rs).length := by
  induction rs generalizing r with
  | nil => simp [failures]
  | cons a t ih =>
    rw [List.foldl_cons, ih]
    cases h : isSuccess a with
    | false =>
      rw [accumulate_failure r a h]
      simp [failures, h, distTotal_incr]; omega
    | true =>
      rw [accumulate_success r a h]
      simp [failures, h]

/-- The fields a stream of successes leaves in the report. -/
theorem foldl_accumulate_successes (xs : List result) (hx : ∀ x ∈ xs, isSuccess x = true)
    (r : Report) :
    let r' := xs.foldl accumulate r
    r'.lats = r.lats ++ xs.map (fun x => seconds x.duration) ∧
    r'.ConnLats = r.ConnLats ++ xs.map (fun x => seconds x.connDuration) ∧
    r'.DNSLats = r.DNSLats ++ xs.map (fun x => seconds x.dnsDuration) ∧
    r'.ReqLats = r.ReqLats ++ xs.map (fun x => seconds x.reqDuration) ∧
    r'.DelayLats = r.DelayLats ++ xs.map (fun x => seconds x.delayDuration) ∧
    r'.ResLats = r.ResLats ++ xs.map (fun x => seconds x.resDuration) ∧
    distTotal r'.statusCodeDist = distTotal r.statusCodeDist + xs.length ∧
    r'.errorDist = r.errorDist ∧ r'.Total = r.Total ∧ r'.output = r.output ∧ r'.w = r.w := by
  induction xs generalizing r with
  | nil => simp
  | cons a t ih =>
    have ha := hx a (List.mem_cons_self _ _)
    have ht : ∀ x ∈ t, isSuccess x = true := fun x h => hx x (List.mem_cons_of_mem _ h)
    have := ih ht (accumulate r a)
    simp only [List.foldl_cons]
    rw [accumulate_success r a ha] at this
    simp only [List.append_assoc, List.singleton_append, distTotal_incr] at this
    obtain ⟨h1, h2, h3, h4, h5, h6, h7, h8, h9, h10, h11⟩ := this
    rw [accumulate_success r a ha]
    refine ⟨by simpa using h1, by simpa using h2, by simpa using h3, by simpa using h4,
      by simpa using h5, by simpa using h6, ?_, h8, h9, h10, h11⟩
    rw [h7]; simp; omega

/-- The running sums a stream of successes leaves in the report. -/
theorem foldl_accumulate_sums (xs : List result) (hx : ∀ x ∈ xs, isSuccess x = true)
    (r : Report) (a b c d e : ℚ) (ha : r.AvgTotal = .fin a) (hb : r.AvgConn = .fin b)
    (hc : r.AvgDNS = .fin c) (hd : r.AvgReq = .fin d) (he : r.AvgDelay = .fin e)
    (f : ℚ) (hf : r.AvgRes = .fin f) :
    let r' := xs.foldl accumulate r
    r'.AvgTotal = .fin (a + (xs.map (fun x => seconds x.duration)).sum) ∧
    r'.AvgConn = .fin (b + (xs.map (fun x => seconds x.connDuration)).sum) ∧
    r'.AvgDNS = .fin (c + (xs.map (fun x => seconds x.dnsDuration)).sum) ∧
    r'.AvgReq = .fin (d + (xs.map (fun x => seconds x.reqDuration)).sum) ∧
    r'.AvgDelay = .fin (e + (xs.map (fun x => seconds x.delayDuration)).sum) ∧
    r'.AvgRes = .fin (f + (xs.map (fun x => seconds x.resDuration)).sum) := by
  induction xs generalizing r a b c d e f with
  | nil => simp [ha, hb, hc, hd, he, hf]
  | cons x t ih =>
    have hx1 := hx x (List.mem_cons_self _ _)
    have ht : ∀ y ∈ t, isSuccess y = true := fun y h => hx y (List.mem_cons_of_mem _ h)
    have := ih ht (accumulate r x) (a + seconds x.duration) (b + seconds x.connDuration)
      (c + seconds x.dnsDuration) (d + seconds x.reqDuration) (e + seconds x.delayDuration)
      (by rw [accumulate_success r x hx1, ha]; rfl) (by rw [accumulate_success r x hx1, hb]; rfl)
      (by rw [accumulate_success r x hx1, hc]; rfl) (by rw [accumulate_success r x hx1, hd]; rfl)
      (by rw [accumulate_success r x hx1, he]; rfl) (f + seconds x.resDuration)
      (by rw [accumulate_success r x hx1, hf]; rfl)
    simpa [add_assoc] using this

theorem set_sum (l : List Nat) (k c : Nat) (h : l[k]? = some c) :
    (l.set k (c + 1)).sum = l.sum + 1 := by
  induction l generalizing k with
  | nil => simp at h
  | cons a t ih =>
    cases k with
    | zero => simp at h; subst h; simp; omega
    | succ k => simp at h; simp [ih k h]; omega

theorem set_getD (l : List Nat) (k c j : Nat) (h : l[k]? = some c) :
    (l.set k (c + 1)).getD j 0 = l.getD j 0 + (if j = k then 1 else 0) := by
  simp only [List.getD_eq_getElem?_getD, List.getElem?_set]
  have hk : k < l.length := by
    by_contra hh
    rw [List.getElem?_eq_none (by omega)] at h
    cases h
  by_cases hj : k = j
  · subst hj; simp [hk, h]
  · have : ¬ j = k := fun e => hj e.symm
    simp [hj, this]

theorem inBucket_iff_eq (B : List ℚ) (bi : Nat) (v : ℚ)
    (hmono : ∀ a b, a ≤ b → b + 1 < B.length → B.getD a 0 ≤ B.getD b 0)
    (hlow : ∀ k, k < bi → B.getD k 0 < v) (hle : v ≤ B.getD bi 0)
    (k : Nat) (hk : k < B.length) : inBucket B k v = true ↔ k = bi := by
  unfold inBucket
  simp only [Bool.and_eq_true, decide_eq_true_eq, Bool.or_eq_true, beq_iff_eq]
  constructor
  · rintro ⟨h1, h2⟩
    by_contra hne
    rcases Nat.lt_or_gt_of_ne hne with h | h
    · exact absurd h1 (not_le.mpr (hlow k h))
    · rcases h2 with h2 | h2
      · omega
      · have := hmono bi (k - 1) (by omega) (by omega)
        exact absurd (lt_of_lt_of_le h2 (le_trans hle this)) (lt_irrefl _)
  · rintro rfl
    refine ⟨hle, ?_⟩
    by_cases h0 : k = 0
    · exact Or.inl h0
    · exact Or.inr (hlow (k - 1) (by omega))

theorem histLoop_spec (lats B : List ℚ) (hs : lats.Sorted (· ≤ ·))
    (hmono : ∀ a b, a ≤ b → b + 1 < B.length → B.getD a 0 ≤ B.getD b 0)
    (hlast : ∀ v ∈ lats, v ≤ B.getD (B.length - 1) 0) :
    ∀ (fuel : Nat) (s : HistState), s.bi < B.length → s.counts.length = B.length →
      (∀ k, k < s.bi → ∀ v ∈ lats.drop s.i, B.getD k 0 < v) →
      (lats.length - s.i) + (B.length - 1 - s.bi) ≤ fuel →
      ∃ s', histLoop lats B fuel s = .ok s' ∧ s'.counts.length = B.length ∧
        s'.counts.sum = s.counts.sum + (lats.length - s.i) ∧
        ∀ k, k < B.length →
          s'.counts.getD k 0 = s.counts.getD k 0 + (lats.drop s.i).countP (inBucket B k) := by
  intro fuel
  induction fuel with
  | zero =>
    intro s hbi hc hlow hf
    have hi : ¬ s.i < lats.length := by omega
    refine ⟨s, ?_, hc, ?_, ?_⟩
    · rw [histLoop]; simp [hi]
    · omega
    · intro k _; rw [List.drop_eq_nil_of_le (by omega)]; simp
  | succ fuel ih =>
    intro s hbi hc hlow hf
    by_cases hi : s.i < lats.length
    · have hv : lats[s.i]? = some lats[s.i] := List.getElem?_eq_getElem hi
      have hb : B[s.bi]? = some B[s.bi] := List.getElem?_eq_getElem hbi
      have hbD : B.getD s.bi 0 = B[s.bi] := by simp [List.getD_eq_getElem?_getD, hb]
      have hdrop : lats.drop s.i = lats[s.i] :: lats.drop (s.i + 1) :=
        List.drop_eq_getElem_cons hi
      have hsd : (lats.drop s.i).Sorted (· ≤ ·) := List.Pairwise.drop hs
      rw [hdrop] at hsd
      have hhead : ∀ v ∈ lats.drop (s.i + 1), lats[s.i] ≤ v := fun v hv =>
        List.rel_of_sorted_cons hsd v hv
      by_cases hle : lats[s.i] ≤ B[s.bi]
      · have hcb : s.counts[s.bi]? = some s.counts[s.bi] :=
          List.getElem?_eq_getElem (by omega)
        obtain ⟨s', h1, h2, h3, h4⟩ := ih
          { i := s.i + 1, bi := s.bi, counts := s.counts.set s.bi (s.counts[s.bi] + 1),
            max := if s.max < s.counts[s.bi] + 1 then s.counts[s.bi] + 1 else s.max }
          hbi (by simp [hc])
          (fun k hk v hv => hlow k hk v (by rw [hdrop]; exact List.mem_cons_of_mem _ hv))
          (by simp only; omega)
        refine ⟨s', ?_, h2, ?_, ?_⟩
        · rw [histLoop]; simp only [hi, if_true, hv, hb, hle, hcb]; exact h1
        · rw [h3]; simp only [set_sum _ _ _ hcb]; omega
        · intro k hk
          rw [h4 k hk, hdrop, List.countP_cons]
          simp only [set_getD _ _ _ k hcb]
          have := inBucket_iff_eq B s.bi lats[s.i] hmono
            (fun k hk => hlow k hk _ (by rw [hdrop]; exact List.mem_cons_self _ _))
            (by rw [hbD]; exact hle) k hk
          by_cases hkb : k = s.bi
          · have ht := this.mpr hkb
            subst hkb
            simp [ht]; omega
          · have hn : ¬ inBucket B k lats[s.i] = true := fun h => hkb (this.mp h)
            simp [hkb, hn]
      · by_cases hb2 : s.bi < B.length - 1
        · obtain ⟨s', h1, h2, h3, h4⟩ := ih { s with bi := s.bi + 1 } (by simp only; omega) hc
            (by
              intro k hk v hv
              simp only at hk hv
              by_cases hkk : k < s.bi
              · exact hlow k hkk v hv
              · have : k = s.bi := by omega
                subst this
                rw [hbD]
                rw [hdrop] at hv
                rcases List.mem_cons.mp hv with h | h
                · rw [h]; exact not_le.mp hle
                · exact lt_of_lt_of_le (not_le.mp hle) (hhead v h))
            (by simp only; omega)
          refine ⟨s', ?_, h2, h3, h4⟩
          rw [histLoop]; simp only [hi, if_true, hv, hb, hle, if_false, hb2]; exact h1
        · exfalso
          have h1 : s.bi = B.length - 1 := by omega
          have := hlast lats[s.i] (List.getElem_mem _)
          rw [← h1, hbD] at this
          exact hle this
    · refine ⟨s, ?_, hc, ?_, ?_⟩
      · rw [histLoop]; simp [hi]
      · omega
      · intro k _; rw [List.drop_eq_nil_of_le (by omega)]; simp

theorem histBuckets_length (F S : ℚ) : (histBuckets F S).length = 11 := by
  simp only [histBuckets, List.length_append, List.length_map, List.length_range,
    List.length_singleton]

theorem histBuckets_getD_lt (F S : ℚ) (k : Nat) (hk : k < 10) :
    (histBuckets F S).getD k 0 = F + (S - F) / 10 * (k : ℚ) := by
  have h1 : k < ((List.range 10).map (fun i : Nat => F + (S - F) / ((10 : Nat) : ℚ) * (i : ℚ))).length := by
    simpa using hk
  simp only [histBuckets, List.getD_eq_getElem?_getD]
  rw [List.getElem?_append_left h1, List.getElem?_map, List.getElem?_range hk]
  simp

theorem histBuckets_getD_last (F S : ℚ) : (histBuckets F S).getD 10 0 = S := by
  have h1 : ((List.range 10).map (fun i : Nat => F + (S - F) / ((10 : Nat) : ℚ) * (i : ℚ))).length ≤ 10 := by
    simp
  simp only [histBuckets, List.getD_eq_getElem?_getD]
  rw [List.getElem?_append_right h1]
  simp

theorem histBuckets_mono (F S : ℚ) (h : F ≤ S) (a b : Nat) (hab : a ≤ b)
    (hb : b < (histBuckets F S).length) :
    (histBuckets F S).getD a 0 ≤ (histBuckets F S).getD b 0 := by
  rw [histBuckets_length] at hb
  have hbs : 0 ≤ (S - F) / 10 := by linarith
  by_cases hb10 : b < 10
  · rw [histBuckets_getD_lt F S a (by omega), histBuckets_getD_lt F S b hb10]
    have : (a : ℚ) ≤ (b : ℚ) := by exact_mod_cast hab
    nlinarith [mul_le_mul_of_nonneg_left this hbs]
  · have hb' : b = 10 := by omega
    subst hb'
    rw [histBuckets_getD_last]
    by_cases ha10 : a < 10
    · rw [histBuckets_getD_lt F S a ha10]
      have : (a : ℚ) ≤ 10 := by exact_mod_cast hab
      nlinarith [mul_le_mul_of_nonneg_left this hbs]
    · have : a = 10 := by omega
      subst this
      rw [histBuckets_getD_last]

theorem sortFloat64s_sorted (l : List ℚ) : (sortFloat64s l).Sorted (· ≤ ·) :=
  List.sorted_insertionSort _ l

theorem sortFloat64s_length (l : List ℚ) : (sortFloat64s l).length = l.length :=
  List.length_insertionSort _ l

theorem sorted_first_le (s : List ℚ) (hs : s.Sorted (· ≤ ·)) (F : ℚ) (hF : s[0]? = some F) :
    ∀ v ∈ s, F ≤ v := by
  intro v hv
  obtain ⟨i, hi, rfl⟩ := List.getElem_of_mem hv
  have h0 : 0 < s.length := by omega
  rw [List.getElem?_eq_getElem h0] at hF
  injection hF with hF
  rw [← hF]
  exact hs.rel_get_of_le (a := ⟨0, h0⟩) (b := ⟨i, hi⟩) (Nat.zero_le _)

theorem sorted_le_last (s : List ℚ) (hs : s.Sorted (· ≤ ·)) (S : ℚ)
    (hS : s[s.length - 1]? = some S) : ∀ v ∈ s, v ≤ S := by
  intro v hv
  obtain ⟨i, hi, rfl⟩ := List.getElem_of_mem hv
  have h0 : s.length - 1 < s.length := by omega
  rw [List.getElem?_eq_getElem h0] at hS
  injection hS with hS
  rw [← hS]
  exact hs.rel_get_of_le (a := ⟨i, hi⟩) (b := ⟨s.length - 1, h0⟩) (by simp; omega)

theorem setExtremes_ok (r : Report) (h : 0 < r.lats.length) :
    ∃ r', r.setExtremes = .ok r' ∧ r'.lats = sortFloat64s r.lats ∧
      r'.lats[0]? = some r'.Fastest ∧ r'.lats[r'.lats.length - 1]? = some r'.Slowest ∧
      r'.ConnLats = r.ConnLats := by
  have hl : 0 < (sortFloat64s r.lats).length := by rw [sortFloat64s_length]; exact h
  have h0 := List.getElem?_eq_getElem hl
  have h1 : (sortFloat64s r.lats).length - 1 < (sortFloat64s r.lats).length := by omega
  have h1' := List.getElem?_eq_getElem h1
  refine ⟨{ r with lats := sortFloat64s r.lats, Fastest := (sortFloat64s r.lats)[0]
                   Slowest := (sortFloat64s r.lats)[(sortFloat64s r.lats).length - 1] },
    ?_, rfl, h0, h1', rfl⟩
  unfold Report.setExtremes
  simp only [h0, h1']

/-- What the bucketing loop computes on a sorted sequence whose extremes are
`Fastest` and `Slowest`. -/
theorem histState_spec (lats : List ℚ) (F S : ℚ) (hs : lats.Sorted (· ≤ ·))
    (hF : lats[0]? = some F) (hS : lats[lats.length - 1]? = some S)
    (fuel : Nat) (hf : lats.length + 10 ≤ fuel) :
    ∃ s, histState lats F S fuel = .ok s ∧ s.counts.length = 11 ∧
      s.counts.sum = lats.length ∧
      ∀ k, k < 11 → s.counts.getD k 0 = lats.countP (inBucket (histBuckets F S) k) := by
  have hlast := sorted_le_last lats hs S hS
  have hFS : F ≤ S := by
    have h0 : 0 < lats.length := by
      by_contra h
      rw [List.getElem?_eq_none (by omega)] at hF
      cases hF
    have hm : F ∈ lats := by
      rw [List.getElem?_eq_getElem h0] at hF
      injection hF with hF
      rw [← hF]; exact List.getElem_mem _
    exact hlast F hm
  have hlen := histBuckets_length F S
  obtain ⟨s, h1, h2, h3, h4⟩ := histLoop_spec lats (histBuckets F S) hs
    (fun a b hab hb => histBuckets_mono F S hFS a b hab (by omega))
    (by rw [hlen]; simpa [histBuckets_getD_last] using hlast)
    fuel histInit (by rw [hlen]; simp [histInit]) (by rw [hlen]; simp [histInit])
    (by intro k hk; simp [histInit] at hk) (by rw [hlen]; simp [histInit]; omega)
  refine ⟨s, h1, by rw [h2, hlen], ?_, ?_⟩
  · rw [h3]; simp [histInit]
  · intro k hk
    rw [h4 k (by rw [hlen]; exact hk)]
    have h0 : histInit.counts.getD k 0 = 0 := by
      unfold histInit
      simp only [List.getD_eq_getElem?_getD, List.getElem?_replicate]
      split <;> rfl
    rw [h0]; simp [histInit]

/-- The fields of the report once `finalize` has drained the stream. -/
theorem drain_newReport (w : List Printf) (size : Int) (rs : List result) (output : String)
    (total : Int) :
    let r := drain (newReport w size rs output total)
    r.lats = (successes rs).map (fun x => seconds x.duration) ∧
    r.ConnLats = (successes rs).map (fun x => seconds x.connDuration) ∧
    r.DNSLats = (successes rs).map (fun x => seconds x.dnsDuration) ∧
    r.ReqLats = (successes rs).map (fun x => seconds x.reqDuration) ∧
    r.DelayLats = (successes rs).map (fun x => seconds x.delayDuration) ∧
    r.ResLats = (successes rs).map (fun x => seconds x.resDuration) ∧
    distTotal r.statusCodeDist = (successes rs).length ∧
    distTotal r.errorDist = (failures rs).length ∧
    r.Total = total ∧ r.output = output ∧ r.w = w := by
  have hx : ∀ x ∈ successes rs, isSuccess x = true := fun x hx => (List.mem_filter.mp hx).2
  have h1 := foldl_accumulate_forget rs (newReport w size rs output total)
  have h2 := foldl_accumulate_successes (successes rs) hx
    (forgetErrors (newReport w size rs output total))
  have h3 := foldl_accumulate_errorDist rs (newReport w size rs output total)
  simp only [← h1] at h2
  obtain ⟨a1, a2, a3, a4, a5, a6, a7, _, a9, a10, a11⟩ := h2
  exact ⟨by simpa [forgetErrors, newReport] using a1, by simpa [forgetErrors, newReport] using a2,
    by simpa [forgetErrors, newReport] using a3, by simpa [forgetErrors, newReport] using a4,
    by simpa [forgetErrors, newReport] using a5, by simpa [forgetErrors, newReport] using a6,
    by simpa [forgetErrors, newReport, distTotal] using a7,
    by simpa [newReport, distTotal] using h3, a9, a10, a11⟩

theorem finalize_lats (r : Report) : r.finalize.lats = (drain r).lats := rfl

/-- C1: for every stream with `N > 0` successes, once `print` has sorted the latencies
and set `Fastest`/`Slowest` to the first/last of them, the bucketing loop of
`printHistogram` ends (given `N + 10` iterations) with 11 counts whose sum is `N`. -/
theorem histogram_counts_sum (w : List Printf) (size : Int) (rs : List result)
    (output : String) (total : Int) (fuel : Nat)
    (hN : 0 < (successes rs).length) (hf : (successes rs).length + 10 ≤ fuel) :
    ∃ r' s, (newReport w size rs output total).finalize.setExtremes = .ok r' ∧
      histState r'.lats r'.Fastest r'.Slowest fuel = .ok s ∧
      s.counts.length = 11 ∧ s.counts.sum = (successes rs).length := by
  have hl : (newReport w size rs output total).finalize.lats.length = (successes rs).length := by
    rw [finalize_lats, (drain_newReport w size rs output total).1, List.length_map]
  obtain ⟨r', h1, h2, h3, h4, _⟩ :=
    setExtremes_ok (newReport w size rs output total).finalize (by rw [hl]; exact hN)
  have hl' : r'.lats.length = (successes rs).length := by
    rw [h2, sortFloat64s_length, hl]
  obtain ⟨s, g1, g2, g3, _⟩ := histState_spec r'.lats r'.Fastest r'.Slowest
    (by rw [h2]; exact sortFloat64s_sorted _) h3 h4 fuel (by rw [hl']; exact hf)
  exact ⟨r', s, h1, g1, g2, by rw [g3, hl']⟩

theorem histogram_counts_sum_witness :
    0 < (successes [⟨none, 200, 3, 1, 1, 1, 1, 1, 5⟩, ⟨some "timeout", 0, 0, 0, 0, 0, 0, 0, 0⟩,
          ⟨none, 200, 7, 1, 1, 1, 1, 1, 5⟩]).length ∧
    ∃ r' s, (newReport [] 0 [⟨none, 200, 3, 1, 1, 1, 1, 1, 5⟩,
          ⟨some "timeout", 0, 0, 0, 0, 0, 0, 0, 0⟩,
          ⟨none, 200, 7, 1, 1, 1, 1, 1, 5⟩] "" 10).finalize.setExtremes = .ok r' ∧
      histState r'.lats r'.Fastest r'.Slowest 12 = .ok s ∧
      s.counts.length = 11 ∧ s.counts.sum = (successes [⟨none, 200, 3, 1, 1, 1, 1, 1, 5⟩,
          ⟨some "timeout", 0, 0, 0, 0, 0, 0, 0, 0⟩, ⟨none, 200, 7, 1, 1, 1, 1, 1, 5⟩]).length :=
  ⟨by decide, histogram_counts_sum [] 0 _ "" 10 12 (by decide) (by decide)⟩

theorem firstIdxFrom_ge (N p start : Nat) (h : N ≤ start) : firstIdxFrom N p start = none := by
  have : N - start = 0 := by omega
  simp [firstIdxFrom, this]

theorem firstIdxFrom_hit (N p start : Nat) (h : start < N) (hp : p ≤ start * 100 / N) :
    firstIdxFrom N p start = some start := by
  have : N - start = (N - (start + 1)) + 1 := by omega
  simp [firstIdxFrom, this, List.range'_succ, hp]

theorem firstIdxFrom_miss (N p start : Nat) (h : start < N) (hp : ¬ p ≤ start * 100 / N) :
    firstIdxFrom N p start = firstIdxFrom N p (start + 1) := by
  have : N - start = (N - (start + 1)) + 1 := by omega
  simp [firstIdxFrom, this, List.range'_succ, hp]

theorem chainIdx_ge (N start j d : Nat) (h : N ≤ start) : chainIdx N start j d = none := by
  cases d <;> simp only [chainIdx, firstIdxFrom_ge N _ start h, Option.none_bind]

theorem chainIdx_miss (N start j d : Nat) (h : start < N)
    (hp : ¬ pctls.getD j 0 ≤ start * 100 / N) :
    chainIdx N start j d = chainIdx N (start + 1) j d := by
  cases d <;> simp only [chainIdx, firstIdxFrom_miss N _ start h hp]

theorem chainIdx_succ (N start j d : Nat) :
    chainIdx N start j (d + 1) =
      (chainIdx N start j d).bind (fun t => firstIdxFrom N (pctls.getD (j + d + 1) 0) (t + 1)) := by
  induction d generalizing start j with
  | zero => simp [chainIdx]
  | succ d ih =>
    rw [chainIdx]
    conv_rhs => rw [chainIdx]
    cases h : firstIdxFrom N (pctls.getD j 0) start with
    | none => simp
    | some t =>
      simp only [Option.some_bind]
      rw [ih]
      have : j + 1 + d + 1 = j + (d + 1) + 1 := by omega
      rw [this]

theorem latIdx_eq_chainIdx (N k : Nat) : latIdx N k = chainIdx N 0 0 k := by
  induction k with
  | zero => rfl
  | succ k ih => rw [latIdx, ih, chainIdx_succ]; simp

theorem latLoop_spec (lats : List ℚ) :
    ∀ (fuel i j : Nat) (data : List ℚ), data.length = 7 → lats.length - i ≤ fuel →
      ∃ data', latLoop lats fuel i j data = .ok data' ∧ data'.length = 7 ∧
        ∀ k, k < 7 → data'.getD k 0 =
          if k < j then data.getD k 0
          else match chainIdx lats.length i j (k - j) with
            | some t => lats.getD t 0
            | none => data.getD k 0 := by
  intro fuel
  induction fuel with
  | zero =>
    intro i j data hd hf
    have hi : ¬ i < lats.length := by omega
    refine ⟨data, ?_, hd, ?_⟩
    · rw [latLoop]; simp [hi]
    · intro k _
      rw [chainIdx_ge _ _ _ _ (by omega)]
      simp
  | succ fuel ih =>
    intro i j data hd hf
    by_cases hij : i < lats.length ∧ j < pctls.length
    · obtain ⟨hi, hj⟩ := hij
      have hp : pctls[j]? = some (pctls.getD j 0) := by
        rw [List.getD_eq_getElem?_getD, List.getElem?_eq_getElem hj]; rfl
      have hj7 : j < 7 := hj
      by_cases hc : pctls.getD j 0 ≤ i * 100 / lats.length
      · have hv : lats[i]? = some (lats.getD i 0) := by
          rw [List.getD_eq_getElem?_getD, List.getElem?_eq_getElem hi]; rfl
        obtain ⟨data', h1, h2, h3⟩ := ih (i + 1) (j + 1) (data.set j (lats.getD i 0))
          (by simp [hd]) (by omega)
        refine ⟨data', ?_, h2, ?_⟩
        · rw [latLoop]
          simp only [hi, hj, and_self, if_true, hp, ge_iff_le, hc, hv, hd, hj7]
          exact h1
        · intro k hk
          rw [h3 k hk]
          by_cases hkj : k < j
          · have : k < j + 1 := by omega
            simp only [this, hkj, if_true]
            simp [List.getD_eq_getElem?_getD, List.getElem?_set, Nat.ne_of_gt hkj]
          · by_cases hkj' : k = j
            · subst hkj'
              simp only [Nat.lt_succ_self, if_true, Nat.lt_irrefl, if_false, Nat.sub_self,
                chainIdx, firstIdxFrom_hit _ _ _ hi hc]
              simp [List.getD_eq_getElem?_getD, List.getElem?_set, hd, hk]
            · have h4 : ¬ k < j + 1 := by omega
              have h5 : k - j = (k - (j + 1)) + 1 := by omega
              simp only [h4, hkj, if_false]
              rw [h5, chainIdx, firstIdxFrom_hit _ _ _ hi hc, Option.some_bind]
              have h6 : (data.set j (lats.getD i 0)).getD k 0 = data.getD k 0 := by
                simp [List.getD_eq_getElem?_getD, List.getElem?_set, Ne.symm hkj']
              rw [h6]
      · obtain ⟨data', h1, h2, h3⟩ := ih (i + 1) j data hd (by omega)
        refine ⟨data', ?_, h2, ?_⟩
        · rw [latLoop]
          simp only [hi, hj, and_self, if_true, hp, ge_iff_le, hc, if_false]
          exact h1
        · intro k hk
          rw [h3 k hk, chainIdx_miss _ _ _ _ hi hc]
    · refine ⟨data, ?_, hd, ?_⟩
      · rw [latLoop]; simp [hij]
      · intro k hk
        by_cases hi : i < lats.length
        · have hj : ¬ j < 7 := fun h => hij ⟨hi, h⟩
          have : k < j := by omega
          simp [this]
        · rw [chainIdx_ge _ _ _ _ (by omega)]
          simp


theorem firstIdxFrom_walk (N p t : Nat) (ht : t < N) (hp : p ≤ t * 100 / N) :
    ∀ (d start : Nat), start + d = t → (∀ i, start ≤ i → i < t → ¬ p ≤ i * 100 / N) →
      firstIdxFrom N p start = some t := by
  intro d
  induction d with
  | zero =>
    intro start hs _
    have : start = t := by omega
    subst this
    exact firstIdxFrom_hit N p start ht hp
  | succ d ih =>
    intro start hs hlow
    rw [firstIdxFrom_miss N p start (by omega) (hlow start (Nat.le_refl _) (by omega))]
    exact ih (start + 1) (by omega) (fun i h1 h2 => hlow i (by omega) h2)

/-- From `start`, the first index whose rank reaches `p` is `start` or `⌈p * N / 100⌉`,
whichever is larger. -/
theorem firstIdxFrom_eq_max (N p start : Nat) (ht : max start ((p * N + 99) / 100) < N) :
    firstIdxFrom N p start = some (max start ((p * N + 99) / 100)) := by
  have hN : 0 < N := by omega
  apply firstIdxFrom_walk N p _ ht _ (max start ((p * N + 99) / 100) - start) start
  · omega
  · intro i h1 h2
    rw [Nat.le_div_iff_mul_le hN]
    omega
  · rw [Nat.le_div_iff_mul_le hN]
    omega

/-- C3 (as amended): `printLatencies` fills one target per sample index.  The loop ends
within `N` iterations, and target number `k` holds the sample at index `latIdx N k`
(for target `0` the first index whose rank `i * 100 / N` reaches it, for a later target
the first such index after the one that filled its predecessor), or `0` when there is
no such index. -/
theorem latencies_one_target_per_index (lats : List ℚ) (fuel : Nat)
    (hf : lats.length ≤ fuel) :
    ∃ data, latData lats fuel = .ok data ∧ data.length = 7 ∧
      ∀ k, k < 7 → data.getD k 0 =
        match latIdx lats.length k with
        | some t => lats.getD t 0
        | none => 0 := by
  obtain ⟨data, h1, h2, h3⟩ := latLoop_spec lats fuel 0 0 (List.replicate pctls.length 0)
    (by simp [pctls]) (by omega)
  refine ⟨data, h1, h2, ?_⟩
  intro k hk
  rw [h3 k hk, latIdx_eq_chainIdx]
  simp only [Nat.not_lt_zero, if_false, Nat.sub_zero]
  have h0 : (List.replicate pctls.length (0 : ℚ)).getD k 0 = 0 := by
    simp only [List.getD_eq_getElem?_getD, List.getElem?_replicate]
    split <;> rfl
  rw [h0]

theorem latencies_one_target_per_index_witness :
    ∃ data, latData [1, 2, 3] 3 = .ok data ∧ data.length = 7 ∧
      ∀ k, k < 7 → data.getD k 0 =
        match latIdx [(1 : ℚ), 2, 3].length k with
        | some t => [(1 : ℚ), 2, 3].getD t 0
        | none => 0 :=
  latencies_one_target_per_index [1, 2, 3] 3 (by decide)

/-- C3 fails as stated: on `[1, 2, 3]` the first index whose rank reaches 25 is `1`
(rank 33), but the value assigned to target 25 is the sample at index `2`; on `[1, 2]`
index `1` has rank 50, yet targets 25 and 50 stay unassigned. -/
theorem latencies_first_index_counterexample :
    (∃ data, latData [1, 2, 3] 3 = .ok data ∧ firstIdxFrom 3 25 0 = some 1 ∧
      data.getD 1 0 = 3 ∧ data.getD 1 0 ≠ ([1, 2, 3] : List ℚ).getD 1 0) ∧
    (∃ data, latData [1, 2] 2 = .ok data ∧ firstIdxFrom 2 25 0 = some 1 ∧
      firstIdxFrom 2 50 0 = some 1 ∧ data.getD 1 0 = 0 ∧ data.getD 2 0 = 0 ∧
      data.getD 1 0 ≠ ([1, 2] : List ℚ).getD 1 0) :=
  ⟨⟨[2, 3, 0, 0, 0, 0, 0], rfl, by decide, by decide, by decide⟩,
    ⟨[2, 0, 0, 0, 0, 0, 0], rfl, by decide, by decide, by decide, by decide, by decide⟩⟩

/-- C4 (as amended): the value `printLatencies` assigns to the 50th percentile.  For
`N ≥ 5` samples it is the sample at 0-based index `⌈50 * N / 100⌉`, one position after
the reference nearest-rank sample (1-based rank `⌈50 * N / 100⌉`); for `N = 4` it is the
sample at index `3`; for `N ≤ 3` no 50th percentile is assigned and the value stays `0`. -/
theorem latencies_median_index (lats : List ℚ) (fuel : Nat) (hf : lats.length ≤ fuel) :
    ∃ data, latData lats fuel = .ok data ∧
      (5 ≤ lats.length → data.getD 2 0 = lats.getD ((50 * lats.length + 99) / 100) 0) ∧
      (lats.length = 4 → data.getD 2 0 = lats.getD 3 0) ∧
      (lats.length ≤ 3 → data.getD 2 0 = 0) := by
  obtain ⟨data, h1, h2, h3⟩ := latLoop_spec lats fuel 0 0 (List.replicate pctls.length 0)
    (by simp [pctls]) (by omega)
  have h := h3 2 (by omega)
  simp only [Nat.not_lt_zero, if_false, Nat.sub_zero] at h
  refine ⟨data, h1, ?_, ?_, ?_⟩
  · intro hN
    have e0 : pctls.getD 0 0 = 10 := rfl
    have e1 : pctls.getD (0 + 1) 0 = 25 := rfl
    have e2 : pctls.getD (0 + 1 + 1) 0 = 50 := rfl
    have c0 := firstIdxFrom_eq_max lats.length 10 0 (by omega)
    have c1 := firstIdxFrom_eq_max lats.length 25 (max 0 ((10 * lats.length + 99) / 100) + 1)
      (by omega)
    have c2 := firstIdxFrom_eq_max lats.length 50
      (max (max 0 ((10 * lats.length + 99) / 100) + 1) ((25 * lats.length + 99) / 100) + 1)
      (by omega)
    have hc : chainIdx lats.length 0 0 2 = some ((50 * lats.length + 99) / 100) := by
      show chainIdx lats.length 0 0 (1 + 1) = _
      simp only [chainIdx, e0, e1, e2, c0, c1, c2, Option.some_bind]
      congr 1
      omega
    rw [h, hc]
  · intro hN
    have hc : chainIdx lats.length 0 0 2 = some 3 := by rw [hN]; rfl
    rw [h, hc]
  · intro hN
    have hc : chainIdx lats.length 0 0 2 = none := by
      generalize lats.length = n at hN
      interval_cases n <;> rfl
    rw [h, hc]
    simp [pctls]

theorem latencies_median_index_witness :
    ∃ data, latData [1, 2, 3, 4, 5, 6, 7, 8, 9, 10] 10 = .ok data ∧
      (5 ≤ ([1, 2, 3, 4, 5, 6, 7, 8, 9, 10] : List ℚ).length →
        data.getD 2 0 = ([1, 2, 3, 4, 5, 6, 7, 8, 9, 10] : List ℚ).getD
          ((50 * ([1, 2, 3, 4, 5, 6, 7, 8, 9, 10] : List ℚ).length + 99) / 100) 0) ∧
      (([1, 2, 3, 4, 5, 6, 7, 8, 9, 10] : List ℚ).length = 4 →
        data.getD 2 0 = ([1, 2, 3, 4, 5, 6, 7, 8, 9, 10] : List ℚ).getD 3 0) ∧
      (([1, 2, 3, 4, 5, 6, 7, 8, 9, 10] : List ℚ).length ≤ 3 → data.getD 2 0 = 0) :=
  latencies_median_index [1, 2, 3, 4, 5, 6, 7, 8, 9, 10] 10 (by decide)

/-- C4 fails as stated: on the seconds `[1 .. 10]` the 50th percentile assigned is `6`
while the reference nearest-rank value is `5`; for `N = 1` and `N = 2` no 50th
percentile is assigned although the reference is the first sample. -/
theorem latencies_median_counterexample :
    (∃ data, latData [1, 2, 3, 4, 5, 6, 7, 8, 9, 10] 10 = .ok data ∧ data.getD 2 0 = 6 ∧
      nearestRank [1, 2, 3, 4, 5, 6, 7, 8, 9, 10] 50 = 5 ∧
      data.getD 2 0 ≠ nearestRank [1, 2, 3, 4, 5, 6, 7, 8, 9, 10] 50) ∧
    (∃ data, latData [7] 1 = .ok data ∧ data.getD 2 0 = 0 ∧ nearestRank [7] 50 = 7) ∧
    (∃ data, latData [7, 8] 2 = .ok data ∧ data.getD 2 0 = 0 ∧ nearestRank [7, 8] 50 = 7) :=
  ⟨⟨[2, 4, 6, 9, 10, 0, 0], rfl, by decide, by decide, by decide⟩,
    ⟨[0, 0, 0, 0, 0, 0, 0], rfl, by decide, by decide⟩,
    ⟨[8, 0, 0, 0, 0, 0, 0], rfl, by decide, by decide⟩⟩

theorem successes_add_failures (rs : List result) :
    (successes rs).length + (failures rs).length = rs.length := by
  induction rs with
  | nil => rfl
  | cons a t ih =>
    cases h : isSuccess a <;> simp [successes, failures, h] at ih ⊢ <;> omega

theorem successes_idem (rs : List result) : successes (successes rs) = successes rs := by
  simp [successes]

theorem accumulate_setResults (r : Report) (res : result) (X : List result) :
    accumulate (setResults r X) res = setResults (accumulate r res) X := by
  unfold accumulate
  cases res.err <;> rfl

theorem foldl_accumulate_setResults (xs : List result) (r : Report) (X : List result) :
    xs.foldl accumulate (setResults r X) = setResults (xs.foldl accumulate r) X := by
  induction xs generalizing r with
  | nil => rfl
  | cons a t ih => rw [List.foldl_cons, List.foldl_cons, accumulate_setResults, ih]

/-- Draining a stream and draining its successes leave the same report, the error
distribution apart. -/
theorem drain_successes (w : List Printf) (size : Int) (rs : List result) (output : String)
    (total : Int) :
    forgetErrors (drain (newReport w size rs output total)) =
      forgetErrors (drain (newReport w size (successes rs) output total)) := by
  have h1 := foldl_accumulate_forget rs (newReport w size rs output total)
  have h2 := foldl_accumulate_forget (successes rs) (newReport w size (successes rs) output total)
  rw [successes_idem] at h2
  have h3 : forgetErrors (newReport w size (successes rs) output total) =
      setResults (forgetErrors (newReport w size rs output total)) (successes rs) := rfl
  rw [h3, foldl_accumulate_setResults, ← h1] at h2
  calc forgetErrors (drain (newReport w size rs output total))
      = setResults (forgetErrors (List.foldl accumulate (newReport w size rs output total) rs))
          [] := rfl
    _ = setResults (setResults
          (forgetErrors (List.foldl accumulate (newReport w size rs output total) rs))
          (successes rs)) [] := rfl
    _ = setResults (forgetErrors (List.foldl accumulate
          (newReport w size (successes rs) output total) (successes rs))) [] := by rw [h2]
    _ = forgetErrors (drain (newReport w size (successes rs) output total)) := rfl

theorem finalize_eq_divisions (r : Report) : r.finalize = divisions (drain r) := rfl

theorem forgetErrors_divisions (d : Report) :
    forgetErrors (divisions d) = divisions (forgetErrors d) := rfl

theorem finalize_successes (w : List Printf) (size : Int) (rs : List result) (output : String)
    (total : Int) :
    forgetErrors (newReport w size rs output total).finalize =
      forgetErrors (newReport w size (successes rs) output total).finalize := by
  rw [finalize_eq_divisions, finalize_eq_divisions, forgetErrors_divisions,
    forgetErrors_divisions, drain_successes]

/-- The running sums of the report once `finalize` has drained the stream. -/
theorem drain_newReport_sums (w : List Printf) (size : Int) (rs : List result) (output : String)
    (total : Int) :
    let r := drain (newReport w size rs output total)
    r.AvgTotal = .fin ((successes rs).map (fun x => seconds x.duration)).sum ∧
    r.AvgConn = .fin ((successes rs).map (fun x => seconds x.connDuration)).sum ∧
    r.AvgDNS = .fin ((successes rs).map (fun x => seconds x.dnsDuration)).sum ∧
    r.AvgReq = .fin ((successes rs).map (fun x => seconds x.reqDuration)).sum ∧
    r.AvgDelay = .fin ((successes rs).map (fun x => seconds x.delayDuration)).sum ∧
    r.AvgRes = .fin ((successes rs).map (fun x => seconds x.resDuration)).sum := by
  have hx : ∀ x ∈ successes rs, isSuccess x = true := fun x hx => (List.mem_filter.mp hx).2
  have h1 := foldl_accumulate_forget rs (newReport w size rs output total)
  have h2 := foldl_accumulate_sums (successes rs) hx
    (forgetErrors (newReport w size rs output total)) 0 0 0 0 0 rfl rfl rfl rfl rfl 0 rfl
  simp only [← h1, zero_add] at h2
  exact h2

/-- C5 fails as stated: on the empty stream (elapsed time 1 s) `finalize` evaluates
`0 / 0` for the means, and they are `NaN`, not zero. -/
theorem finalize_zero_success_counterexample :
    (newReport [] 0 [] "" 1000000000).finalize.Average = F64.nan ∧
    (newReport [] 0 [] "" 1000000000).finalize.Average ≠ F64.fin 0 ∧
    (newReport [] 0 [] "" 1000000000).finalize.AvgConn ≠ F64.fin 0 := by
  have h : (newReport [] 0 [] "" 1000000000).finalize.Average = F64.nan := by
    simp [Report.finalize, drain, newReport, F64.div]
  have h' : (newReport [] 0 [] "" 1000000000).finalize.AvgConn = F64.nan := by
    simp [Report.finalize, drain, newReport, F64.div]
  refine ⟨h, ?_, ?_⟩
  · rw [h]; exact fun e => F64.noConfusion e
  · rw [h']; exact fun e => F64.noConfusion e

/-- C5 (as amended): with zero successes `finalize` takes no special branch; it divides
by the zero success count.  `RPS` is `0 / elapsed`: zero when the elapsed time is not
zero, `NaN` otherwise; each of the six means is `0 / 0`, that is `NaN`. -/
theorem finalize_zero_success (w : List Printf) (size : Int) (rs : List result)
    (output : String) (total : Int) (h0 : (successes rs).length = 0) :
    let r := (newReport w size rs output total).finalize
    r.RPS = F64.div (F64.fin 0) (F64.fin (seconds total)) ∧
    r.RPS = (if total = 0 then F64.nan else F64.fin 0) ∧
    r.Average = F64.nan ∧ r.AvgConn = F64.nan ∧ r.AvgDNS = F64.nan ∧
    r.AvgReq = F64.nan ∧ r.AvgDelay = F64.nan ∧ r.AvgRes = F64.nan := by
  have hs : successes rs = [] := List.length_eq_zero.mp h0
  obtain ⟨a1, _, _, _, _, _, _, _, a9, _, _⟩ := drain_newReport w size rs output total
  obtain ⟨b1, b2, b3, b4, b5, b6⟩ := drain_newReport_sums w size rs output total
  rw [hs] at a1 b1 b2 b3 b4 b5 b6
  simp only [List.map_nil, List.sum_nil] at a1 b1 b2 b3 b4 b5 b6
  intro r
  have hr : r = divisions (drain (newReport w size rs output total)) := rfl
  have hdiv : F64.div (F64.fin 0) (F64.fin ((([] : List ℚ).length : ℕ) : ℚ)) = F64.nan := by
    simp [F64.div]
  have hrps : r.RPS = F64.div (F64.fin 0) (F64.fin (seconds total)) := by
    rw [hr]; simp only [divisions, a1, a9]; simp
  refine ⟨hrps, ?_, ?_, ?_, ?_, ?_, ?_, ?_⟩
  · rw [hrps]
    by_cases ht : total = 0
    · simp [ht, F64.div, seconds]
    · have : seconds total ≠ 0 := by
        simp [seconds, ht]
      simp [ht, F64.div, this]
  all_goals (rw [hr]; simp only [divisions, a1, b1, b2, b3, b4, b5, b6]; exact hdiv)

theorem finalize_zero_success_witness :
    (newReport [] 0 [⟨some "timeout", 0, 0, 0, 0, 0, 0, 0, 0⟩] "" 5).finalize.Average
      = F64.nan :=
  (finalize_zero_success [] 0 [⟨some "timeout", 0, 0, 0, 0, 0, 0, 0, 0⟩] "" 5
    (by decide)).2.2.1

/-- C6: after `finalize` the status-code counts sum to the number of successes, the
error counts sum to the number of failures, and the two sums together equal the number
of results consumed. -/
theorem finalize_distribution_totals (w : List Printf) (size : Int) (rs : List result)
    (output : String) (total : Int) :
    distTotal (newReport w size rs output total).finalize.statusCodeDist
      = (successes rs).length ∧
    distTotal (newReport w size rs output total).finalize.errorDist = (failures rs).length ∧
    distTotal (newReport w size rs output total).finalize.statusCodeDist +
      distTotal (newReport w size rs output total).finalize.errorDist = rs.length := by
  obtain ⟨_, _, _, _, _, _, a7, a8, _⟩ := drain_newReport w size rs output total
  have h1 : distTotal (newReport w size rs output total).finalize.statusCodeDist
      = (successes rs).length := a7
  have h2 : distTotal (newReport w size rs output total).finalize.errorDist
      = (failures rs).length := a8
  exact ⟨h1, h2, by rw [h1, h2, successes_add_failures]⟩

theorem addLines_addLines (r : Report) (a b : List Printf) :
    addLines (addLines r a) b = addLines r (a ++ b) := by
  simp [addLines]

theorem printSection_ok (r : Report) (tag : String) (avg : F64) (l : List ℚ)
    (h : 0 < l.length) :
    ∃ out, r.printSection tag avg l = .ok out ∧ out.2 = sortFloat64s l := by
  have hl : 0 < (sortFloat64s l).length := by rw [sortFloat64s_length]; exact h
  have h0 := List.getElem?_eq_getElem hl
  have h1 : (sortFloat64s l).length - 1 < (sortFloat64s l).length := by omega
  have h1' := List.getElem?_eq_getElem h1
  unfold Report.printSection
  simp only [h0, h1']
  exact ⟨_, rfl, rfl⟩

theorem printCSVRows_spec (xs : List result) :
    ∀ (done : List result) (r : Report),
      r.ConnLats = (done ++ xs).map (fun x => seconds x.connDuration) →
      r.DNSLats = (done ++ xs).map (fun x => seconds x.dnsDuration) →
      r.ReqLats = (done ++ xs).map (fun x => seconds x.reqDuration) →
      r.DelayLats = (done ++ xs).map (fun x => seconds x.delayDuration) →
      r.ResLats = (done ++ xs).map (fun x => seconds x.resDuration) →
      printCSVRows r done.length (xs.map (fun x => seconds x.duration)) =
        .ok (addLines r (xs.map csvRow)) := by
  induction xs with
  | nil => intro done r _ _ _ _ _; simp [printCSVRows, addLines]
  | cons x t ih =>
    intro done r h1 h2 h3 h4 h5
    have hidx : ∀ (f : result → ℚ), ((done ++ x :: t).map f)[done.length]? = some (f x) := by
      intro f
      rw [List.map_append, List.getElem?_append_right (by simp)]
      simp
    have hd : done ++ x :: t = (done ++ [x]) ++ t := by simp
    have := ih (done ++ [x]) (addLines r [csvRow x])
      (by rw [← hd]; exact h1) (by rw [← hd]; exact h2) (by rw [← hd]; exact h3)
      (by rw [← hd]; exact h4) (by rw [← hd]; exact h5)
    rw [List.length_append, List.length_singleton, addLines_addLines] at this
    rw [List.map_cons, printCSVRows]
    simp only [h1, h2, h3, h4, h5, hidx]
    exact this

/-- What `printCSV` writes on a finalized report. -/
theorem printCSV_finalize (w : List Printf) (size : Int) (rs : List result) (output : String)
    (total : Int) :
    (newReport w size rs output total).finalize.printCSV =
      .ok (addLines (newReport w size rs output total).finalize
        (csvHeader :: (successes rs).map csvRow)) := by
  obtain ⟨a1, a2, a3, a4, a5, a6, _, _, _, _, a11⟩ := drain_newReport w size rs output total
  have b1 : (addLines (newReport w size rs output total).finalize [csvHeader]).lats
      = (successes rs).map (fun x => seconds x.duration) := a1
  have := printCSVRows_spec (successes rs) []
    (addLines (newReport w size rs output total).finalize [csvHeader]) a2 a3 a4 a5 a6
  rw [addLines_addLines] at this
  unfold Report.printCSV
  show printCSVRows (addLines (newReport w size rs output total).finalize [csvHeader]) 0
    (addLines (newReport w size rs output total).finalize [csvHeader]).lats = _
  rw [b1]
  exact this

/-- C7: after `finalize` the total-duration sequence and the five phase sequences all
have the length of the success count; so `printCSV` returns without an index fault, and
with at least one success every `printSection` call of `print` returns too. -/
theorem finalize_lengths (w : List Printf) (size : Int) (rs : List result) (output : String)
    (total : Int) :
    (newReport w size rs output total).finalize.lats.length = (successes rs).length ∧
    (newReport w size rs output total).finalize.ConnLats.length = (successes rs).length ∧
    (newReport w size rs output total).finalize.DNSLats.length = (successes rs).length ∧
    (newReport w size rs output total).finalize.ReqLats.length = (successes rs).length ∧
    (newReport w size rs output total).finalize.DelayLats.length = (successes rs).length ∧
    (newReport w size rs output total).finalize.ResLats.length = (successes rs).length ∧
    (∃ r', (newReport w size rs output total).finalize.printCSV = .ok r') ∧
    ((newReport w size rs output total).finalize.lats.length = 0 ∨
      ∀ (r0 : Report) (tag : String) (avg : F64),
        ∀ l ∈ [(newReport w size rs output total).finalize.ConnLats,
            (newReport w size rs output total).finalize.DNSLats,
            (newReport w size rs output total).finalize.ReqLats,
            (newReport w size rs output total).finalize.DelayLats,
            (newReport w size rs output total).finalize.ResLats],
          ∃ out, r0.printSection tag avg l = .ok out) := by
  obtain ⟨a1, a2, a3, a4, a5, a6, _⟩ := drain_newReport w size rs output total
  have b1 : (newReport w size rs output total).finalize.lats = _ := a1
  have b2 : (newReport w size rs output total).finalize.ConnLats = _ := a2
  have b3 : (newReport w size rs output total).finalize.DNSLats = _ := a3
  have b4 : (newReport w size rs output total).finalize.ReqLats = _ := a4
  have b5 : (newReport w size rs output total).finalize.DelayLats = _ := a5
  have b6 : (newReport w size rs output total).finalize.ResLats = _ := a6
  refine ⟨by rw [b1, List.length_map], by rw [b2, List.length_map], by rw [b3, List.length_map],
    by rw [b4, List.length_map], by rw [b5, List.length_map], by rw [b6, List.length_map],
    ⟨_, printCSV_finalize w size rs output total⟩, ?_⟩
  by_cases hN : (successes rs).length = 0
  · left; rw [b1, List.length_map]; exact hN
  · right
    intro r0 tag avg l hl
    have hlen : 0 < l.length := by
      simp only [List.mem_cons, List.mem_singleton, List.not_mem_nil, or_false] at hl
      rcases hl with h | h | h | h | h <;> rw [h] <;>
        simp only [b2, b3, b4, b5, b6, List.length_map] <;> omega
    obtain ⟨out, ho, _⟩ := printSection_ok r0 tag avg l hlen
    exact ⟨out, ho⟩

/-- C8: failures never enter the latency statistics.  The six sequences list the
successes' durations in arrival order; they, the running sums held when the stream is
drained, the status-code distribution and the byte total are those obtained from the
stream with its failures removed. -/
theorem finalize_ignores_failures (w : List Printf) (size : Int) (rs : List result)
    (output : String) (total : Int) :
    let f := (newReport w size rs output total).finalize
    let f' := (newReport w size (successes rs) output total).finalize
    let d := drain (newReport w size rs output total)
    let d' := drain (newReport w size (successes rs) output total)
    (f.lats = f'.lats ∧ f.ConnLats = f'.ConnLats ∧ f.DNSLats = f'.DNSLats ∧
      f.ReqLats = f'.ReqLats ∧ f.DelayLats = f'.DelayLats ∧ f.ResLats = f'.ResLats) ∧
    (d.AvgTotal = d'.AvgTotal ∧ d.AvgConn = d'.AvgConn ∧ d.AvgDNS = d'.AvgDNS ∧
      d.AvgReq = d'.AvgReq ∧ d.AvgDelay = d'.AvgDelay ∧ d.AvgRes = d'.AvgRes) ∧
    (f.AvgTotal = f'.AvgTotal ∧ f.Average = f'.Average ∧ f.AvgConn = f'.AvgConn ∧
      f.AvgDNS = f'.AvgDNS ∧ f.AvgReq = f'.AvgReq ∧ f.AvgDelay = f'.AvgDelay ∧
      f.AvgRes = f'.AvgRes ∧ f.RPS = f'.RPS) ∧
    f.statusCodeDist = f'.statusCodeDist ∧ f.sizeTotal = f'.sizeTotal ∧
    (f.lats = (successes rs).map (fun x => seconds x.duration) ∧
      f.ConnLats = (successes rs).map (fun x => seconds x.connDuration) ∧
      f.DNSLats = (successes rs).map (fun x => seconds x.dnsDuration) ∧
      f.ReqLats = (successes rs).map (fun x => seconds x.reqDuration) ∧
      f.DelayLats = (successes rs).map (fun x => seconds x.delayDuration) ∧
      f.ResLats = (successes rs).map (fun x => seconds x.resDuration)) := by
  intro f f' d d'
  have hf : forgetErrors f = forgetErrors f' := finalize_successes w size rs output total
  have hd : forgetErrors d = forgetErrors d' := drain_successes w size rs output total
  obtain ⟨a1, a2, a3, a4, a5, a6, _⟩ := drain_newReport w size rs output total
  refine ⟨⟨(by have h := congrArg Report.lats hf; exact h), (by have h := congrArg Report.ConnLats hf; exact h), (by have h := congrArg Report.DNSLats hf; exact h),
      (by have h := congrArg Report.ReqLats hf; exact h), (by have h := congrArg Report.DelayLats hf; exact h), (by have h := congrArg Report.ResLats hf; exact h)⟩,
    ⟨(by have h := congrArg Report.AvgTotal hd; exact h), (by have h := congrArg Report.AvgConn hd; exact h), (by have h := congrArg Report.AvgDNS hd; exact h),
      (by have h := congrArg Report.AvgReq hd; exact h), (by have h := congrArg Report.AvgDelay hd; exact h), (by have h := congrArg Report.AvgRes hd; exact h)⟩,
    ⟨(by have h := congrArg Report.AvgTotal hf; exact h), (by have h := congrArg Report.Average hf; exact h), (by have h := congrArg Report.AvgConn hf; exact h),
      (by have h := congrArg Report.AvgDNS hf; exact h), (by have h := congrArg Report.AvgReq hf; exact h), (by have h := congrArg Report.AvgDelay hf; exact h),
      (by have h := congrArg Report.AvgRes hf; exact h), (by have h := congrArg Report.RPS hf; exact h)⟩,
    (by have h := congrArg Report.statusCodeDist hf; exact h), (by have h := congrArg Report.sizeTotal hf; exact h),
    ⟨a1, a2, a3, a4, a5, a6⟩⟩

theorem F64_div_fin (a b : ℚ) (hb : b ≠ 0) : F64.div (.fin a) (.fin b) = .fin (a / b) := by
  simp [F64.div, hb]

/-- C9: with at least one success and a positive elapsed time, `finalize` sets `RPS` to
the success count over the elapsed seconds and each mean to the sum of that duration
over the successes divided by the success count. -/
theorem finalize_rps_and_means (w : List Printf) (size : Int) (rs : List result)
    (output : String) (total : Int) (hN : 0 < (successes rs).length) (ht : 0 < total) :
    let r := (newReport w size rs output total).finalize
    let N : ℚ := ((successes rs).length : ℚ)
    r.RPS = .fin (N / seconds total) ∧
    r.Average = .fin (((successes rs).map (fun x => seconds x.duration)).sum / N) ∧
    r.AvgConn = .fin (((successes rs).map (fun x => seconds x.connDuration)).sum / N) ∧
    r.AvgDNS = .fin (((successes rs).map (fun x => seconds x.dnsDuration)).sum / N) ∧
    r.AvgReq = .fin (((successes rs).map (fun x => seconds x.reqDuration)).sum / N) ∧
    r.AvgDelay = .fin (((successes rs).map (fun x => seconds x.delayDuration)).sum / N) ∧
    r.AvgRes = .fin (((successes rs).map (fun x => seconds x.resDuration)).sum / N) := by
  intro r N
  obtain ⟨a1, _, _, _, _, _, _, _, a9, _, _⟩ := drain_newReport w size rs output total
  obtain ⟨b1, b2, b3, b4, b5, b6⟩ := drain_newReport_sums w size rs output total
  have hr : r = divisions (drain (newReport w size rs output total)) := rfl
  have hlen : (((drain (newReport w size rs output total)).lats.length : ℕ) : ℚ) = N := by
    rw [a1, List.length_map]
  have hN0 : N ≠ 0 := by
    have : (0 : ℚ) < ((successes rs).length : ℚ) := by exact_mod_cast hN
    exact ne_of_gt this
  have hs : seconds total ≠ 0 := by
    have : (0 : ℚ) < (total : ℚ) := by exact_mod_cast ht
    unfold seconds
    positivity
  refine ⟨?_, ?_, ?_, ?_, ?_, ?_, ?_⟩
  · rw [hr]; simp only [divisions, hlen, a9]; exact F64_div_fin _ _ hs
  all_goals
    (rw [hr]; simp only [divisions, hlen, b1, b2, b3, b4, b5, b6]; exact F64_div_fin _ _ hN0)

theorem finalize_rps_and_means_witness :
    (newReport [] 0 (List.replicate 100 ⟨none, 200, 30000000, 0, 0, 0, 0, 0, 0⟩) ""
      10000000000).finalize.RPS = F64.fin 10 := by
  have h := (finalize_rps_and_means [] 0
    (List.replicate 100 ⟨none, 200, 30000000, 0, 0, 0, 0, 0, 0⟩) "" 10000000000
    (by decide) (by decide)).1
  rw [h]
  have e : (successes (List.replicate 100 ⟨none, 200, 30000000, 0, 0, 0, 0, 0, 0⟩)).length
      = 100 := by decide
  rw [e]
  norm_num [seconds]

theorem print_csv_eq (r : Report) (fuel : Nat) (h : r.output = "csv") :
    r.print fuel = r.printCSV := by
  unfold Report.print
  simp [h]

/-- C10: in CSV mode `print`, on a finalized report, writes the header row and then one
data row per success, in arrival order (row `i` carrying the `i`-th success's total,
connect, DNS, request-write, response-wait and response-read durations), and nothing
for a failure; the number of data rows is the success count. -/
theorem print_csv (w : List Printf) (size : Int) (rs : List result) (total : Int)
    (fuel : Nat) :
    ∃ r', (newReport w size rs "csv" total).finalize.print fuel = .ok r' ∧
      r'.w = w ++ csvHeader :: (successes rs).map csvRow ∧
      r'.w.length = w.length + 1 + (successes rs).length ∧
      ((successes rs).length = 0 → r'.w = w ++ [csvHeader]) := by
  have ho : (newReport w size rs "csv" total).finalize.output = "csv" :=
    (drain_newReport w size rs "csv" total).2.2.2.2.2.2.2.2.2.1
  have hw : (newReport w size rs "csv" total).finalize.w = w :=
    (drain_newReport w size rs "csv" total).2.2.2.2.2.2.2.2.2.2
  refine ⟨addLines (newReport w size rs "csv" total).finalize
    (csvHeader :: (successes rs).map csvRow), ?_, ?_, ?_, ?_⟩
  · rw [print_csv_eq _ _ ho, printCSV_finalize]
  · simp [addLines, hw]
  · simp [addLines, hw]; omega
  · intro h0
    have : successes rs = [] := List.length_eq_zero.mp h0
    simp [addLines, hw, this]

/-- C12: for `maxCount > 0` the bar length `(c * 40 + maxCount / 2) / maxCount` is
`c * 40 / maxCount` rounded to the nearest integer, ties upward (the floor of the exact
quotient plus one half), so it is within `1/2` of the exact quotient; for
`maxCount = 0` the bar length is `0`. -/
theorem barLen_rounds_to_nearest (c m : Nat) :
    (0 < m → ((barLen c m : ℤ) = ⌊(c : ℚ) * 40 / (m : ℚ) + 1 / 2⌋ ∧
      |(barLen c m : ℚ) - (c : ℚ) * 40 / (m : ℚ)| ≤ 1 / 2)) ∧
    barLen c 0 = 0 := by
  refine ⟨?_, by simp [barLen]⟩
  intro hm
  have hb : barLen c m = (c * 40 + m / 2) / m := by simp [barLen, hm]
  have h1 : barLen c m * m ≤ c * 40 + m / 2 := by rw [hb]; exact Nat.div_mul_le_self _ _
  have h2 : c * 40 + m / 2 < (barLen c m + 1) * m := by
    rw [hb]
    have := Nat.div_add_mod (c * 40 + m / 2) m
    have hlt := Nat.mod_lt (c * 40 + m / 2) hm
    have e : ((c * 40 + m / 2) / m + 1) * m = m * ((c * 40 + m / 2) / m) + m := by ring
    rw [e]
    omega
  have h3 : 2 * (barLen c m * m) ≤ 2 * (c * 40) + m := by omega
  have h4 : 2 * (c * 40) + m < 2 * (barLen c m * m) + 2 * m := by
    have : (barLen c m + 1) * m = barLen c m * m + m := by ring
    omega
  have hmq : (0 : ℚ) < (m : ℚ) := by exact_mod_cast hm
  have h3q : 2 * ((barLen c m : ℚ) * m) ≤ 2 * ((c : ℚ) * 40) + m := by exact_mod_cast h3
  have h4q : 2 * ((c : ℚ) * 40) + m < 2 * ((barLen c m : ℚ) * m) + 2 * m := by
    exact_mod_cast h4
  have hx : (c : ℚ) * 40 / (m : ℚ) * m = (c : ℚ) * 40 := by field_simp
  have lo : (barLen c m : ℚ) ≤ (c : ℚ) * 40 / (m : ℚ) + 1 / 2 := by
    by_contra hcon
    push_neg at hcon
    have := mul_lt_mul_of_pos_right hcon hmq
    nlinarith
  have hi : (c : ℚ) * 40 / (m : ℚ) + 1 / 2 < (barLen c m : ℚ) + 1 := by
    by_contra hcon
    push_neg at hcon
    have := mul_le_mul_of_nonneg_right hcon hmq.le
    nlinarith
  constructor
  · symm
    rw [Int.floor_eq_iff]
    exact ⟨by exact_mod_cast lo, by exact_mod_cast hi⟩
  · rw [abs_le]
    constructor <;> linarith

/-- The loop is its body followed by the loop, while `i < len(r.lats)`. -/
theorem histLoop_succ (lats B : List ℚ) (fuel : Nat) (s : HistState) :
    histLoop lats B (fuel + 1) s =
      if s.i < lats.length then
        match histStep lats B s with
        | .ok s' => histLoop lats B fuel s'
        | .error e => .error e
      else .ok s := by
  rw [histLoop]
  unfold histStep
  by_cases hi : s.i < lats.length
  · simp only [hi, if_true]
    cases lats[s.i]? <;> cases B[s.bi]? <;> try rfl
    rename_i v b
    simp only []
    by_cases hle : v ≤ b
    · simp only [hle, if_true]
      cases s.counts[s.bi]? <;> rfl
    · simp only [hle, if_false]
      by_cases hb : s.bi < B.length - 1 <;> simp [hb]
  · simp [hi]

theorem histLoop_zero (lats B : List ℚ) (s : HistState) :
    histLoop lats B 0 s = if s.i < lats.length then .error .outOfFuel else .ok s := by
  rw [histLoop]

/-- A property kept by the loop body holds when the loop ends. -/
theorem histLoop_invariant (lats B : List ℚ) (P : HistState → Prop)
    (hstep : ∀ s s', s.i < lats.length → histStep lats B s = .ok s' → P s → P s') :
    ∀ (fuel : Nat) (s s' : HistState), histLoop lats B fuel s = .ok s' → P s → P s' := by
  intro fuel
  induction fuel with
  | zero =>
    intro s s' h hP
    rw [histLoop_zero] at h
    by_cases hi : s.i < lats.length
    · simp [hi] at h
    · simp only [hi, if_false] at h
      injection h with h; rw [← h]; exact hP
  | succ fuel ih =>
    intro s s' h hP
    rw [histLoop_succ] at h
    by_cases hi : s.i < lats.length
    · simp only [hi, if_true] at h
      cases hs : histStep lats B s with
      | error e => rw [hs] at h; simp at h
      | ok s1 =>
        rw [hs] at h
        exact ih s1 s' h (hstep s s1 hi hs hP)
    · simp only [hi, if_false] at h
      injection h with h; rw [← h]; exact hP

/-- When the loop ends every sample has been visited. -/
theorem histLoop_exit (lats B : List ℚ) :
    ∀ (fuel : Nat) (s s' : HistState), histLoop lats B fuel s = .ok s' →
      ¬ s'.i < lats.length := by
  intro fuel
  induction fuel with
  | zero =>
    intro s s' h
    rw [histLoop_zero] at h
    by_cases hi : s.i < lats.length
    · simp [hi] at h
    · simp only [hi, if_false] at h
      injection h with h; rw [← h]; exact hi
  | succ fuel ih =>
    intro s s' h
    rw [histLoop_succ] at h
    by_cases hi : s.i < lats.length
    · simp only [hi, if_true] at h
      cases hs : histStep lats B s with
      | error e => rw [hs] at h; simp at h
      | ok s1 => rw [hs] at h; exact ih s1 s' h
    · simp only [hi, if_false] at h
      injection h with h; rw [← h]; exact hi

/-- The body of the loop advances the sample index or the bucket cursor, as long as no
sample exceeds the last edge. -/
theorem histStep_progress (lats B : List ℚ)
    (hlast : ∀ v ∈ lats, v ≤ B.getD (B.length - 1) 0) (s : HistState)
    (hbi : s.bi < B.length) (hc : s.counts.length = B.length) (hi : s.i < lats.length) :
    ∃ s', histStep lats B s = .ok s' ∧ s'.bi < B.length ∧ s'.counts.length = B.length ∧
      ((s'.i = s.i + 1 ∧ s'.bi = s.bi) ∨ (s'.i = s.i ∧ s'.bi = s.bi + 1)) := by
  have hv : lats[s.i]? = some lats[s.i] := List.getElem?_eq_getElem hi
  have hb : B[s.bi]? = some B[s.bi] := List.getElem?_eq_getElem hbi
  have hcb : s.counts[s.bi]? = some s.counts[s.bi] := List.getElem?_eq_getElem (by omega)
  unfold histStep
  simp only [hv, hb]
  by_cases hle : lats[s.i] ≤ B[s.bi]
  · simp only [hle, if_true, hcb]
    exact ⟨_, rfl, hbi, by simp [hc], Or.inl ⟨rfl, rfl⟩⟩
  · simp only [hle, if_false]
    by_cases hb2 : s.bi < B.length - 1
    · simp only [hb2, if_true]
      exact ⟨_, rfl, by simp only; omega, hc, Or.inr ⟨rfl, rfl⟩⟩
    · exfalso
      have h1 : s.bi = B.length - 1 := by omega
      have := hlast lats[s.i] (List.getElem_mem _)
      rw [← h1, List.getD_eq_getElem?_getD, hb] at this
      exact hle this

/-- Every state the loop passes through has its cursor and its counts in range. -/
theorem HistReach_inv (lats B : List ℚ) (hB : B.length = 11)
    (hlast : ∀ v ∈ lats, v ≤ B.getD (B.length - 1) 0) (s : HistState)
    (h : HistReach lats B s) : s.bi < B.length ∧ s.counts.length = B.length := by
  induction h with
  | init => rw [hB]; simp [histInit]
  | step _ hi hs ih =>
    obtain ⟨s1, h1, h2, h3, _⟩ := histStep_progress lats B hlast _ ih.1 ih.2 hi
    rw [hs] at h1
    injection h1 with h1
    rw [h1]; exact ⟨h2, h3⟩

/-- The largest count is tracked by `max`: kept by the loop body. -/
theorem histStep_max (lats B : List ℚ) (s s' : HistState)
    (hs : histStep lats B s = .ok s')
    (hP : (∀ c ∈ s.counts, c ≤ s.max) ∧ s.max ∈ s.counts) :
    (∀ c ∈ s'.counts, c ≤ s'.max) ∧ s'.max ∈ s'.counts := by
  unfold histStep at hs
  cases hv : lats[s.i]? with
  | none => simp [hv] at hs
  | some v =>
    cases hb : B[s.bi]? with
    | none => simp [hv, hb] at hs
    | some b =>
      simp only [hv, hb] at hs
      by_cases hle : v ≤ b
      · simp only [hle, if_true] at hs
        cases hc : s.counts[s.bi]? with
        | none => simp [hc] at hs
        | some c =>
          simp only [hc] at hs
          injection hs with hs
          have hbl : s.bi < s.counts.length := by
            by_contra hh
            rw [List.getElem?_eq_none (by omega)] at hc
            cases hc
          have hcm : c ≤ s.max := by
            apply hP.1
            rw [List.getElem?_eq_getElem hbl] at hc
            injection hc with hc
            rw [← hc]; exact List.getElem_mem _
          rw [← hs]
          simp only
          constructor
          · intro x hx
            rcases List.mem_or_eq_of_mem_set hx with h | h
            · have := hP.1 x h
              split <;> omega
            · rw [h]; split <;> omega
          · by_cases hlt : s.max < c + 1
            · simp only [hlt, if_true]
              exact List.mem_set _ _ hbl _
            · simp only [hlt, if_false]
              obtain ⟨j, hjm⟩ := List.mem_iff_getElem?.mp hP.2
              have hne : s.bi ≠ j := by
                intro e
                subst e
                rw [hc] at hjm
                injection hjm with hjm
                omega
              apply List.getElem?_mem (n := j)
              rw [List.getElem?_set_ne hne]; exact hjm
      · simp only [hle, if_false] at hs
        by_cases hb2 : s.bi < B.length - 1
        · simp only [hb2, if_true] at hs
          injection hs with hs
          rw [← hs]; exact hP
        · simp only [hb2, if_false] at hs
          injection hs with hs
          rw [← hs]; exact hP

theorem sorted_of_all_eq (l : List ℚ) (F : ℚ) (h : ∀ v ∈ l, v = F) : l.Sorted (· ≤ ·) := by
  induction l with
  | nil => exact List.sorted_nil
  | cons a t ih =>
    refine List.sorted_cons.mpr ⟨?_, ih (fun v hv => h v (List.mem_cons_of_mem _ hv))⟩
    intro b hb
    rw [h a (List.mem_cons_self _ _), h b (List.mem_cons_of_mem _ hb)]

theorem printHistogram_ok (r : Report) (fuel : Nat) (s : HistState)
    (h : histState r.lats r.Fastest r.Slowest fuel = .ok s) :
    r.printHistogram fuel = .ok (addLines r
      (⟨"\nResponse time histogram:\n", []⟩ ::
        histLines (histBuckets r.Fastest r.Slowest) s.counts s.max)) := by
  unfold Report.printHistogram
  rw [h]
  simp [Report.printf, addLines]

/-- C13: when all `N ≥ 1` samples are equal (`Fastest = Slowest`), the bucketing loop of
`printHistogram` ends without a fault, with `counts[0] = N` and `counts[k] = 0` for
`1 ≤ k ≤ 10`, and `printHistogram` returns. -/
theorem histogram_zero_width (r : Report) (fuel : Nat) (hne : 0 < r.lats.length)
    (hF : ∀ v ∈ r.lats, v = r.Fastest) (hS : r.Slowest = r.Fastest)
    (hf : r.lats.length + 10 ≤ fuel) :
    ∃ s, histState r.lats r.Fastest r.Slowest fuel = .ok s ∧ s.counts.length = 11 ∧
      s.counts.getD 0 0 = r.lats.length ∧
      (∀ k, 1 ≤ k → k ≤ 10 → s.counts.getD k 0 = 0) ∧
      ∃ r', r.printHistogram fuel = .ok r' := by
  have h0 : r.lats[0]? = some r.Fastest := by
    rw [List.getElem?_eq_getElem hne]
    exact congrArg some (hF _ (List.getElem_mem _))
  have h1 : r.lats[r.lats.length - 1]? = some r.Slowest := by
    rw [List.getElem?_eq_getElem (by omega), hS]
    exact congrArg some (hF _ (List.getElem_mem _))
  obtain ⟨s, g1, g2, _, g4⟩ := histState_spec r.lats r.Fastest r.Slowest
    (sorted_of_all_eq _ _ hF) h0 h1 fuel hf
  refine ⟨s, g1, g2, ?_, ?_, ⟨_, printHistogram_ok r fuel s g1⟩⟩
  · rw [g4 0 (by omega)]
    have he0 : (histBuckets r.Fastest r.Slowest).getD 0 0 = r.Fastest := by
      rw [histBuckets_getD_lt r.Fastest r.Slowest 0 (by omega)]; simp
    have : ∀ v ∈ r.lats, inBucket (histBuckets r.Fastest r.Slowest) 0 v = true := by
      intro v hv
      simp only [inBucket, he0, hF v hv]
      simp
    rw [List.countP_eq_length.mpr this]
  · intro k hk1 hk2
    rw [g4 k (by omega)]
    rw [List.countP_eq_zero]
    intro v hv
    have hk : (k == 0) = false := by simp; omega
    have he : (histBuckets r.Fastest r.Slowest).getD (k - 1) 0 = r.Fastest := by
      rw [histBuckets_getD_lt r.Fastest r.Slowest (k - 1) (by omega), hS]; simp
    simp only [inBucket, hk, he, hF v hv, Bool.false_or]
    simp

theorem histogram_zero_width_witness :
    ∃ s, histState equalLatsReport.lats equalLatsReport.Fastest equalLatsReport.Slowest 13
        = .ok s ∧ s.counts.length = 11 ∧
      s.counts.getD 0 0 = equalLatsReport.lats.length ∧
      (∀ k, 1 ≤ k → k ≤ 10 → s.counts.getD k 0 = 0) ∧
      ∃ r', equalLatsReport.printHistogram 13 = .ok r' :=
  histogram_zero_width equalLatsReport 13 (by decide) (by decide) rfl (by decide)

theorem sortFloat64s_mem (l : List ℚ) (v : ℚ) : v ∈ sortFloat64s l ↔ v ∈ l :=
  (List.perm_insertionSort _ l).mem_iff

/-- The loop ends within `N + 10` iterations when no sample exceeds the last edge. -/
theorem histLoop_total (lats B : List ℚ)
    (hlast : ∀ v ∈ lats, v ≤ B.getD (B.length - 1) 0) :
    ∀ (fuel : Nat) (s : HistState), s.bi < B.length → s.counts.length = B.length →
      (lats.length - s.i) + (B.length - 1 - s.bi) ≤ fuel →
      ∃ s', histLoop lats B fuel s = .ok s' := by
  intro fuel
  induction fuel with
  | zero =>
    intro s _ _ hf
    have hi : ¬ s.i < lats.length := by omega
    exact ⟨s, by rw [histLoop_zero]; simp [hi]⟩
  | succ fuel ih =>
    intro s hbi hc hf
    rw [histLoop_succ]
    by_cases hi : s.i < lats.length
    · obtain ⟨s1, h1, h2, h3, h4⟩ := histStep_progress lats B hlast s hbi hc hi
      simp only [hi, if_true, h1]
      exact ih s1 h2 h3 (by omega)
    · exact ⟨s, by simp [hi]⟩

/-- C17: on an ascending sequence whose last element is `Slowest`, the bucketing loop of
`printHistogram` ends within `N + 10` iterations with every sample visited; in every
state it passes through with samples left, the current value is not above the last edge
with the cursor on the last bucket, and the body advances either the sample index or
the bucket cursor by one. -/
theorem histogram_loop_terminates (lats : List ℚ) (F S : ℚ) (hs : lats.Sorted (· ≤ ·))
    (hS : lats[lats.length - 1]? = some S) :
    (∀ fuel, lats.length + 10 ≤ fuel →
      ∃ s, histState lats F S fuel = .ok s ∧ lats.length ≤ s.i) ∧
    (∀ s, HistReach lats (histBuckets F S) s → s.i < lats.length →
      ¬ (10 ≤ s.bi ∧ (histBuckets F S).getD s.bi 0 < lats.getD s.i 0) ∧
      ∃ s', histStep lats (histBuckets F S) s = .ok s' ∧
        ((s'.i = s.i + 1 ∧ s'.bi = s.bi) ∨ (s'.i = s.i ∧ s'.bi = s.bi + 1))) := by
  have hlen := histBuckets_length F S
  have hlast0 := sorted_le_last lats hs S hS
  have hlast : ∀ v ∈ lats, v ≤ (histBuckets F S).getD ((histBuckets F S).length - 1) 0 := by
    rw [hlen]; simpa [histBuckets_getD_last] using hlast0
  constructor
  · intro fuel hf
    obtain ⟨s, h⟩ := histLoop_total lats (histBuckets F S) hlast fuel histInit
      (by rw [hlen]; simp [histInit]) (by rw [hlen]; simp [histInit])
      (by rw [hlen]; simp [histInit]; omega)
    have := histLoop_exit lats (histBuckets F S) fuel histInit s h
    exact ⟨s, h, by omega⟩
  · intro s hr hi
    obtain ⟨hbi, hc⟩ := HistReach_inv lats (histBuckets F S) hlen hlast s hr
    obtain ⟨s', h1, _, _, h4⟩ := histStep_progress lats (histBuckets F S) hlast s hbi hc hi
    refine ⟨?_, s', h1, h4⟩
    rintro ⟨h10, hgt⟩
    have hb : s.bi = 10 := by omega
    rw [hb, histBuckets_getD_last] at hgt
    have hv : lats.getD s.i 0 = lats[s.i] := by
      simp [List.getD_eq_getElem?_getD, List.getElem?_eq_getElem hi]
    rw [hv] at hgt
    exact absurd (hlast0 _ (List.getElem_mem _)) (not_le.mpr hgt)

theorem histogram_loop_terminates_witness :
    ∃ s, histState [1, 2, 3] 1 3 13 = .ok s ∧ ([1, 2, 3] : List ℚ).length ≤ s.i :=
  (histogram_loop_terminates [1, 2, 3] 1 3 (by decide) (by decide)).1 13 (by decide)

theorem barLen_le (c m : Nat) (h : c ≤ m) : barLen c m ≤ 40 := by
  unfold barLen
  by_cases hm : m > 0
  · simp only [hm, if_true]
    have : (c * 40 + m / 2) / m < 41 := by
      rw [Nat.div_lt_iff_lt_mul hm]; omega
    omega
  · simp [hm]

theorem barLen_self (m : Nat) (hm : 0 < m) : barLen m m = 40 := by
  have h1 := barLen_le m m (Nat.le_refl _)
  have h2 : 40 ≤ barLen m m := by
    unfold barLen
    simp only [gt_iff_lt, hm, if_true]
    rw [Nat.le_div_iff_mul_le hm]; omega
  omega

/-- C20: on an ascending non-empty sequence whose first/last elements are
`Fastest`/`Slowest`, the value `max` tracked by the bucketing loop is the largest of the
11 counts, every bar length is at most 40 (and at least 0, being a natural number), and
a bucket whose count is that maximum gets a bar of length 40. -/
theorem histogram_max_and_bars (lats : List ℚ) (F S : ℚ) (hs : lats.Sorted (· ≤ ·))
    (hF : lats[0]? = some F) (hS : lats[lats.length - 1]? = some S)
    (fuel : Nat) (hf : lats.length + 10 ≤ fuel) :
    ∃ s, histState lats F S fuel = .ok s ∧ s.counts.length = 11 ∧
      s.max ∈ s.counts ∧ (∀ c ∈ s.counts, c ≤ s.max) ∧
      (∀ c ∈ s.counts, 0 ≤ barLen c s.max ∧ barLen c s.max ≤ 40) ∧
      (∀ c ∈ s.counts, c = s.max → barLen c s.max = 40) := by
  obtain ⟨s, h1, h2, h3, _⟩ := histState_spec lats F S hs hF hS fuel hf
  have hinv := histLoop_invariant lats (histBuckets F S)
    (fun s => (∀ c ∈ s.counts, c ≤ s.max) ∧ s.max ∈ s.counts)
    (fun s s' _ hstep hP => histStep_max lats (histBuckets F S) s s' hstep hP)
    fuel histInit s h1 (by simp [histInit])
  have hN : 0 < lats.length := by
    by_contra h
    rw [List.getElem?_eq_none (by omega)] at hF
    cases hF
  have hmax : 0 < s.max := by
    by_contra h
    have hz : ∀ c ∈ s.counts, c = 0 := fun c hc => by
      have := hinv.1 c hc; omega
    have : s.counts.sum = 0 := List.sum_eq_zero hz
    omega
  refine ⟨s, h1, h2, hinv.2, hinv.1, ?_, ?_⟩
  · intro c hc
    exact ⟨Nat.zero_le _, barLen_le c s.max (hinv.1 c hc)⟩
  · intro c _ hcm
    rw [hcm]; exact barLen_self s.max hmax

theorem histogram_max_and_bars_witness :
    ∃ s, histState [1, 2, 3] 1 3 13 = .ok s ∧ s.counts.length = 11 ∧
      s.max ∈ s.counts ∧ (∀ c ∈ s.counts, c ≤ s.max) ∧
      (∀ c ∈ s.counts, 0 ≤ barLen c s.max ∧ barLen c s.max ≤ 40) ∧
      (∀ c ∈ s.counts, c = s.max → barLen c s.max = 40) :=
  histogram_max_and_bars [1, 2, 3] 1 3 (by decide) (by decide) (by decide) 13 (by decide)

/-- The values `printLatencies` computes, by the index that fills each target. -/
theorem latData_spec (lats : List ℚ) (fuel : Nat) (hf : lats.length ≤ fuel) :
    ∃ data, latData lats fuel = .ok data ∧ data.length = 7 ∧
      ∀ k, k < 7 → data.getD k 0 =
        match latIdx lats.length k with
        | some t => lats.getD t 0
        | none => 0 := by
  obtain ⟨data, h1, h2, h3⟩ := latLoop_spec lats fuel 0 0 (List.replicate pctls.length 0)
    (by simp [pctls]) (by omega)
  refine ⟨data, h1, h2, ?_⟩
  intro k hk
  rw [h3 k hk, latIdx_eq_chainIdx]
  simp only [Nat.not_lt_zero, if_false, Nat.sub_zero]
  have h0 : (List.replicate pctls.length (0 : ℚ)).getD k 0 = 0 := by
    simp only [List.getD_eq_getElem?_getD, List.getElem?_replicate]
    split <;> rfl
  rw [h0]

theorem firstIdxFrom_some (N p start t : Nat) (h : firstIdxFrom N p start = some t) :
    start ≤ t ∧ t < N := by
  unfold firstIdxFrom at h
  have hm := List.mem_of_find?_eq_some h
  rw [List.mem_range'_1] at hm
  omega

theorem latIdx_succ_some (N k t' : Nat) (h : latIdx N (k + 1) = some t') :
    ∃ t, latIdx N k = some t ∧ t < t' ∧ t' < N := by
  rw [latIdx] at h
  cases hk : latIdx N k with
  | none => rw [hk] at h; simp at h
  | some t =>
    rw [hk, Option.some_bind] at h
    have := firstIdxFrom_some _ _ _ _ h
    exact ⟨t, rfl, by omega, this.2⟩

theorem latIdx_lt_length (N k t : Nat) (h : latIdx N k = some t) : t < N := by
  cases k with
  | zero => exact (firstIdxFrom_some _ _ _ _ h).2
  | succ k =>
    obtain ⟨_, _, _, h3⟩ := latIdx_succ_some N k t h
    exact h3

theorem latIdx_prefix (N : Nat) : ∀ (d j : Nat), (latIdx N (j + d)).isSome = true →
    (latIdx N j).isSome = true := by
  intro d
  induction d with
  | zero => intro j h; exact h
  | succ d ih =>
    intro j h
    apply ih j
    cases hk : latIdx N (j + d + 1) with
    | none => rw [show j + (d + 1) = j + d + 1 from rfl, hk] at h; simp at h
    | some t' =>
      obtain ⟨t, ht, _⟩ := latIdx_succ_some N (j + d) t' hk
      rw [ht]; rfl

theorem latIdx_strictMono (N : Nat) : ∀ (d j tj tk : Nat), latIdx N j = some tj →
    latIdx N (j + d + 1) = some tk → tj < tk := by
  intro d
  induction d with
  | zero =>
    intro j tj tk hj hk
    obtain ⟨t, ht, hlt, _⟩ := latIdx_succ_some N j tk hk
    rw [hj] at ht
    injection ht with ht
    omega
  | succ d ih =>
    intro j tj tk hj hk
    obtain ⟨t, ht, hlt, _⟩ := latIdx_succ_some N (j + d + 1) tk hk
    have := ih j tj t hj ht
    omega

theorem sorted_getD_le (lats : List ℚ) (hs : lats.Sorted (· ≤ ·)) (a b : Nat) (hab : a ≤ b)
    (hb : b < lats.length) : lats.getD a 0 ≤ lats.getD b 0 := by
  have ha : a < lats.length := by omega
  simp only [List.getD_eq_getElem?_getD, List.getElem?_eq_getElem ha,
    List.getElem?_eq_getElem hb, Option.getD_some]
  exact hs.rel_get_of_le (a := ⟨a, ha⟩) (b := ⟨b, hb⟩) hab

/-- C18: for `N ≥ 100` samples `printLatencies` fills all seven targets, target `p` from
the 0-based index `⌈p * N / 100⌉`, which is in range. -/
theorem latencies_all_assigned (lats : List ℚ) (fuel : Nat) (hN : 100 ≤ lats.length)
    (hf : lats.length ≤ fuel) :
    ∃ data, latData lats fuel = .ok data ∧
      ∀ k, k < 7 →
        (pctls.getD k 0 * lats.length + 99) / 100 < lats.length ∧
        latIdx lats.length k = some ((pctls.getD k 0 * lats.length + 99) / 100) ∧
        data.getD k 0 = lats.getD ((pctls.getD k 0 * lats.length + 99) / 100) 0 := by
  obtain ⟨data, h1, _, h3⟩ := latData_spec lats fuel hf
  refine ⟨data, h1, ?_⟩
  generalize hn : lats.length = n at hN h3
  have e0 : pctls.getD 0 0 = 10 := rfl
  have e1 : pctls.getD 1 0 = 25 := rfl
  have e2 : pctls.getD 2 0 = 50 := rfl
  have e3 : pctls.getD 3 0 = 75 := rfl
  have e4 : pctls.getD 4 0 = 90 := rfl
  have e5 : pctls.getD 5 0 = 95 := rfl
  have e6 : pctls.getD 6 0 = 99 := rfl
  have i0 : latIdx n 0 = some ((10 * n + 99) / 100) := by
    rw [latIdx, e0, firstIdxFrom_eq_max n 10 0 (by omega)]
    congr 1; omega
  have i1 : latIdx n 1 = some ((25 * n + 99) / 100) := by
    rw [latIdx, i0, Option.some_bind, e1, firstIdxFrom_eq_max n 25 _ (by omega)]
    congr 1; omega
  have i2 : latIdx n 2 = some ((50 * n + 99) / 100) := by
    rw [latIdx, i1, Option.some_bind, e2, firstIdxFrom_eq_max n 50 _ (by omega)]
    congr 1; omega
  have i3 : latIdx n 3 = some ((75 * n + 99) / 100) := by
    rw [latIdx, i2, Option.some_bind, e3, firstIdxFrom_eq_max n 75 _ (by omega)]
    congr 1; omega
  have i4 : latIdx n 4 = some ((90 * n + 99) / 100) := by
    rw [latIdx, i3, Option.some_bind, e4, firstIdxFrom_eq_max n 90 _ (by omega)]
    congr 1; omega
  have i5 : latIdx n 5 = some ((95 * n + 99) / 100) := by
    rw [latIdx, i4, Option.some_bind, e5, firstIdxFrom_eq_max n 95 _ (by omega)]
    congr 1; omega
  have i6 : latIdx n 6 = some ((99 * n + 99) / 100) := by
    rw [latIdx, i5, Option.some_bind, e6, firstIdxFrom_eq_max n 99 _ (by omega)]
    congr 1; omega
  intro k hk
  have hd := h3 k hk
  interval_cases k
  · rw [i0] at hd; rw [e0]; exact ⟨by omega, i0, hd⟩
  · rw [i1] at hd; rw [e1]; exact ⟨by omega, i1, hd⟩
  · rw [i2] at hd; rw [e2]; exact ⟨by omega, i2, hd⟩
  · rw [i3] at hd; rw [e3]; exact ⟨by omega, i3, hd⟩
  · rw [i4] at hd; rw [e4]; exact ⟨by omega, i4, hd⟩
  · rw [i5] at hd; rw [e5]; exact ⟨by omega, i5, hd⟩
  · rw [i6] at hd; rw [e6]; exact ⟨by omega, i6, hd⟩

theorem latencies_all_assigned_witness :
    ∃ data, latData (List.replicate 100 1) 100 = .ok data ∧
      ∀ k, k < 7 →
        (pctls.getD k 0 * (List.replicate 100 (1 : ℚ)).length + 99) / 100
          < (List.replicate 100 (1 : ℚ)).length ∧
        latIdx (List.replicate 100 (1 : ℚ)).length k
          = some ((pctls.getD k 0 * (List.replicate 100 (1 : ℚ)).length + 99) / 100) ∧
        data.getD k 0 = (List.replicate 100 (1 : ℚ)).getD
          ((pctls.getD k 0 * (List.replicate 100 (1 : ℚ)).length + 99) / 100) 0 :=
  latencies_all_assigned (List.replicate 100 1) 100 (by simp) (by simp)

/-- C19: the targets `printLatencies` fills form a prefix of the target list, they are
filled from strictly increasing sample indices (all in range), and on an ascending
sequence the values of the filled targets are non-decreasing in target order. -/
theorem latencies_prefix_increasing (lats : List ℚ) (fuel : Nat)
    (hf : lats.length ≤ fuel) :
    ∃ data, latData lats fuel = .ok data ∧
      (∀ k, k < 7 → data.getD k 0 =
        match latIdx lats.length k with
        | some t => lats.getD t 0
        | none => 0) ∧
      (∀ j k, j ≤ k → (latIdx lats.length k).isSome = true →
        (latIdx lats.length j).isSome = true) ∧
      (∀ j k tj tk, j < k → latIdx lats.length j = some tj →
        latIdx lats.length k = some tk → tj < tk ∧ tk < lats.length) ∧
      (lats.Sorted (· ≤ ·) → ∀ j k, j ≤ k → k < 7 →
        (latIdx lats.length k).isSome = true → data.getD j 0 ≤ data.getD k 0) := by
  obtain ⟨data, h1, _, h3⟩ := latData_spec lats fuel hf
  have hpre : ∀ j k, j ≤ k → (latIdx lats.length k).isSome = true →
      (latIdx lats.length j).isSome = true := by
    intro j k hjk hk
    have : k = j + (k - j) := by omega
    rw [this] at hk
    exact latIdx_prefix lats.length (k - j) j hk
  have hmono : ∀ j k tj tk, j < k → latIdx lats.length j = some tj →
      latIdx lats.length k = some tk → tj < tk ∧ tk < lats.length := by
    intro j k tj tk hjk hj hk
    refine ⟨?_, latIdx_lt_length _ _ _ hk⟩
    have : k = j + (k - j - 1) + 1 := by omega
    rw [this] at hk
    exact latIdx_strictMono lats.length (k - j - 1) j tj tk hj hk
  refine ⟨data, h1, h3, hpre, hmono, ?_⟩
  intro hs j k hjk hk7 hk
  obtain ⟨tk, htk⟩ := Option.isSome_iff_exists.mp hk
  obtain ⟨tj, htj⟩ := Option.isSome_iff_exists.mp (hpre j k hjk hk)
  rw [h3 j (by omega), h3 k hk7, htk, htj]
  simp only
  have hle : tj ≤ tk := by
    rcases Nat.lt_or_ge j k with h | h
    · exact (hmono j k tj tk h htj htk).1.le
    · have : j = k := by omega
      subst this
      rw [htj] at htk
      injection htk with htk
      omega
  exact sorted_getD_le lats hs tj tk hle (latIdx_lt_length _ _ _ htk)

theorem latencies_prefix_increasing_witness :
    ∃ data, latData [1, 2, 3, 4] 4 = .ok data ∧ data.getD 0 0 ≤ data.getD 1 0 := by
  obtain ⟨data, h1, _, _, _, h5⟩ := latencies_prefix_increasing [1, 2, 3, 4] 4 (by decide)
  exact ⟨data, h1, h5 (by decide) 0 1 (by decide) (by decide) (by decide)⟩

theorem print_eq_printText (r : Report) (fuel : Nat) (h : r.output ≠ "csv") :
    r.print fuel = r.printText fuel := by
  unfold Report.print Report.printText
  simp [h]

theorem map_bind_setOutput (x : Except Err Report) (o : String)
    (g : Report → Except Err Report) :
    (Except.map (fun r => setOutput r o) x >>= g) = (x >>= fun r => g (setOutput r o)) := by
  cases x <;> rfl

theorem bind_map_setOutput (x : Except Err Report) (o : String)
    (g : Report → Except Err Report) :
    Except.map (fun r => setOutput r o) (x >>= g) =
      (x >>= fun r => Except.map (fun r => setOutput r o) (g r)) := by
  cases x <;> rfl

@[simp] theorem printf_setOutput (r : Report) (o s : String) (v : List Arg) :
    (setOutput r o).printf s v = setOutput (r.printf s v) o := rfl

theorem setExtremes_setOutput (r : Report) (o : String) :
    (setOutput r o).setExtremes = Except.map (fun r => setOutput r o) r.setExtremes := by
  unfold Report.setExtremes
  simp only [setOutput]
  cases (sortFloat64s r.lats)[0]? <;>
    cases (sortFloat64s r.lats)[(sortFloat64s r.lats).length - 1]? <;> rfl

theorem printHistogram_setOutput (r : Report) (o : String) (fuel : Nat) :
    (setOutput r o).printHistogram fuel =
      Except.map (fun r => setOutput r o) (r.printHistogram fuel) := by
  unfold Report.printHistogram
  simp only [setOutput]
  cases histState r.lats r.Fastest r.Slowest fuel <;> rfl

theorem printLatencies_setOutput (r : Report) (o : String) (fuel : Nat) :
    (setOutput r o).printLatencies fuel =
      Except.map (fun r => setOutput r o) (r.printLatencies fuel) := by
  unfold Report.printLatencies
  simp only [setOutput]
  cases latData r.lats fuel <;> rfl

theorem printSection_setOutput (r : Report) (o : String) (tag : String) (avg : F64)
    (l : List ℚ) :
    (setOutput r o).printSection tag avg l =
      Except.map (fun p => (setOutput p.1 o, p.2)) (r.printSection tag avg l) := by
  unfold Report.printSection
  simp only
  cases (sortFloat64s l)[0]? <;> cases (sortFloat64s l)[(sortFloat64s l).length - 1]? <;> rfl

theorem printSectionOf_setOutput (r : Report) (o : String) (tag : String) (avg : F64)
    (p : Phase) :
    (setOutput r o).printSectionOf tag avg p =
      Except.map (fun r => setOutput r o) (r.printSectionOf tag avg p) := by
  unfold Report.printSectionOf
  have hget : p.get (setOutput r o) = p.get r := by cases p <;> rfl
  rw [hget, printSection_setOutput]
  cases r.printSection tag avg (p.get r) with
  | error e => rfl
  | ok pr =>
    obtain ⟨r1, l⟩ := pr
    cases p <;> rfl

theorem printStatusCodes_setOutput (r : Report) (o : String) :
    (setOutput r o).printStatusCodes = setOutput r.printStatusCodes o := rfl

theorem printErrors_setOutput (r : Report) (o : String) :
    (setOutput r o).printErrors = setOutput r.printErrors o := rfl


/-- The summary block of `print` as the sequence of its parts. -/
theorem printSummary_eq (r : Report) (fuel : Nat) :
    r.printSummary fuel =
      (r.setExtremes >>= fun r => sizeLines (summaryHead r) >>= fun r =>
        r.printHistogram fuel >>= fun r => r.printLatencies fuel >>= detailLines) := by
  unfold Report.printSummary
  congr 1; funext r1
  show (if (summaryHead r1).sizeTotal > 0 then
      (if ((summaryHead r1).printf "  Total data:\t%d bytes\n"
          [.int (summaryHead r1).sizeTotal]).lats.length = 0 then _ else _) else _) = _
  unfold sizeLines
  by_cases hs : (summaryHead r1).sizeTotal > 0
  · by_cases hl : ((summaryHead r1).printf "  Total data:\t%d bytes\n"
        [.int (summaryHead r1).sizeTotal]).lats.length = 0
    · simp only [hs, hl, if_true]; rfl
    · simp only [hs, hl, if_true, if_false]; rfl
  · simp only [hs, if_false]; rfl

theorem summaryHead_setOutput (r : Report) (o : String) :
    summaryHead (setOutput r o) = setOutput (summaryHead r) o := rfl

theorem sizeLines_setOutput (r : Report) (o : String) :
    sizeLines (setOutput r o) = Except.map (fun r => setOutput r o) (sizeLines r) := by
  by_cases hs : r.sizeTotal > 0
  · have hs' : (setOutput r o).sizeTotal > 0 := hs
    by_cases hl : r.lats.length = 0
    · have hl' : ((setOutput r o).printf "  Total data:\t%d bytes\n"
          [.int (setOutput r o).sizeTotal]).lats.length = 0 := hl
      have hl2 : (r.printf "  Total data:\t%d bytes\n" [.int r.sizeTotal]).lats.length = 0 := hl
      simp only [sizeLines, hs, hs', hl', hl2, if_true]
      rfl
    · have hl' : ¬ ((setOutput r o).printf "  Total data:\t%d bytes\n"
          [.int (setOutput r o).sizeTotal]).lats.length = 0 := hl
      have hl2 : ¬ (r.printf "  Total data:\t%d bytes\n" [.int r.sizeTotal]).lats.length = 0 := hl
      simp only [sizeLines, hs, hs', hl', hl2, if_true, if_false]
      rfl
  · have hs' : ¬ (setOutput r o).sizeTotal > 0 := hs
    simp only [sizeLines, hs, hs', if_false]
    rfl

theorem detailLines_setOutput (r : Report) (o : String) :
    detailLines (setOutput r o) = Except.map (fun r => setOutput r o) (detailLines r) := by
  unfold detailLines
  simp only [printf_setOutput]
  have hA : ∀ r : Report, (setOutput r o).AvgConn = r.AvgConn := fun _ => rfl
  have hB : ∀ r : Report, (setOutput r o).AvgDNS = r.AvgDNS := fun _ => rfl
  have hC : ∀ r : Report, (setOutput r o).AvgReq = r.AvgReq := fun _ => rfl
  have hD : ∀ r : Report, (setOutput r o).AvgDelay = r.AvgDelay := fun _ => rfl
  have hE : ∀ r : Report, (setOutput r o).AvgRes = r.AvgRes := fun _ => rfl
  simp only [hA, hB, hC, hD, hE, printSectionOf_setOutput, map_bind_setOutput,
    bind_map_setOutput, printStatusCodes_setOutput]
  rfl

theorem printSummary_setOutput (r : Report) (o : String) (fuel : Nat) :
    (setOutput r o).printSummary fuel =
      Except.map (fun r => setOutput r o) (r.printSummary fuel) := by
  rw [printSummary_eq, printSummary_eq]
  simp only [setExtremes_setOutput, summaryHead_setOutput, sizeLines_setOutput,
    printHistogram_setOutput, printLatencies_setOutput, map_bind_setOutput,
    bind_map_setOutput]
  congr 1; funext r1
  congr 1; funext r2
  congr 1; funext r3
  congr 1; funext r4
  exact detailLines_setOutput r4 o

theorem printText_setOutput (r : Report) (o : String) (fuel : Nat) :
    (setOutput r o).printText fuel =
      Except.map (fun r => setOutput r o) (r.printText fuel) := by
  unfold Report.printText
  have h1 : (setOutput r o).lats.length = r.lats.length := rfl
  rw [h1]
  by_cases hl : r.lats.length > 0
  · simp only [hl, if_true, printSummary_setOutput, map_bind_setOutput, bind_map_setOutput]
    congr 1; funext r1
    have h2 : (setOutput r1 o).errorDist.length = r1.errorDist.length := rfl
    rw [h2]
    by_cases he : r1.errorDist.length > 0 <;> simp only [he, if_true, if_false] <;> rfl
  · simp only [hl, if_false]
    have h2 : (setOutput r o).errorDist.length = r.errorDist.length := rfl
    show (pure (setOutput r o) >>= _) = Except.map _ (pure r >>= _)
    simp only [pure_bind, h2]
    by_cases he : r.errorDist.length > 0 <;> simp only [he, if_true, if_false] <;> rfl

theorem map_w_setOutput (x : Except Err Report) (o : String) :
    Except.map Report.w (Except.map (fun r => setOutput r o) x) = Except.map Report.w x := by
  cases x <;> rfl

theorem printText_last (r r' : Report) (fuel : Nat) (h : r.printText fuel = .ok r') :
    ∃ pre, r'.w = pre ++ [closingLine] := by
  unfold Report.printText at h
  by_cases hl : r.lats.length > 0
  · simp only [hl, if_true] at h
    cases h1 : r.printSummary fuel with
    | error e => rw [h1] at h; cases h
    | ok r1 =>
      rw [h1] at h
      injection h with h
      rw [← h]
      exact ⟨_, rfl⟩
  · simp only [hl, if_false] at h
    injection h with h
    rw [← h]
    exact ⟨_, rfl⟩

theorem printCSVRows_w (l : List ℚ) :
    ∀ (r c : Report) (i : Nat), printCSVRows r i l = .ok c →
      ∃ rows, c.w = r.w ++ rows ∧
        ∀ x ∈ rows, x.fmt = "%4.4f,%4.4f,%4.4f,%4.4f,%4.4f,%4.4f\n" := by
  induction l with
  | nil =>
    intro r c i h
    rw [printCSVRows] at h
    injection h with h
    exact ⟨[], by rw [← h]; simp, by simp⟩
  | cons v t ih =>
    intro r c i h
    rw [printCSVRows] at h
    split at h
    · obtain ⟨rows, h1, h2⟩ := ih _ c (i + 1) h
      simp only [Report.printf, List.append_assoc, List.singleton_append] at h1
      refine ⟨_, h1, ?_⟩
      intro x hx
      rcases List.mem_cons.mp hx with e | e
      · rw [e]
      · exact h2 x e
    · cases h

theorem printCSV_last (r c : Report) (h : r.printCSV = .ok c) :
    ∃ pre x, c.w = pre ++ [x] ∧ x.fmt ≠ "\n" := by
  unfold Report.printCSV at h
  obtain ⟨rows, h1, h2⟩ := printCSVRows_w _ _ c 0 h
  rcases List.eq_nil_or_concat rows with e | ⟨pre, x, e⟩
  · refine ⟨r.w, csvHeader, ?_, by decide⟩
    rw [h1, e]; simp [Report.printf, csvHeader]
  · refine ⟨r.w ++ csvHeader :: pre, x, ?_, ?_⟩
    · rw [h1, e]; simp [Report.printf, csvHeader]
    · rw [h2 x (by rw [e]; simp)]; decide

theorem incr_keys {κ : Type} [DecidableEq κ] (k : κ) (m : List (κ × Nat)) :
    (incr k m).map Prod.fst = if k ∈ m.map Prod.fst then m.map Prod.fst
      else m.map Prod.fst ++ [k] := by
  induction m with
  | nil => simp [incr]
  | cons a t ih =>
    obtain ⟨k', n⟩ := a
    unfold incr
    by_cases h : k' = k
    · simp [h]
    · have h' : ¬ k = k' := fun e => h e.symm
      simp only [h, if_false, List.map_cons, ih, List.mem_cons, h', false_or]
      split <;> simp

theorem incr_nodup {κ : Type} [DecidableEq κ] (k : κ) (m : List (κ × Nat))
    (h : (m.map Prod.fst).Nodup) : ((incr k m).map Prod.fst).Nodup := by
  rw [incr_keys]
  split
  · exact h
  · rename_i hk
    exact List.Nodup.append h (List.nodup_singleton k) (by simpa using hk)

theorem mem_incr_keys {κ : Type} [DecidableEq κ] (k e : κ) (m : List (κ × Nat)) :
    e ∈ (incr k m).map Prod.fst ↔ e = k ∨ e ∈ m.map Prod.fst := by
  rw [incr_keys]
  split
  · rename_i hk
    constructor
    · exact Or.inr
    · rintro (h | h)
      · rw [h]; exact hk
      · exact h
  · simp only [List.mem_append, List.mem_singleton]
    tauto

theorem distCount_incr {κ : Type} [DecidableEq κ] (k e : κ) (m : List (κ × Nat)) :
    distCount (incr k m) e = distCount m e + (if e = k then 1 else 0) := by
  induction m with
  | nil =>
    by_cases h : e = k
    · simp [incr, distCount, h]
    · have h' : ¬ k = e := fun x => h x.symm
      simp [incr, distCount, h, h']
  | cons a t ih =>
    obtain ⟨k', n⟩ := a
    unfold incr
    by_cases h : k' = k
    · subst h
      by_cases he : k' = e
      · subst he; simp [distCount, List.filter_cons]; omega
      · have he' : ¬ e = k' := fun x => he x.symm
        simp [distCount, List.filter_cons, he, he']
    · simp only [h, if_false]
      simp only [distCount, List.filter_cons] at ih ⊢
      by_cases he : k' = e
      · simp only [he, decide_True, if_true, List.map_cons, List.sum_cons, ih]; omega
      · simp only [he, decide_False, if_false]
        exact ih

theorem distCount_of_mem {κ : Type} [DecidableEq κ] (m : List (κ × Nat))
    (h : (m.map Prod.fst).Nodup) (e : κ) (n : Nat) (hm : (e, n) ∈ m) : distCount m e = n := by
  induction m with
  | nil => cases hm
  | cons a t ih =>
    obtain ⟨k', n'⟩ := a
    rw [List.map_cons, List.nodup_cons] at h
    rcases List.mem_cons.mp hm with heq | hmem
    · injection heq with h1 h2
      subst h1 h2
      have : t.filter (fun p => decide (p.1 = e)) = [] := by
        rw [List.filter_eq_nil_iff]
        intro p hp hpe
        simp only [decide_eq_true_eq] at hpe
        exact h.1 (List.mem_map.mpr ⟨p, hp, hpe⟩)
      simp [distCount, List.filter_cons, this]
    · have hne : ¬ k' = e := by
        intro he
        subst he
        exact h.1 (List.mem_map.mpr ⟨(k', n), hmem, rfl⟩)
      have := ih h.2 hmem
      simp only [distCount, List.filter_cons, hne, decide_False] at this ⊢
      simpa using this

theorem accumulate_errorDist (r : Report) (res : result) :
    (accumulate r res).errorDist =
      match res.err with
      | some e => incr e r.errorDist
      | none => r.errorDist := by
  unfold accumulate
  cases res.err <;> rfl

/-- The error distribution a stream leaves in the report. -/
theorem foldl_accumulate_errors (rs : List result) :
    ∀ r : Report, (r.errorDist.map Prod.fst).Nodup →
      (((rs.foldl accumulate r).errorDist.map Prod.fst).Nodup ∧
      (∀ e, e ∈ (rs.foldl accumulate r).errorDist.map Prod.fst ↔
        (e ∈ r.errorDist.map Prod.fst ∨ ∃ res ∈ rs, res.err = some e)) ∧
      (∀ e, distCount (rs.foldl accumulate r).errorDist e =
        distCount r.errorDist e + errCount rs e)) := by
  induction rs with
  | nil =>
    intro r h
    exact ⟨h, by simp, by simp [errCount]⟩
  | cons a t ih =>
    intro r h
    rw [List.foldl_cons]
    have hacc := accumulate_errorDist r a
    cases ha : a.err with
    | none =>
      rw [ha] at hacc
      simp only at hacc
      obtain ⟨h1, h2, h3⟩ := ih (accumulate r a) (by rw [hacc]; exact h)
      rw [hacc] at h2 h3
      refine ⟨h1, ?_, ?_⟩
      · intro e
        rw [h2 e]
        constructor
        · rintro (h | ⟨res, hr, he⟩)
          · exact Or.inl h
          · exact Or.inr ⟨res, List.mem_cons_of_mem _ hr, he⟩
        · rintro (h | ⟨res, hr, he⟩)
          · exact Or.inl h
          · rcases List.mem_cons.mp hr with e1 | e1
            · rw [e1, ha] at he; cases he
            · exact Or.inr ⟨res, e1, he⟩
      · intro e
        rw [h3 e]
        simp [errCount, List.filter_cons, ha]
    | some m =>
      rw [ha] at hacc
      simp only at hacc
      obtain ⟨h1, h2, h3⟩ := ih (accumulate r a) (by rw [hacc]; exact incr_nodup m _ h)
      rw [hacc] at h2 h3
      refine ⟨h1, ?_, ?_⟩
      · intro e
        rw [h2 e, mem_incr_keys]
        constructor
        · rintro ((h | h) | ⟨res, hr, he⟩)
          · exact Or.inr ⟨a, List.mem_cons_self _ _, by rw [ha, h]⟩
          · exact Or.inl h
          · exact Or.inr ⟨res, List.mem_cons_of_mem _ hr, he⟩
        · rintro (h | ⟨res, hr, he⟩)
          · exact Or.inl (Or.inr h)
          · rcases List.mem_cons.mp hr with e1 | e1
            · rw [e1, ha] at he
              injection he with he
              exact Or.inl (Or.inl he.symm)
            · exact Or.inr ⟨res, e1, he⟩
      · intro e
        rw [h3 e, distCount_incr]
        by_cases hem : e = m
        · subst hem
          simp [errCount, List.filter_cons, ha]; omega
        · have : ¬ m = e := fun x => hem x.symm
          simp [errCount, List.filter_cons, ha, hem, this]

/-- C11: on a finalized report with zero successes and at least one failure, text-mode
`print` returns whatever the fuel (no loop is entered, no division evaluated) and writes
exactly the heading of the error distribution, one line per entry of the error map and
the closing newline; the map has one entry per distinct error message of the stream,
holding the number of failures with that message. -/
theorem print_all_failures (w : List Printf) (size : Int) (rs : List result)
    (output : String) (total : Int) (fuel : Nat) (hout : output ≠ "csv")
    (h0 : (successes rs).length = 0) (hf : 0 < (failures rs).length) :
    ∃ r', (newReport w size rs output total).finalize.print fuel = .ok r' ∧
      r'.w = w ++ errHeading ::
        ((newReport w size rs output total).finalize.errorDist.map errLine ++ [closingLine]) ∧
      ((newReport w size rs output total).finalize.errorDist.map Prod.fst).Nodup ∧
      (∀ e, e ∈ (newReport w size rs output total).finalize.errorDist.map Prod.fst ↔
        ∃ res ∈ rs, res.err = some e) ∧
      (∀ e n, (e, n) ∈ (newReport w size rs output total).finalize.errorDist →
        n = errCount rs e) := by
  obtain ⟨a1, _, _, _, _, _, _, a8, _, a10, a11⟩ := drain_newReport w size rs output total
  have hs : successes rs = [] := List.length_eq_zero.mp h0
  have hl : (newReport w size rs output total).finalize.lats = [] := by
    have : (newReport w size rs output total).finalize.lats = _ := a1
    rw [this, hs]; rfl
  have ho : (newReport w size rs output total).finalize.output = output := a10
  have hw : (newReport w size rs output total).finalize.w = w := a11
  have he : 0 < (newReport w size rs output total).finalize.errorDist.length := by
    have h8 : distTotal (newReport w size rs output total).finalize.errorDist
        = (failures rs).length := a8
    by_contra hcon
    have : (newReport w size rs output total).finalize.errorDist = [] :=
      List.length_eq_zero.mp (by omega)
    rw [this] at h8
    simp [distTotal] at h8
    omega
  obtain ⟨d1, d2, d3⟩ := foldl_accumulate_errors rs (newReport w size rs output total)
    (by simp [newReport])
  have hE : (newReport w size rs output total).finalize.errorDist
      = (rs.foldl accumulate (newReport w size rs output total)).errorDist := rfl
  refine ⟨((newReport w size rs output total).finalize.printErrors).printf "\n" [],
    ?_, ?_, ?_, ?_, ?_⟩
  · rw [print_eq_printText _ _ (by rw [ho]; exact hout)]
    unfold Report.printText
    simp only [hl, List.length_nil, gt_iff_lt, Nat.lt_irrefl, if_false, pure_bind, he, if_true]
    rfl
  · simp [Report.printf, Report.printErrors, hw, errHeading, errLine, closingLine]
  · rw [hE]; exact d1
  · intro e
    rw [hE, d2 e]
    simp [newReport]
  · intro e n hm
    rw [hE] at hm
    have := distCount_of_mem _ d1 e n hm
    rw [d3 e] at this
    simp [newReport, distCount] at this
    omega

theorem print_all_failures_witness :
    ∃ r', (newReport [] 0 [⟨some "timeout", 0, 0, 0, 0, 0, 0, 0, 0⟩,
        ⟨some "timeout", 0, 0, 0, 0, 0, 0, 0, 0⟩] "" 5).finalize.print 0 = .ok r' ∧
      r'.w = [errHeading, errLine ("timeout", 2), closingLine] := by
  obtain ⟨r', h1, h2, _⟩ := print_all_failures [] 0
    [⟨some "timeout", 0, 0, 0, 0, 0, 0, 0, 0⟩, ⟨some "timeout", 0, 0, 0, 0, 0, 0, 0, 0⟩]
    "" 5 0 (by decide) (by decide) (by decide)
  refine ⟨r', h1, ?_⟩
  rw [h2]
  rfl

theorem printSection_spec (r : Report) (tag : String) (avg : F64) (l : List ℚ)
    (h : 0 < l.length) :
    ∃ fastest slowest, (sortFloat64s l)[0]? = some fastest ∧
      (sortFloat64s l)[(sortFloat64s l).length - 1]? = some slowest ∧
      r.printSection tag avg l =
        .ok (addLines r (sectionLines tag avg fastest slowest), sortFloat64s l) := by
  have hl : 0 < (sortFloat64s l).length := by rw [sortFloat64s_length]; exact h
  have h0 := List.getElem?_eq_getElem hl
  have h1 : (sortFloat64s l).length - 1 < (sortFloat64s l).length := by omega
  have h1' := List.getElem?_eq_getElem h1
  refine ⟨_, _, h0, h1', ?_⟩
  unfold Report.printSection
  simp only [h0, h1']
  simp [Report.printf, addLines, sectionLines]

theorem Phase.get_set (p : Phase) (r : Report) (l : List ℚ) : p.get (p.set r l) = l := by
  cases p <;> rfl

theorem Phase.get_set_ne (p q : Phase) (h : q ≠ p) (r : Report) (l : List ℚ) :
    q.get (p.set r l) = q.get r := by
  cases p <;> cases q <;> first | rfl | exact absurd rfl h

theorem Phase.set_lats (p : Phase) (r : Report) (l : List ℚ) : (p.set r l).lats = r.lats := by
  cases p <;> rfl

theorem Phase.set_w (p : Phase) (r : Report) (l : List ℚ) : (p.set r l).w = r.w := by
  cases p <;> rfl

theorem Phase.get_addLines (p : Phase) (r : Report) (ls : List Printf) :
    p.get (addLines r ls) = p.get r := by
  cases p <;> rfl

/-- What one `printSection` call of `print` does to the report. -/
theorem printSectionOf_spec (r : Report) (tag : String) (avg : F64) (p : Phase)
    (hne : 0 < (p.get r).length) :
    ∃ r' fastest slowest, r.printSectionOf tag avg p = .ok r' ∧
      p.get r' = sortFloat64s (p.get r) ∧
      (∀ q, q ≠ p → q.get r' = q.get r) ∧ r'.lats = r.lats ∧
      r'.w = r.w ++ sectionLines tag avg fastest slowest ∧
      fastest ∈ p.get r ∧ (∀ v ∈ p.get r, fastest ≤ v) ∧
      slowest ∈ p.get r ∧ (∀ v ∈ p.get r, v ≤ slowest) := by
  obtain ⟨fastest, slowest, h0, h1, h2⟩ := printSection_spec r tag avg (p.get r) hne
  have hs := sortFloat64s_sorted (p.get r)
  refine ⟨p.set (addLines r (sectionLines tag avg fastest slowest)) (sortFloat64s (p.get r)),
    fastest, slowest, ?_, ?_, ?_, ?_, ?_, ?_, ?_, ?_, ?_⟩
  · unfold Report.printSectionOf
    rw [h2]
  · exact Phase.get_set _ _ _
  · intro q hq
    rw [Phase.get_set_ne p q hq, Phase.get_addLines]
  · rw [Phase.set_lats]; rfl
  · rw [Phase.set_w]; rfl
  · exact (sortFloat64s_mem _ _).mp (List.getElem?_mem h0)
  · intro v hv
    exact sorted_first_le _ hs _ h0 v ((sortFloat64s_mem _ _).mpr hv)
  · exact (sortFloat64s_mem _ _).mp (List.getElem?_mem h1)
  · intro v hv
    exact sorted_le_last _ hs _ h1 v ((sortFloat64s_mem _ _).mpr hv)

/-- C15: a `printSection` call of `print` on a non-empty phase sequence returns, turns
that sequence into the ascending permutation of itself, leaves the other four phase
sequences and the total-duration sequence as they were, and reports as fastest and
slowest the minimum and the maximum of that phase's own durations; after the five calls
of the details block every phase sequence is the sorted permutation of itself. -/
theorem printSection_frame (r : Report) (tag : String) (avg : F64) (p : Phase)
    (hne : 0 < (p.get r).length) :
    (∃ r' fastest slowest, r.printSectionOf tag avg p = .ok r' ∧
      (p.get r').Sorted (· ≤ ·) ∧ (p.get r').Perm (p.get r) ∧
      (∀ q, q ≠ p → q.get r' = q.get r) ∧ r'.lats = r.lats ∧
      r'.w = r.w ++ sectionLines tag avg fastest slowest ∧
      fastest ∈ p.get r ∧ (∀ v ∈ p.get r, fastest ≤ v) ∧
      slowest ∈ p.get r ∧ (∀ v ∈ p.get r, v ≤ slowest)) ∧
    ((∀ q : Phase, 0 < (q.get r).length) →
      ∃ r'', detailLines r = .ok r'' ∧ r''.lats = r.lats ∧
        ∀ q : Phase, q.get r'' = sortFloat64s (q.get r)) := by
  constructor
  · obtain ⟨r', f, s, h1, h2, h3, h4, h5, h6⟩ := printSectionOf_spec r tag avg p hne
    refine ⟨r', f, s, h1, ?_, ?_, h3, h4, h5, h6⟩
    · rw [h2]; exact sortFloat64s_sorted _
    · rw [h2]; exact List.perm_insertionSort _ _
  · intro hall
    have g0 : ∀ q : Phase, q.get (r.printf "\nDetails (Average, Fastest, Slowest):" [])
        = q.get r := fun q => by cases q <;> rfl
    obtain ⟨r1, _, _, a1, a2, a3, a4, _⟩ := printSectionOf_spec
      (r.printf "\nDetails (Average, Fastest, Slowest):" []) "DNS+dialup"
      (r.printf "\nDetails (Average, Fastest, Slowest):" []).AvgConn .conn
      (by rw [g0]; exact hall _)
    obtain ⟨r2, _, _, b1, b2, b3, b4, _⟩ := printSectionOf_spec r1 "DNS-lookup" r1.AvgDNS .dns
      (by rw [a3 .dns (by decide), g0]; exact hall _)
    obtain ⟨r3, _, _, c1, c2, c3, c4, _⟩ := printSectionOf_spec r2 "req write" r2.AvgReq .req
      (by rw [b3 .req (by decide), a3 .req (by decide), g0]; exact hall _)
    obtain ⟨r4, _, _, d1, d2, d3, d4, _⟩ := printSectionOf_spec r3 "resp wait" r3.AvgDelay
      .delay
      (by rw [c3 .delay (by decide), b3 .delay (by decide), a3 .delay (by decide), g0]
          exact hall _)
    obtain ⟨r5, _, _, e1, e2, e3, e4, _⟩ := printSectionOf_spec r4 "resp read" r4.AvgRes .res
      (by rw [d3 .res (by decide), c3 .res (by decide), b3 .res (by decide),
            a3 .res (by decide), g0]
          exact hall _)
    have gS : ∀ (x : Report) (q : Phase), q.get x.printStatusCodes = q.get x :=
      fun x q => by cases q <;> rfl
    refine ⟨r5.printStatusCodes, ?_, ?_, ?_⟩
    · unfold detailLines
      simp only [bind, Except.bind, a1, b1, c1, d1, e1]
      rfl
    · show r5.lats = r.lats
      rw [e4, d4, c4, b4, a4]; rfl
    · intro q
      rw [gS]
      cases q
      · rw [e3 .conn (by decide), d3 .conn (by decide), c3 .conn (by decide),
          b3 .conn (by decide), a2, g0]
      · rw [e3 .dns (by decide), d3 .dns (by decide), c3 .dns (by decide), b2,
          a3 .dns (by decide), g0]
      · rw [e3 .req (by decide), d3 .req (by decide), c2, b3 .req (by decide),
          a3 .req (by decide), g0]
      · rw [e3 .delay (by decide), d2, c3 .delay (by decide), b3 .delay (by decide),
          a3 .delay (by decide), g0]
      · rw [e2, d3 .res (by decide), c3 .res (by decide), b3 .res (by decide),
          a3 .res (by decide), g0]

theorem printSection_frame_witness :
    ∃ r' fastest slowest,
      phaseReport.printSectionOf "DNS+dialup" phaseReport.AvgConn .conn = .ok r' ∧
      (Phase.conn.get r').Sorted (· ≤ ·) ∧ (Phase.conn.get r').Perm (Phase.conn.get phaseReport) ∧
      (∀ q, q ≠ Phase.conn → q.get r' = q.get phaseReport) ∧ r'.lats = phaseReport.lats ∧
      r'.w = phaseReport.w ++ sectionLines "DNS+dialup" phaseReport.AvgConn fastest slowest ∧
      fastest ∈ Phase.conn.get phaseReport ∧ (∀ v ∈ Phase.conn.get phaseReport, fastest ≤ v) ∧
      slowest ∈ Phase.conn.get phaseReport ∧ (∀ v ∈ Phase.conn.get phaseReport, v ≤ slowest) :=
  (printSection_frame phaseReport "DNS+dialup" phaseReport.AvgConn .conn (by decide)).1

theorem roundHalfEven_ge_floor (t : ℚ) : ⌊t⌋ ≤ roundHalfEven t := by
  unfold roundHalfEven
  simp only
  split
  · exact le_refl _
  · split
    · omega
    · split <;> omega

theorem roundHalfEven_le_floor_succ (t : ℚ) : roundHalfEven t ≤ ⌊t⌋ + 1 := by
  unfold roundHalfEven
  simp only
  split
  · omega
  · split
    · omega
    · split <;> omega

theorem roundHalfEven_mono (t u : ℚ) (h : t ≤ u) : roundHalfEven t ≤ roundHalfEven u := by
  have hf : ⌊t⌋ ≤ ⌊u⌋ := Int.floor_mono h
  rcases lt_or_eq_of_le hf with hlt | heq
  · calc roundHalfEven t ≤ ⌊t⌋ + 1 := roundHalfEven_le_floor_succ t
      _ ≤ ⌊u⌋ := hlt
      _ ≤ roundHalfEven u := roundHalfEven_ge_floor u
  · have hfr : t - ⌊t⌋ ≤ u - ⌊u⌋ := by rw [heq]; linarith
    unfold roundHalfEven
    simp only
    rw [← heq] at hfr ⊢
    by_cases h1 : t - ⌊t⌋ < 1 / 2
    · rw [if_pos h1]
      split
      · exact le_refl _
      · split
        · omega
        · split <;> omega
    · rw [if_neg h1]
      by_cases h2 : 1 / 2 < t - ⌊t⌋
      · rw [if_pos h2]
        have h3 : ¬ u - ⌊t⌋ < 1 / 2 := by linarith
        have h4 : 1 / 2 < u - ⌊t⌋ := by linarith
        rw [if_neg h3, if_pos h4]
      · rw [if_neg h2]
        have h3 : ¬ u - ⌊t⌋ < 1 / 2 := by linarith
        rw [if_neg h3]
        by_cases h4 : 1 / 2 < u - ⌊t⌋
        · rw [if_pos h4]; split <;> omega
        · rw [if_neg h4]

theorem roundHalfEven_ge_of_le (n : ℤ) (t : ℚ) (h : (n : ℚ) ≤ t) : n ≤ roundHalfEven t :=
  le_trans (Int.le_floor.mpr h) (roundHalfEven_ge_floor t)

theorem roundHalfEven_le_of_le (n : ℤ) (t : ℚ) (h : t ≤ (n : ℚ)) : roundHalfEven t ≤ n := by
  have := roundHalfEven_mono t n h
  have hn : roundHalfEven (n : ℚ) = n := by
    unfold roundHalfEven
    simp
  rw [hn] at this
  exact this

theorem roundHalfEven_eq (m : ℤ) (t : ℚ) (h1 : (m : ℚ) - 1 / 2 < t) (h2 : t < (m : ℚ) + 1 / 2) :
    roundHalfEven t = m := by
  have hf1 : m - 1 ≤ ⌊t⌋ := Int.le_floor.mpr (by push_cast; linarith)
  have hf2 : ⌊t⌋ ≤ m := by
    have : ⌊t⌋ < m + 1 := Int.floor_lt.mpr (by push_cast; linarith)
    omega
  have hfl := Int.floor_le t
  have hlt := Int.lt_floor_add_one t
  unfold roundHalfEven
  simp only
  rcases eq_or_lt_of_le hf2 with e | e
  · have : t - (⌊t⌋ : ℚ) < 1 / 2 := by rw [e]; linarith
    rw [if_pos this, e]
  · have e' : ⌊t⌋ = m - 1 := by omega
    have hc : ((⌊t⌋ : ℤ) : ℚ) = (m : ℚ) - 1 := by rw [e']; push_cast; ring
    have h3 : ¬ t - (⌊t⌋ : ℚ) < 1 / 2 := by rw [hc]; linarith
    have h4 : 1 / 2 < t - (⌊t⌋ : ℚ) := by rw [hc]; linarith
    rw [if_neg h3, if_pos h4, e']; ring

theorem two_zpow_pos (e : ℤ) : (0 : ℚ) < (2 : ℚ) ^ e := zpow_pos (by norm_num) e

theorem ulpExp_spec (x : ℚ) (hx : 0 < x) :
    (2 : ℚ) ^ (52 : ℤ) ≤ x / (2 : ℚ) ^ ulpExp x ∧ x / (2 : ℚ) ^ ulpExp x < (2 : ℚ) ^ (53 : ℤ) := by
  have h1 : ((2 : ℕ) : ℚ) ^ Int.log 2 x ≤ x := Int.zpow_log_le_self (by norm_num) hx
  have h2 : x < ((2 : ℕ) : ℚ) ^ (Int.log 2 x + 1) := Int.lt_zpow_succ_log_self (by norm_num) x
  simp only [Nat.cast_ofNat] at h1 h2
  have hp := two_zpow_pos (ulpExp x)
  have habs : |x| = x := abs_of_pos hx
  have e1 : (2 : ℚ) ^ (52 : ℤ) * (2 : ℚ) ^ ulpExp x = (2 : ℚ) ^ Int.log 2 x := by
    rw [← zpow_add₀ (by norm_num : (2 : ℚ) ≠ 0)]
    congr 1
    unfold ulpExp; rw [habs]; ring
  have e2 : (2 : ℚ) ^ (53 : ℤ) * (2 : ℚ) ^ ulpExp x = (2 : ℚ) ^ (Int.log 2 x + 1) := by
    rw [← zpow_add₀ (by norm_num : (2 : ℚ) ≠ 0)]
    congr 1
    unfold ulpExp; rw [habs]; ring
  constructor
  · rw [le_div_iff₀ hp, e1]; exact h1
  · rw [div_lt_iff₀ hp, e2]; exact h2

theorem ulpExp_mono (x y : ℚ) (hx : 0 < x) (h : x ≤ y) : ulpExp x ≤ ulpExp y := by
  unfold ulpExp
  rw [abs_of_pos hx, abs_of_pos (lt_of_lt_of_le hx h)]
  have := Int.log_mono_right (b := 2) hx h
  omega

theorem round64_zero : round64 0 = 0 := by simp [round64]

theorem round64_pos_eq (x : ℚ) (hx : 0 < x) :
    round64 x = ((roundHalfEven (x / (2 : ℚ) ^ ulpExp x) : ℤ) : ℚ) * (2 : ℚ) ^ ulpExp x := by
  unfold round64
  rw [if_neg (ne_of_gt hx), if_neg (not_lt.mpr hx.le), abs_of_pos hx]
  ring

theorem round64_neg (x : ℚ) : round64 (-x) = - round64 x := by
  by_cases h0 : x = 0
  · subst h0; simp [round64_zero]
  · have hu : ulpExp (-x) = ulpExp x := by unfold ulpExp; rw [abs_neg]
    unfold round64
    rw [if_neg h0, if_neg (neg_ne_zero.mpr h0), hu, abs_neg]
    rcases lt_or_gt_of_ne h0 with h | h
    · have h' : ¬ (-x < 0) := by linarith
      rw [if_pos h, if_neg h']; ring
    · have h' : -x < 0 := by linarith
      have h'' : ¬ x < 0 := by linarith
      rw [if_pos h', if_neg h'']; ring

theorem round64_pos_bounds (x : ℚ) (hx : 0 < x) :
    (2 : ℚ) ^ (52 : ℤ) * (2 : ℚ) ^ ulpExp x ≤ round64 x ∧
    round64 x ≤ (2 : ℚ) ^ (53 : ℤ) * (2 : ℚ) ^ ulpExp x := by
  obtain ⟨h1, h2⟩ := ulpExp_spec x hx
  have hp := two_zpow_pos (ulpExp x)
  rw [round64_pos_eq x hx]
  have e52 : (2 : ℚ) ^ (52 : ℤ) = (((2 : ℤ) ^ (52 : ℕ) : ℤ) : ℚ) := by norm_num
  have e53 : (2 : ℚ) ^ (53 : ℤ) = (((2 : ℤ) ^ (53 : ℕ) : ℤ) : ℚ) := by norm_num
  have c1 : (((2 : ℤ) ^ (52 : ℕ) : ℤ) : ℚ) ≤ x / (2 : ℚ) ^ ulpExp x := by rw [← e52]; exact h1
  have c2 : x / (2 : ℚ) ^ ulpExp x ≤ (((2 : ℤ) ^ (53 : ℕ) : ℤ) : ℚ) := by rw [← e53]; exact h2.le
  have g1 := roundHalfEven_ge_of_le _ _ c1
  have g2 := roundHalfEven_le_of_le _ _ c2
  constructor
  · apply mul_le_mul_of_nonneg_right _ hp.le
    rw [e52]
    exact_mod_cast g1
  · apply mul_le_mul_of_nonneg_right _ hp.le
    rw [e53]
    exact_mod_cast g2

theorem round64_pos (x : ℚ) (hx : 0 < x) : 0 < round64 x :=
  lt_of_lt_of_le (mul_pos (two_zpow_pos 52) (two_zpow_pos _)) (round64_pos_bounds x hx).1

theorem round64_mono_pos (x y : ℚ) (hx : 0 < x) (h : x ≤ y) : round64 x ≤ round64 y := by
  have hy : 0 < y := lt_of_lt_of_le hx h
  have he := ulpExp_mono x y hx h
  rcases lt_or_eq_of_le he with hlt | heq
  · have b1 := (round64_pos_bounds x hx).2
    have b2 := (round64_pos_bounds y hy).1
    have : (2 : ℚ) ^ (53 : ℤ) * (2 : ℚ) ^ ulpExp x ≤ (2 : ℚ) ^ (52 : ℤ) * (2 : ℚ) ^ ulpExp y := by
      rw [← zpow_add₀ (by norm_num : (2 : ℚ) ≠ 0), ← zpow_add₀ (by norm_num : (2 : ℚ) ≠ 0)]
      apply zpow_le_zpow_right₀ (by norm_num)
      omega
    linarith
  · rw [round64_pos_eq x hx, round64_pos_eq y hy, heq]
    apply mul_le_mul_of_nonneg_right _ (two_zpow_pos _).le
    have : x / (2 : ℚ) ^ ulpExp y ≤ y / (2 : ℚ) ^ ulpExp y :=
      div_le_div_of_nonneg_right h (two_zpow_pos _).le
    exact_mod_cast roundHalfEven_mono _ _ this

/-- Rounding to binary64 is monotone. -/
theorem round64_monotone : Monotone round64 := by
  intro x y h
  rcases lt_trichotomy x 0 with hx | hx | hx
  · rcases lt_trichotomy y 0 with hy | hy | hy
    · have := round64_mono_pos (-y) (-x) (by linarith) (by linarith)
      rw [round64_neg, round64_neg] at this
      linarith
    · rw [hy, round64_zero]
      have := round64_pos (-x) (by linarith)
      rw [round64_neg] at this
      linarith
    · have h1 := round64_pos (-x) (by linarith)
      rw [round64_neg] at h1
      have h2 := round64_pos y hy
      linarith
  · rw [hx, round64_zero]
    rcases eq_or_lt_of_le (hx ▸ h) with e | e
    · rw [← e, round64_zero]
    · exact (round64_pos y e).le
  · exact round64_mono_pos x y hx h

/-- A certificate for one rounding: `x` lies in the binade of exponent `e + 52` and
`m` is the integer nearest to `x / 2^e`. -/
theorem round64_eq_of (x : ℚ) (e m : ℤ) (hx : 0 < x)
    (h1 : (2 : ℚ) ^ (52 : ℤ) * (2 : ℚ) ^ e ≤ x) (h2 : x < (2 : ℚ) ^ (53 : ℤ) * (2 : ℚ) ^ e)
    (h3 : ((m : ℚ) - 1 / 2) * (2 : ℚ) ^ e < x) (h4 : x < ((m : ℚ) + 1 / 2) * (2 : ℚ) ^ e) :
    round64 x = (m : ℚ) * (2 : ℚ) ^ e := by
  have hu : ulpExp x = e := by
    unfold ulpExp
    rw [abs_of_pos hx]
    have a1 : e + 52 ≤ Int.log 2 x := by
      rw [← Int.zpow_le_iff_le_log (by norm_num) hx]
      simp only [Nat.cast_ofNat]
      rw [add_comm, zpow_add₀ (by norm_num : (2 : ℚ) ≠ 0)]
      exact h1
    have a2 : Int.log 2 x < e + 53 := by
      rw [← Int.lt_zpow_iff_log_lt (by norm_num) hx]
      simp only [Nat.cast_ofNat]
      rw [add_comm, zpow_add₀ (by norm_num : (2 : ℚ) ≠ 0)]
      exact h2
    omega
  rw [round64_pos_eq x hx, hu]
  have hp := two_zpow_pos e
  rw [roundHalfEven_eq m (x / (2 : ℚ) ^ e) (by rw [lt_div_iff₀ hp]; exact h3)
    (by rw [div_lt_iff₀ hp]; exact h4)]

theorem histEdges_id (F S : ℚ) : histEdges id F S = histBuckets F S := rfl

theorem histStateWith_id (lats : List ℚ) (F S : ℚ) (fuel : Nat) :
    histStateWith id lats F S fuel = histState lats F S fuel := rfl

theorem histEdges_length (rnd : ℚ → ℚ) (F S : ℚ) : (histEdges rnd F S).length = 11 := by
  simp only [histEdges, List.length_append, List.length_map, List.length_range,
    List.length_singleton]

theorem histEdges_getD_lt (rnd : ℚ → ℚ) (F S : ℚ) (k : Nat) (hk : k < 10) :
    (histEdges rnd F S).getD k 0 = rnd (F + rnd (rnd (rnd (S - F) / 10) * (k : ℚ))) := by
  have h1 : k < ((List.range 10).map (fun i : Nat =>
      rnd (F + rnd (rnd (rnd (S - F) / ((10 : Nat) : ℚ)) * (i : ℚ))))).length := by
    simpa using hk
  simp only [histEdges, List.getD_eq_getElem?_getD]
  rw [List.getElem?_append_left h1, List.getElem?_map, List.getElem?_range hk]
  simp

theorem histEdges_getD_last (rnd : ℚ → ℚ) (F S : ℚ) : (histEdges rnd F S).getD 10 0 = S := by
  have h1 : ((List.range 10).map (fun i : Nat =>
      rnd (F + rnd (rnd (rnd (S - F) / ((10 : Nat) : ℚ)) * (i : ℚ))))).length ≤ 10 := by
    simp
  simp only [histEdges, List.getD_eq_getElem?_getD]
  rw [List.getElem?_append_right h1]
  simp

/-- The ten computed edges are non-decreasing, for every monotone rounding that
keeps `0`. -/
theorem histEdges_mono (rnd : ℚ → ℚ) (hmono : Monotone rnd) (h0 : rnd 0 = 0) (F S : ℚ)
    (h : F ≤ S) (a b : Nat) (hab : a ≤ b) (hb : b + 1 < (histEdges rnd F S).length) :
    (histEdges rnd F S).getD a 0 ≤ (histEdges rnd F S).getD b 0 := by
  rw [histEdges_length] at hb
  rw [histEdges_getD_lt rnd F S a (by omega), histEdges_getD_lt rnd F S b (by omega)]
  have h1 : 0 ≤ rnd (S - F) := by
    have := hmono (show (0 : ℚ) ≤ S - F by linarith)
    rwa [h0] at this
  have hbs : 0 ≤ rnd (rnd (S - F) / 10) := by
    have := hmono (show (0 : ℚ) ≤ rnd (S - F) / 10 by positivity)
    rwa [h0] at this
  have hc : (a : ℚ) ≤ (b : ℚ) := by exact_mod_cast hab
  apply hmono
  have := hmono (mul_le_mul_of_nonneg_left hc hbs)
  linarith

/-- What the bucketing loop computes on a sorted sequence whose extremes are
`Fastest` and `Slowest`, the edges being computed with a monotone rounding. -/
theorem histStateWith_spec (rnd : ℚ → ℚ) (hmono : Monotone rnd) (h0 : rnd 0 = 0)
    (lats : List ℚ) (F S : ℚ) (hs : lats.Sorted (· ≤ ·))
    (hF : lats[0]? = some F) (hS : lats[lats.length - 1]? = some S)
    (fuel : Nat) (hf : lats.length + 10 ≤ fuel) :
    ∃ s, histStateWith rnd lats F S fuel = .ok s ∧ s.counts.length = 11 ∧
      s.counts.sum = lats.length ∧
      ∀ k, k < 11 → s.counts.getD k 0 = lats.countP (inBucket (histEdges rnd F S) k) := by
  have hlast := sorted_le_last lats hs S hS
  have hFS : F ≤ S := by
    have hm : F ∈ lats := List.getElem?_mem hF
    exact hlast F hm
  have hlen := histEdges_length rnd F S
  obtain ⟨s, h1, h2, h3, h4⟩ := histLoop_spec lats (histEdges rnd F S) hs
    (histEdges_mono rnd hmono h0 F S hFS)
    (by rw [hlen]; simpa [histEdges_getD_last] using hlast)
    fuel histInit (by rw [hlen]; simp [histInit]) (by rw [hlen]; simp [histInit])
    (by intro k hk; simp [histInit] at hk) (by rw [hlen]; simp [histInit]; omega)
  refine ⟨s, h1, by rw [h2, hlen], ?_, ?_⟩
  · rw [h3]; simp [histInit]
  · intro k hk
    rw [h4 k (by rw [hlen]; exact hk)]
    have h0' : histInit.counts.getD k 0 = 0 := by
      unfold histInit
      simp only [List.getD_eq_getElem?_getD, List.getElem?_replicate]
      split <;> rfl
    rw [h0']; simp [histInit]

/-- On a list whose edges before the last are non-decreasing, a value not above the last
edge is in bucket `k` exactly when edge `k` is the first edge at or above it. -/
theorem inBucket_iff_findIdx (B : List ℚ)
    (hmono : ∀ a b, a ≤ b → b + 1 < B.length → B.getD a 0 ≤ B.getD b 0)
    (k : Nat) (hk : k < B.length) (v : ℚ) :
    inBucket B k v = true ↔ B.findIdx (fun b => decide (v ≤ b)) = k := by
  have hg : ∀ j (hj : j < B.length), B.getD j 0 = B[j] := by
    intro j hj
    simp [List.getD_eq_getElem?_getD, List.getElem?_eq_getElem hj]
  rw [List.findIdx_eq hk]
  unfold inBucket
  simp only [Bool.and_eq_true, decide_eq_true_eq, Bool.or_eq_true, beq_iff_eq,
    decide_eq_false_iff_not, not_le]
  rw [hg k hk]
  constructor
  · rintro ⟨h1, h2⟩
    refine ⟨h1, ?_⟩
    intro j hj
    rcases h2 with h2 | h2
    · omega
    · have := hmono j (k - 1) (by omega) (by omega)
      rw [hg j (by omega)] at this
      exact lt_of_le_of_lt this h2
  · rintro ⟨h1, h2⟩
    refine ⟨h1, ?_⟩
    by_cases hk0 : k = 0
    · exact Or.inl hk0
    · right
      have := h2 (k - 1) (by omega)
      rw [hg (k - 1) (by omega)]
      exact this

/-- C2: let the edges be computed as the program computes them, every `float64`
operation returning the rounding `rnd` of its exact result, for any monotone rounding
that keeps `0` (binary64 rounding `round64` is one, the exact model `id` another).  On
an ascending sequence whose first/last elements are `Fastest`/`Slowest` the bucketing
loop of `printHistogram` ends, and it has counted each value in the bucket of the first
edge at or above it: `counts[0]` is the number of samples `v ≤ edge[0]` and, for
`1 ≤ k ≤ 10`, `counts[k]` is the number of samples with `edge[k-1] < v ≤ edge[k]`. -/
theorem histogram_counts_by_edge (rnd : ℚ → ℚ) (hmono : Monotone rnd) (h0 : rnd 0 = 0)
    (lats : List ℚ) (F S : ℚ) (hs : lats.Sorted (· ≤ ·))
    (hF : lats[0]? = some F) (hS : lats[lats.length - 1]? = some S)
    (fuel : Nat) (hf : lats.length + 10 ≤ fuel) :
    ∃ s, histStateWith rnd lats F S fuel = .ok s ∧ s.counts.length = 11 ∧
      (∀ k, k ≤ 10 → s.counts.getD k 0 =
        lats.countP (fun v =>
          decide ((histEdges rnd F S).findIdx (fun b => decide (v ≤ b)) = k))) ∧
      s.counts.getD 0 0 = lats.countP (fun v => decide (v ≤ (histEdges rnd F S).getD 0 0)) ∧
      ∀ k, 1 ≤ k → k ≤ 10 → s.counts.getD k 0 =
        lats.countP (fun v => decide ((histEdges rnd F S).getD (k - 1) 0 < v ∧
          v ≤ (histEdges rnd F S).getD k 0)) := by
  obtain ⟨s, h1, h2, _, h4⟩ := histStateWith_spec rnd hmono h0 lats F S hs hF hS fuel hf
  have hFS : F ≤ S := sorted_le_last lats hs S hS F (List.getElem?_mem hF)
  refine ⟨s, h1, h2, ?_, ?_, ?_⟩
  · intro k hk
    rw [h4 k (by omega)]
    congr 1
    funext v
    have := inBucket_iff_findIdx (histEdges rnd F S) (histEdges_mono rnd hmono h0 F S hFS)
      k (by rw [histEdges_length]; omega) v
    by_cases hb : inBucket (histEdges rnd F S) k v = true
    · rw [hb]; exact (decide_eq_true (this.mp hb)).symm
    · have hb' : inBucket (histEdges rnd F S) k v = false := by simpa using hb
      rw [hb']
      exact (decide_eq_false (fun e => hb (this.mpr e))).symm
  · rw [h4 0 (by omega)]
    congr 1
    funext v
    simp [inBucket]
  · intro k hk1 hk2
    rw [h4 k (by omega)]
    congr 1
    funext v
    have : (k == 0) = false := by simp; omega
    simp only [inBucket, this, Bool.false_or]
    rw [Bool.decide_and, Bool.and_comm]

theorem roundHalfEven_tie (m : ℤ) :
    roundHalfEven ((m : ℚ) + 1 / 2) = if m % 2 = 0 then m else m + 1 := by
  have hf : ⌊(m : ℚ) + 1 / 2⌋ = m := by
    rw [Int.floor_eq_iff]
    constructor <;> linarith
  unfold roundHalfEven
  simp only [hf]
  have h1 : ¬ ((m : ℚ) + 1 / 2 - (m : ℚ) < 1 / 2) := by
    intro h; linarith
  have h2 : ¬ ((1 : ℚ) / 2 < (m : ℚ) + 1 / 2 - (m : ℚ)) := by
    intro h; linarith
  rw [if_neg h1, if_neg h2]

/-- A certificate for a rounding that is a tie: `x` is half-way between `m * 2^e` and
`(m + 1) * 2^e`, and goes to the one with the even significand. -/
theorem round64_eq_of_tie (x : ℚ) (e m : ℤ) (hx : 0 < x)
    (h1 : (2 : ℚ) ^ (52 : ℤ) * (2 : ℚ) ^ e ≤ x) (h2 : x < (2 : ℚ) ^ (53 : ℤ) * (2 : ℚ) ^ e)
    (h3 : x = ((m : ℚ) + 1 / 2) * (2 : ℚ) ^ e) :
    round64 x = ((if m % 2 = 0 then m else m + 1 : ℤ) : ℚ) * (2 : ℚ) ^ e := by
  have hu : ulpExp x = e := by
    unfold ulpExp
    rw [abs_of_pos hx]
    have a1 : e + 52 ≤ Int.log 2 x := by
      rw [← Int.zpow_le_iff_le_log (by norm_num) hx]
      simp only [Nat.cast_ofNat]
      rw [add_comm, zpow_add₀ (by norm_num : (2 : ℚ) ≠ 0)]
      exact h1
    have a2 : Int.log 2 x < e + 53 := by
      rw [← Int.lt_zpow_iff_log_lt (by norm_num) hx]
      simp only [Nat.cast_ofNat]
      rw [add_comm, zpow_add₀ (by norm_num : (2 : ℚ) ≠ 0)]
      exact h2
    omega
  rw [round64_pos_eq x hx, hu]
  have hp := two_zpow_pos e
  have : x / (2 : ℚ) ^ e = (m : ℚ) + 1 / 2 := by
    rw [h3, mul_div_assoc, div_self (ne_of_gt hp), mul_one]
  rw [this, roundHalfEven_tie]

theorem round64_seconds_10ms : round64 (seconds 10000000) = fl 5764607523034235 (-59) :=
  round64_eq_of _ (-59) 5764607523034235 (by norm_num [seconds]) (by norm_num [seconds])
    (by norm_num [seconds]) (by norm_num [seconds]) (by norm_num [seconds])

theorem round64_seconds_20ms : round64 (seconds 20000000) = fl 5764607523034235 (-58) :=
  round64_eq_of _ (-58) 5764607523034235 (by norm_num [seconds]) (by norm_num [seconds])
    (by norm_num [seconds]) (by norm_num [seconds]) (by norm_num [seconds])

theorem round64_seconds_60ms : round64 (seconds 60000000) = fl 8646911284551352 (-57) :=
  round64_eq_of _ (-57) 8646911284551352 (by norm_num [seconds]) (by norm_num [seconds])
    (by norm_num [seconds]) (by norm_num [seconds]) (by norm_num [seconds])

theorem exWidth_sub : round64 (fl 8646911284551352 (-57) - fl 5764607523034235 (-59)) = fl 7205759403792793 (-57) :=
  round64_eq_of _ (-57) 7205759403792793 (by norm_num [fl]) (by norm_num [fl])
    (by norm_num [fl]) (by norm_num [fl]) (by norm_num [fl])

theorem exWidth_div : round64 (fl 7205759403792793 (-57) / 10) = fl 5764607523034234 (-60) :=
  round64_eq_of _ (-60) 5764607523034234 (by norm_num [fl]) (by norm_num [fl])
    (by norm_num [fl]) (by norm_num [fl]) (by norm_num [fl])

theorem exEdge_0 : round64 (fl 5764607523034235 (-59)) = fl 5764607523034235 (-59) :=
  round64_eq_of _ (-59) 5764607523034235 (by norm_num [fl]) (by norm_num [fl])
    (by norm_num [fl]) (by norm_num [fl]) (by norm_num [fl])

theorem exProd_1 : round64 (fl 5764607523034234 (-60)) = fl 5764607523034234 (-60) :=
  round64_eq_of _ (-60) 5764607523034234 (by norm_num [fl]) (by norm_num [fl])
    (by norm_num [fl]) (by norm_num [fl]) (by norm_num [fl])

theorem exEdge_1 : round64 (fl 5764607523034235 (-59) + fl 5764607523034234 (-60)) = fl 8646911284551352 (-59) :=
  round64_eq_of _ (-59) 8646911284551352 (by norm_num [fl]) (by norm_num [fl])
    (by norm_num [fl]) (by norm_num [fl]) (by norm_num [fl])

theorem exProd_2 : round64 (fl 5764607523034234 (-60) * 2) = fl 5764607523034234 (-59) :=
  round64_eq_of _ (-59) 5764607523034234 (by norm_num [fl]) (by norm_num [fl])
    (by norm_num [fl]) (by norm_num [fl]) (by norm_num [fl])

theorem exEdge_2 : round64 (fl 5764607523034235 (-59) + fl 5764607523034234 (-59)) = fl 5764607523034234 (-58) := by
  have h := round64_eq_of_tie (fl 5764607523034235 (-59) + fl 5764607523034234 (-59)) (-58) 5764607523034234 (by norm_num [fl])
    (by norm_num [fl]) (by norm_num [fl]) (by norm_num [fl])
  rw [h]
  norm_num [fl]

theorem exProd_3 : round64 (fl 5764607523034234 (-60) * 3) = fl 8646911284551351 (-59) :=
  round64_eq_of _ (-59) 8646911284551351 (by norm_num [fl]) (by norm_num [fl])
    (by norm_num [fl]) (by norm_num [fl]) (by norm_num [fl])

theorem exEdge_3 : round64 (fl 5764607523034235 (-59) + fl 8646911284551351 (-59)) = fl 7205759403792793 (-58) :=
  round64_eq_of _ (-58) 7205759403792793 (by norm_num [fl]) (by norm_num [fl])
    (by norm_num [fl]) (by norm_num [fl]) (by norm_num [fl])

theorem exProd_4 : round64 (fl 5764607523034234 (-60) * 4) = fl 5764607523034234 (-58) :=
  round64_eq_of _ (-58) 5764607523034234 (by norm_num [fl]) (by norm_num [fl])
    (by norm_num [fl]) (by norm_num [fl]) (by norm_num [fl])

theorem exEdge_4 : round64 (fl 5764607523034235 (-59) + fl 5764607523034234 (-58)) = fl 8646911284551352 (-58) := by
  have h := round64_eq_of_tie (fl 5764607523034235 (-59) + fl 5764607523034234 (-58)) (-58) 8646911284551351 (by norm_num [fl])
    (by norm_num [fl]) (by norm_num [fl]) (by norm_num [fl])
  rw [h]
  norm_num [fl]

theorem exProd_5 : round64 (fl 5764607523034234 (-60) * 5) = fl 7205759403792792 (-58) := by
  have h := round64_eq_of_tie (fl 5764607523034234 (-60) * 5) (-58) 7205759403792792 (by norm_num [fl])
    (by norm_num [fl]) (by norm_num [fl]) (by norm_num [fl])
  rw [h]
  norm_num [fl]

theorem exEdge_5 : round64 (fl 5764607523034235 (-59) + fl 7205759403792792 (-58)) = fl 5044031582654955 (-57) :=
  round64_eq_of _ (-57) 5044031582654955 (by norm_num [fl]) (by norm_num [fl])
    (by norm_num [fl]) (by norm_num [fl]) (by norm_num [fl])

theorem exProd_6 : round64 (fl 5764607523034234 (-60) * 6) = fl 8646911284551351 (-58) :=
  round64_eq_of _ (-58) 8646911284551351 (by norm_num [fl]) (by norm_num [fl])
    (by norm_num [fl]) (by norm_num [fl]) (by norm_num [fl])

theorem exEdge_6 : round64 (fl 5764607523034235 (-59) + fl 8646911284551351 (-58)) = fl 5764607523034234 (-57) :=
  round64_eq_of _ (-57) 5764607523034234 (by norm_num [fl]) (by norm_num [fl])
    (by norm_num [fl]) (by norm_num [fl]) (by norm_num [fl])

theorem exProd_7 : round64 (fl 5764607523034234 (-60) * 7) = fl 5044031582654955 (-57) :=
  round64_eq_of _ (-57) 5044031582654955 (by norm_num [fl]) (by norm_num [fl])
    (by norm_num [fl]) (by norm_num [fl]) (by norm_num [fl])

theorem exEdge_7 : round64 (fl 5764607523034235 (-59) + fl 5044031582654955 (-57)) = fl 6485183463413514 (-57) :=
  round64_eq_of _ (-57) 6485183463413514 (by norm_num [fl]) (by norm_num [fl])
    (by norm_num [fl]) (by norm_num [fl]) (by norm_num [fl])

theorem exProd_8 : round64 (fl 5764607523034234 (-60) * 8) = fl 5764607523034234 (-57) :=
  round64_eq_of _ (-57) 5764607523034234 (by norm_num [fl]) (by norm_num [fl])
    (by norm_num [fl]) (by norm_num [fl]) (by norm_num [fl])

theorem exEdge_8 : round64 (fl 5764607523034235 (-59) + fl 5764607523034234 (-57)) = fl 7205759403792793 (-57) :=
  round64_eq_of _ (-57) 7205759403792793 (by norm_num [fl]) (by norm_num [fl])
    (by norm_num [fl]) (by norm_num [fl]) (by norm_num [fl])

theorem exProd_9 : round64 (fl 5764607523034234 (-60) * 9) = fl 6485183463413513 (-57) :=
  round64_eq_of _ (-57) 6485183463413513 (by norm_num [fl]) (by norm_num [fl])
    (by norm_num [fl]) (by norm_num [fl]) (by norm_num [fl])

theorem exEdge_9 : round64 (fl 5764607523034235 (-59) + fl 6485183463413513 (-57)) = fl 7926335344172072 (-57) :=
  round64_eq_of _ (-57) 7926335344172072 (by norm_num [fl]) (by norm_num [fl])
    (by norm_num [fl]) (by norm_num [fl]) (by norm_num [fl])

/-- The edges of the example, each `float64` operation rounded to binary64. -/
theorem histEdges_example : histEdges round64 exFastest exSlowest = exEdges := by
  have hr : List.range 10 = [0, 1, 2, 3, 4, 5, 6, 7, 8, 9] := by decide
  unfold histEdges exFastest exEdges
  simp only [hr, List.map_cons, List.map_nil, Nat.cast_ofNat, Nat.cast_zero, Nat.cast_one,
    mul_zero, mul_one, add_zero, round64_zero, exSlowest, exWidth_sub, exWidth_div, exProd_1, exProd_2, exProd_3, exProd_4, exProd_5, exProd_6, exProd_7, exProd_8, exProd_9, exEdge_0, exEdge_1, exEdge_2, exEdge_3, exEdge_4, exEdge_5, exEdge_6, exEdge_7, exEdge_8, exEdge_9]
  rfl

theorem exCmp_F0 : exFastest ≤ fl 5764607523034235 (-59) := by
  norm_num [exFastest, exMiddle, exSlowest, fl]

theorem exCmp_M0 : ¬ exMiddle ≤ fl 5764607523034235 (-59) := by
  norm_num [exFastest, exMiddle, exSlowest, fl]

theorem exCmp_M1 : ¬ exMiddle ≤ fl 8646911284551352 (-59) := by
  norm_num [exFastest, exMiddle, exSlowest, fl]

theorem exCmp_M2 : ¬ exMiddle ≤ fl 5764607523034234 (-58) := by
  norm_num [exFastest, exMiddle, exSlowest, fl]

theorem exCmp_M3 : exMiddle ≤ fl 7205759403792793 (-58) := by
  norm_num [exFastest, exMiddle, exSlowest, fl]

theorem exCmp_S3 : ¬ exSlowest ≤ fl 7205759403792793 (-58) := by
  norm_num [exFastest, exMiddle, exSlowest, fl]

theorem exCmp_S4 : ¬ exSlowest ≤ fl 8646911284551352 (-58) := by
  norm_num [exFastest, exMiddle, exSlowest, fl]

theorem exCmp_S5 : ¬ exSlowest ≤ fl 5044031582654955 (-57) := by
  norm_num [exFastest, exMiddle, exSlowest, fl]

theorem exCmp_S6 : ¬ exSlowest ≤ fl 5764607523034234 (-57) := by
  norm_num [exFastest, exMiddle, exSlowest, fl]

theorem exCmp_S7 : ¬ exSlowest ≤ fl 6485183463413514 (-57) := by
  norm_num [exFastest, exMiddle, exSlowest, fl]

theorem exCmp_S8 : ¬ exSlowest ≤ fl 7205759403792793 (-57) := by
  norm_num [exFastest, exMiddle, exSlowest, fl]

theorem exCmp_S9 : ¬ exSlowest ≤ fl 7926335344172072 (-57) := by
  norm_num [exFastest, exMiddle, exSlowest, fl]

theorem histLoop_count (lats B : List ℚ) (fuel : Nat) (s : HistState) (v b : ℚ) (c : Nat)
    (hv : lats[s.i]? = some v) (hb : B[s.bi]? = some b) (hle : v ≤ b)
    (hc : s.counts[s.bi]? = some c) :
    histLoop lats B (fuel + 1) s = histLoop lats B fuel
      { i := s.i + 1, bi := s.bi, counts := s.counts.set s.bi (c + 1),
        max := if s.max < c + 1 then c + 1 else s.max } := by
  have hi : s.i < lats.length := by
    by_contra h
    rw [List.getElem?_eq_none (by omega)] at hv
    cases hv
  rw [histLoop]
  simp only [hi, if_true, hv, hb, hle, hc]

theorem histLoop_advance (lats B : List ℚ) (fuel : Nat) (s : HistState) (v b : ℚ)
    (hv : lats[s.i]? = some v) (hb : B[s.bi]? = some b) (hgt : ¬ v ≤ b)
    (hbi : s.bi < B.length - 1) :
    histLoop lats B (fuel + 1) s = histLoop lats B fuel { s with bi := s.bi + 1 } := by
  have hi : s.i < lats.length := by
    by_contra h
    rw [List.getElem?_eq_none (by omega)] at hv
    cases hv
  rw [histLoop]
  simp only [hi, if_true, hv, hb, hgt, if_false, hbi]

theorem histLoop_done (lats B : List ℚ) (fuel : Nat) (s : HistState)
    (hi : ¬ s.i < lats.length) : histLoop lats B fuel s = .ok s := by
  cases fuel <;> (rw [histLoop]; simp [hi])

/-- On successes of 10, 20 and 60 ms the edge 2 the program computes is
`0.019999999999999997`, just below the 20 ms sample, which is therefore counted in
bucket 3. -/
theorem histStateWith_example :
    histStateWith round64 exLats exFastest exSlowest 13 =
      .ok { i := 3, bi := 10, counts := [1, 0, 0, 1, 0, 0, 0, 0, 0, 0, 1], max := 1 } := by
  unfold histStateWith
  rw [histEdges_example]
  show histLoop exLats exEdges 13 ⟨0, 0, [0, 0, 0, 0, 0, 0, 0, 0, 0, 0, 0], 0⟩ = _
  calc histLoop exLats exEdges 13 ⟨0, 0, [0, 0, 0, 0, 0, 0, 0, 0, 0, 0, 0], 0⟩
      = histLoop exLats exEdges 12 ⟨1, 0, [1, 0, 0, 0, 0, 0, 0, 0, 0, 0, 0], 1⟩ :=
        histLoop_count exLats exEdges 12 ⟨0, 0, [0, 0, 0, 0, 0, 0, 0, 0, 0, 0, 0], 0⟩ exFastest (fl 5764607523034235 (-59)) 0 rfl rfl (exCmp_F0) rfl
    _ = histLoop exLats exEdges 11 ⟨1, 1, [1, 0, 0, 0, 0, 0, 0, 0, 0, 0, 0], 1⟩ :=
        histLoop_advance exLats exEdges 11 ⟨1, 0, [1, 0, 0, 0, 0, 0, 0, 0, 0, 0, 0], 1⟩ exMiddle (fl 5764607523034235 (-59)) rfl rfl exCmp_M0 (by decide)
    _ = histLoop exLats exEdges 10 ⟨1, 2, [1, 0, 0, 0, 0, 0, 0, 0, 0, 0, 0], 1⟩ :=
        histLoop_advance exLats exEdges 10 ⟨1, 1, [1, 0, 0, 0, 0, 0, 0, 0, 0, 0, 0], 1⟩ exMiddle (fl 8646911284551352 (-59)) rfl rfl exCmp_M1 (by decide)
    _ = histLoop exLats exEdges 9 ⟨1, 3, [1, 0, 0, 0, 0, 0, 0, 0, 0, 0, 0], 1⟩ :=
        histLoop_advance exLats exEdges 9 ⟨1, 2, [1, 0, 0, 0, 0, 0, 0, 0, 0, 0, 0], 1⟩ exMiddle (fl 5764607523034234 (-58)) rfl rfl exCmp_M2 (by decide)
    _ = histLoop exLats exEdges 8 ⟨2, 3, [1, 0, 0, 1, 0, 0, 0, 0, 0, 0, 0], 1⟩ :=
        histLoop_count exLats exEdges 8 ⟨1, 3, [1, 0, 0, 0, 0, 0, 0, 0, 0, 0, 0], 1⟩ exMiddle (fl 7205759403792793 (-58)) 0 rfl rfl (exCmp_M3) rfl
    _ = histLoop exLats exEdges 7 ⟨2, 4, [1, 0, 0, 1, 0, 0, 0, 0, 0, 0, 0], 1⟩ :=
        histLoop_advance exLats exEdges 7 ⟨2, 3, [1, 0, 0, 1, 0, 0, 0, 0, 0, 0, 0], 1⟩ exSlowest (fl 7205759403792793 (-58)) rfl rfl exCmp_S3 (by decide)
    _ = histLoop exLats exEdges 6 ⟨2, 5, [1, 0, 0, 1, 0, 0, 0, 0, 0, 0, 0], 1⟩ :=
        histLoop_advance exLats exEdges 6 ⟨2, 4, [1, 0, 0, 1, 0, 0, 0, 0, 0, 0, 0], 1⟩ exSlowest (fl 8646911284551352 (-58)) rfl rfl exCmp_S4 (by decide)
    _ = histLoop exLats exEdges 5 ⟨2, 6, [1, 0, 0, 1, 0, 0, 0, 0, 0, 0, 0], 1⟩ :=
        histLoop_advance exLats exEdges 5 ⟨2, 5, [1, 0, 0, 1, 0, 0, 0, 0, 0, 0, 0], 1⟩ exSlowest (fl 5044031582654955 (-57)) rfl rfl exCmp_S5 (by decide)
    _ = histLoop exLats exEdges 4 ⟨2, 7, [1, 0, 0, 1, 0, 0, 0, 0, 0, 0, 0], 1⟩ :=
        histLoop_advance exLats exEdges 4 ⟨2, 6, [1, 0, 0, 1, 0, 0, 0, 0, 0, 0, 0], 1⟩ exSlowest (fl 5764607523034234 (-57)) rfl rfl exCmp_S6 (by decide)
    _ = histLoop exLats exEdges 3 ⟨2, 8, [1, 0, 0, 1, 0, 0, 0, 0, 0, 0, 0], 1⟩ :=
        histLoop_advance exLats exEdges 3 ⟨2, 7, [1, 0, 0, 1, 0, 0, 0, 0, 0, 0, 0], 1⟩ exSlowest (fl 6485183463413514 (-57)) rfl rfl exCmp_S7 (by decide)
    _ = histLoop exLats exEdges 2 ⟨2, 9, [1, 0, 0, 1, 0, 0, 0, 0, 0, 0, 0], 1⟩ :=
        histLoop_advance exLats exEdges 2 ⟨2, 8, [1, 0, 0, 1, 0, 0, 0, 0, 0, 0, 0], 1⟩ exSlowest (fl 7205759403792793 (-57)) rfl rfl exCmp_S8 (by decide)
    _ = histLoop exLats exEdges 1 ⟨2, 10, [1, 0, 0, 1, 0, 0, 0, 0, 0, 0, 0], 1⟩ :=
        histLoop_advance exLats exEdges 1 ⟨2, 9, [1, 0, 0, 1, 0, 0, 0, 0, 0, 0, 0], 1⟩ exSlowest (fl 7926335344172072 (-57)) rfl rfl exCmp_S9 (by decide)
    _ = histLoop exLats exEdges 0 ⟨3, 10, [1, 0, 0, 1, 0, 0, 0, 0, 0, 0, 1], 1⟩ :=
        histLoop_count exLats exEdges 0 ⟨2, 10, [1, 0, 0, 1, 0, 0, 0, 0, 0, 0, 0], 1⟩ exSlowest (exSlowest) 0 rfl rfl (le_refl _) rfl
    _ = .ok ⟨3, 10, [1, 0, 0, 1, 0, 0, 0, 0, 0, 0, 1], 1⟩ := histLoop_done exLats exEdges 0 ⟨3, 10, [1, 0, 0, 1, 0, 0, 0, 0, 0, 0, 1], 1⟩ (by decide)

theorem exLats_sorted : exLats.Sorted (· ≤ ·) := by
  norm_num [exLats, exFastest, exMiddle, exSlowest, fl]

theorem histogram_counts_by_edge_witness :
    ∃ s, histStateWith round64 exLats exFastest exSlowest 13
        = .ok s ∧ s.counts.length = 11 ∧
      (∀ k, k ≤ 10 → s.counts.getD k 0 =
        exLats.countP (fun v =>
          decide ((histEdges round64 exFastest exSlowest).findIdx
            (fun b => decide (v ≤ b)) = k))) ∧
      s.counts.getD 0 0 = exLats.countP
        (fun v => decide (v ≤ (histEdges round64 exFastest exSlowest).getD 0 0)) ∧
      ∀ k, 1 ≤ k → k ≤ 10 → s.counts.getD k 0 =
        exLats.countP (fun v =>
          decide ((histEdges round64 exFastest exSlowest).getD (k - 1) 0 < v ∧
            v ≤ (histEdges round64 exFastest exSlowest).getD k 0)) :=
  histogram_counts_by_edge round64 round64_monotone round64_zero exLats exFastest exSlowest
    exLats_sorted rfl rfl 13 (by decide)

theorem accumulate_setOutput (r : Report) (res : result) (o : String) :
    accumulate (setOutput r o) res = setOutput (accumulate r res) o := by
  unfold accumulate
  cases res.err <;> rfl

theorem foldl_accumulate_setOutput (xs : List result) (r : Report) (o : String) :
    xs.foldl accumulate (setOutput r o) = setOutput (xs.foldl accumulate r) o := by
  induction xs generalizing r with
  | nil => rfl
  | cons a t ih => rw [List.foldl_cons, List.foldl_cons, accumulate_setOutput, ih]

theorem drain_setOutput (r : Report) (o : String) :
    drain (setOutput r o) = setOutput (drain r) o := by
  show ({ List.foldl accumulate (setOutput r o) r.Results with Results := [] } : Report) = _
  rw [foldl_accumulate_setOutput]
  rfl

/-- The output-mode selector plays no part in `finalize`. -/
theorem finalize_setOutput (w : List Printf) (size : Int) (rs : List result) (o : String)
    (total : Int) :
    (newReport w size rs o total).finalize
      = setOutput (newReport w size rs "" total).finalize o := by
  have h : newReport w size rs o total = setOutput (newReport w size rs "" total) o := rfl
  rw [finalize_eq_divisions, finalize_eq_divisions, h, drain_setOutput]
  rfl

theorem setExtremes_eq (r : Report) (h : 0 < r.lats.length) :
    ∃ F S, r.setExtremes = .ok { r with lats := sortFloat64s r.lats, Fastest := F,
                                         Slowest := S } ∧
      (sortFloat64s r.lats)[0]? = some F ∧
      (sortFloat64s r.lats)[(sortFloat64s r.lats).length - 1]? = some S := by
  have hl : 0 < (sortFloat64s r.lats).length := by rw [sortFloat64s_length]; exact h
  have h0 := List.getElem?_eq_getElem hl
  have h1 : (sortFloat64s r.lats).length - 1 < (sortFloat64s r.lats).length := by omega
  have h1' := List.getElem?_eq_getElem h1
  refine ⟨_, _, ?_, h0, h1'⟩
  unfold Report.setExtremes
  simp only [h0, h1']

theorem sizeLines_ok (r : Report) (h : r.lats.length ≠ 0) :
    ∃ ls, sizeLines r = .ok (addLines r ls) := by
  unfold sizeLines
  by_cases hs : r.sizeTotal > 0
  · have hl : ¬ (r.printf "  Total data:\t%d bytes\n" [.int r.sizeTotal]).lats.length = 0 := h
    simp only [hs, if_true, hl, if_false]
    exact ⟨[⟨"  Total data:\t%d bytes\n", [.int r.sizeTotal]⟩,
      ⟨"  Size/request:\t%d bytes\n", [.int (Int.tdiv r.sizeTotal (r.lats.length : Int))]⟩],
      by simp [Report.printf, addLines, pure, Except.pure]⟩
  · simp only [hs, if_false]
    exact ⟨[], by simp [addLines, pure, Except.pure]⟩

theorem printLatencies_ok (r : Report) (fuel : Nat) (hf : r.lats.length ≤ fuel) :
    ∃ ls, r.printLatencies fuel = .ok (addLines r ls) := by
  obtain ⟨data, h1, _⟩ := latData_spec r.lats fuel hf
  refine ⟨⟨"\nLatency distribution:\n", []⟩ :: latLines data, ?_⟩
  unfold Report.printLatencies
  rw [h1]
  simp [Report.printf, addLines]

/-- The details block returns when every phase sequence is non-empty. -/
theorem detailLines_ok (r : Report) (hall : ∀ q : Phase, 0 < (q.get r).length) :
    ∃ r'', detailLines r = .ok r'' := by
  have g0 : ∀ q : Phase, q.get (r.printf "\nDetails (Average, Fastest, Slowest):" [])
      = q.get r := fun q => by cases q <;> rfl
  obtain ⟨r1, _, _, a1, a2, a3, a4, _⟩ := printSectionOf_spec
    (r.printf "\nDetails (Average, Fastest, Slowest):" []) "DNS+dialup"
    (r.printf "\nDetails (Average, Fastest, Slowest):" []).AvgConn .conn
    (by rw [g0]; exact hall _)
  obtain ⟨r2, _, _, b1, b2, b3, b4, _⟩ := printSectionOf_spec r1 "DNS-lookup" r1.AvgDNS .dns
    (by rw [a3 .dns (by decide), g0]; exact hall _)
  obtain ⟨r3, _, _, c1, c2, c3, c4, _⟩ := printSectionOf_spec r2 "req write" r2.AvgReq .req
    (by rw [b3 .req (by decide), a3 .req (by decide), g0]; exact hall _)
  obtain ⟨r4, _, _, d1, d2, d3, d4, _⟩ := printSectionOf_spec r3 "resp wait" r3.AvgDelay
    .delay
    (by rw [c3 .delay (by decide), b3 .delay (by decide), a3 .delay (by decide), g0]
        exact hall _)
  obtain ⟨r5, _, _, e1, e2, e3, e4, _⟩ := printSectionOf_spec r4 "resp read" r4.AvgRes .res
    (by rw [d3 .res (by decide), c3 .res (by decide), b3 .res (by decide),
          a3 .res (by decide), g0]
        exact hall _)
  refine ⟨r5.printStatusCodes, ?_⟩
  unfold detailLines
  simp only [bind, Except.bind, a1, b1, c1, d1, e1]
  rfl

theorem printf_eq_addLines (r : Report) (s : String) (v : List Arg) :
    r.printf s v = addLines r [⟨s, v⟩] := rfl

theorem summaryHead_eq (r : Report) : ∃ ls, summaryHead r = addLines r ls := by
  unfold summaryHead
  simp only [printf_eq_addLines, addLines_addLines]
  exact ⟨_, rfl⟩

theorem printSummary_tail_ok (r1 : Report) (fuel : Nat) (hs : r1.lats.Sorted (· ≤ ·))
    (hF : r1.lats[0]? = some r1.Fastest) (hS : r1.lats[r1.lats.length - 1]? = some r1.Slowest)
    (hq : ∀ q : Phase, 0 < (q.get r1).length) (hne : r1.lats.length ≠ 0)
    (hf : r1.lats.length + 10 ≤ fuel) :
    ∃ r', (sizeLines (summaryHead r1) >>= fun r =>
      r.printHistogram fuel >>= fun r => r.printLatencies fuel >>= detailLines) = .ok r' := by
  obtain ⟨l0, h0⟩ := summaryHead_eq r1
  obtain ⟨ls, h2⟩ := sizeLines_ok (addLines r1 l0) hne
  rw [addLines_addLines] at h2
  obtain ⟨lh, h3⟩ : ∃ lh, (addLines r1 (l0 ++ ls)).printHistogram fuel
      = .ok (addLines (addLines r1 (l0 ++ ls)) lh) := by
    obtain ⟨s, hs', _⟩ := histState_spec r1.lats r1.Fastest r1.Slowest hs hF hS fuel hf
    exact ⟨_, printHistogram_ok _ fuel s hs'⟩
  rw [addLines_addLines] at h3
  obtain ⟨ll, h4⟩ := printLatencies_ok (addLines r1 (l0 ++ ls ++ lh)) fuel
    (by show r1.lats.length ≤ fuel; omega)
  rw [addLines_addLines] at h4
  obtain ⟨r5, h5⟩ := detailLines_ok (addLines r1 (l0 ++ ls ++ lh ++ ll))
    (fun q => by rw [Phase.get_addLines]; exact hq q)
  refine ⟨r5, ?_⟩
  rw [h0, h2]
  show (Report.printHistogram _ fuel >>= _) = _
  rw [h3]
  show (Report.printLatencies _ fuel >>= _) = _
  rw [h4]
  exact h5

/-- The summary block of `print` returns on a report whose phase sequences and latency
sequence are non-empty, given fuel for the two loops. -/
theorem printSummary_ok (r : Report) (fuel : Nat) (hne : 0 < r.lats.length)
    (hq : ∀ q : Phase, 0 < (q.get r).length) (hf : r.lats.length + 10 ≤ fuel) :
    ∃ r', r.printSummary fuel = .ok r' := by
  obtain ⟨F, S, h1, hF, hS⟩ := setExtremes_eq r hne
  have hlen : (sortFloat64s r.lats).length = r.lats.length := sortFloat64s_length _
  obtain ⟨r5, h5⟩ := printSummary_tail_ok
    { r with lats := sortFloat64s r.lats, Fastest := F, Slowest := S } fuel
    (sortFloat64s_sorted _) hF hS
    (fun q => by
      have : q.get ({ r with lats := sortFloat64s r.lats, Fastest := F, Slowest := S } : Report)
          = q.get r := by cases q <;> rfl
      rw [this]; exact hq q)
    (by show (sortFloat64s r.lats).length ≠ 0; omega)
    (by show (sortFloat64s r.lats).length + 10 ≤ fuel; omega)
  refine ⟨r5, ?_⟩
  rw [printSummary_eq, h1]
  exact h5

/-- The text branch of `print` returns on a report whose phase sequences are as long as
its latency sequence, given fuel for the two loops. -/
theorem printText_ok (r : Report) (fuel : Nat)
    (hq : ∀ q : Phase, (q.get r).length = r.lats.length) (hf : r.lats.length + 10 ≤ fuel) :
    ∃ r', r.printText fuel = .ok r' := by
  unfold Report.printText
  by_cases hl : r.lats.length > 0
  · obtain ⟨r1, h1⟩ := printSummary_ok r fuel hl (fun q => by rw [hq q]; exact hl) hf
    simp only [hl, if_true, h1]
    exact ⟨_, rfl⟩
  · simp only [hl, if_false]
    exact ⟨_, rfl⟩

/-- C16: on a finalized report, `print` with an output-mode string other than `"csv"`
returns (given fuel for its two loops), and so does `print` with the default (empty)
string; the two write exactly the same calls.  CSV mode returns too, and what it writes
is different: the text output ends with the closing newline, the CSV table with its
header or a data row. -/
theorem print_unknown_output (w : List Printf) (size : Int) (rs : List result) (out : String)
    (total : Int) (fuel : Nat) (hout : out ≠ "csv")
    (hf : (successes rs).length + 10 ≤ fuel) :
    ∃ r' d c, (newReport w size rs out total).finalize.print fuel = .ok r' ∧
      (newReport w size rs "" total).finalize.print fuel = .ok d ∧
      r'.w = d.w ∧
      (∃ pre, r'.w = pre ++ [closingLine]) ∧
      (newReport w size rs "csv" total).finalize.print fuel = .ok c ∧
      c.w = w ++ csvHeader :: (successes rs).map csvRow ∧
      r'.w ≠ c.w := by
  obtain ⟨a1, a2, a3, a4, a5, a6, _, _, _, a10, a11⟩ := drain_newReport w size rs "" total
  have b1 : (newReport w size rs "" total).finalize.lats = _ := a1
  have hq : ∀ q : Phase, (q.get (newReport w size rs "" total).finalize).length
      = (newReport w size rs "" total).finalize.lats.length := by
    intro q
    rw [b1]
    cases q
    · show (newReport w size rs "" total).finalize.ConnLats.length = _
      have : (newReport w size rs "" total).finalize.ConnLats = _ := a2
      rw [this, List.length_map, List.length_map]
    · show (newReport w size rs "" total).finalize.DNSLats.length = _
      have : (newReport w size rs "" total).finalize.DNSLats = _ := a3
      rw [this, List.length_map, List.length_map]
    · show (newReport w size rs "" total).finalize.ReqLats.length = _
      have : (newReport w size rs "" total).finalize.ReqLats = _ := a4
      rw [this, List.length_map, List.length_map]
    · show (newReport w size rs "" total).finalize.DelayLats.length = _
      have : (newReport w size rs "" total).finalize.DelayLats = _ := a5
      rw [this, List.length_map, List.length_map]
    · show (newReport w size rs "" total).finalize.ResLats.length = _
      have : (newReport w size rs "" total).finalize.ResLats = _ := a6
      rw [this, List.length_map, List.length_map]
  obtain ⟨d, hd⟩ := printText_ok (newReport w size rs "" total).finalize fuel hq
    (by rw [b1, List.length_map]; exact hf)
  have ho : (newReport w size rs "" total).finalize.output = "" := a10
  have e2 : (newReport w size rs "" total).finalize.print fuel = .ok d := by
    rw [print_eq_printText _ _ (by rw [ho]; decide), hd]
  have e1 : (newReport w size rs out total).finalize.print fuel = .ok (setOutput d out) := by
    rw [finalize_setOutput, print_eq_printText _ _ (show (setOutput _ out).output ≠ "csv" from hout),
      printText_setOutput, hd]
    rfl
  have hoc : (newReport w size rs "csv" total).finalize.output = "csv" :=
    (drain_newReport w size rs "csv" total).2.2.2.2.2.2.2.2.2.1
  have hwc : (newReport w size rs "csv" total).finalize.w = w :=
    (drain_newReport w size rs "csv" total).2.2.2.2.2.2.2.2.2.2
  have e3 : (newReport w size rs "csv" total).finalize.print fuel
      = .ok (addLines (newReport w size rs "csv" total).finalize
          (csvHeader :: (successes rs).map csvRow)) := by
    rw [print_csv_eq _ _ hoc, printCSV_finalize]
  obtain ⟨pre, hp⟩ := printText_last _ _ _ hd
  have hcw : (addLines (newReport w size rs "csv" total).finalize
      (csvHeader :: (successes rs).map csvRow)).w = w ++ csvHeader :: (successes rs).map csvRow := by
    show (newReport w size rs "csv" total).finalize.w ++ _ = _
    rw [hwc]
  refine ⟨setOutput d out, d, _, e1, e2, rfl, ⟨pre, hp⟩, e3, hcw, ?_⟩
  intro heq
  have h2 : (newReport w size rs "csv" total).finalize.printCSV = .ok _ :=
    printCSV_finalize w size rs "csv" total
  obtain ⟨pre', x, hc, hx⟩ := printCSV_last _ _ h2
  have hp' : (setOutput d out).w = pre ++ [closingLine] := hp
  rw [hp', hc] at heq
  have := List.append_inj_right' heq rfl
  injection this with this
  rw [← this] at hx
  exact hx rfl

theorem print_unknown_output_witness :
    ∃ r' d c, (newReport [] 0 [⟨none, 200, 3, 1, 1, 1, 1, 1, 5⟩,
          ⟨some "timeout", 0, 0, 0, 0, 0, 0, 0, 0⟩] "json" 10).finalize.print 11 = .ok r' ∧
      (newReport [] 0 [⟨none, 200, 3, 1, 1, 1, 1, 1, 5⟩,
          ⟨some "timeout", 0, 0, 0, 0, 0, 0, 0, 0⟩] "" 10).finalize.print 11 = .ok d ∧
      r'.w = d.w ∧
      (∃ pre, r'.w = pre ++ [closingLine]) ∧
      (newReport [] 0 [⟨none, 200, 3, 1, 1, 1, 1, 1, 5⟩,
          ⟨some "timeout", 0, 0, 0, 0, 0, 0, 0, 0⟩] "csv" 10).finalize.print 11 = .ok c ∧
      c.w = [] ++ csvHeader :: (successes [⟨none, 200, 3, 1, 1, 1, 1, 1, 5⟩,
          ⟨some "timeout", 0, 0, 0, 0, 0, 0, 0, 0⟩]).map csvRow ∧
      r'.w ≠ c.w :=
  print_unknown_output [] 0 [⟨none, 200, 3, 1, 1, 1, 1, 1, 5⟩,
    ⟨some "timeout", 0, 0, 0, 0, 0, 0, 0, 0⟩] "json" 10 11 (by decide) (by decide)

end requester
